import Mathlib

/-!
# ethrpc: client calls, retry, batch and decoding

A shallow embedding of `ethrpc.go`, `node_api.go`, `etherscan_api.go` and `types.go`.

Conventions of the embedding

* A Go return pair `(v, err)` is a Lean pair whose second component is `Option GoError`
  (`none` is the nil error); a Go pointer or slice result that may be nil is an `Option`.
* Go `int` and `big.Int` values are `Int`. The modelled code does no arithmetic on them
  besides the retry counter, which stays below 7; the decoder of an `int` field checks the
  64-bit range. A nil slice and an empty slice are both the empty list, except where the
  result of an operation may be nil (then it is an `Option`).
* A `json.RawMessage` is `Option JSON`: `none` is the nil message (member absent), `some v`
  the bytes of the JSON value `v`. Comparing the bytes with `null` or `false` is comparing
  the value with the literal, because a raw message holds exactly the bytes of one value.
* A string literal carries the text between its quotes as it stands in the input, because
  the hooks of `types.go` are handed the bytes of a value and not its content
  (`JSON.str`, `JSON.escaped`, `JSON.raw`). The white space between the tokens of a text is
  not represented.
* The `*http.Client` of a client is a script `Do k req`: the answer to the `k`-th exchange
  (counted from 0) of the running operation when the request `req` is sent.
* Diagnostic output (`fmt.Printf`, `fmt.Println`), `time.Sleep` and closing of response
  bodies have no effect on returned values and are left out.
-/

namespace Ethrpc

/-! ## ethrpc.go -/

/-- EthError - ethereum error (`ethrpc.go`, lines 9-13). -/
structure EthError where
  Code : Int
  Message : String
deriving DecidableEq

/-- Go error values. `errorf` is `fmt.Errorf(format, args...)`, `eth` an `EthError` used as an
error, `other` any error value built by the standard library (net/http, io, encoding/json)
or by the hex helpers. -/
inductive GoError where
  | errorf (format : String) (args : List Int)
  | eth (e : EthError)
  | other (msg : String)
deriving DecidableEq

/-- JSON values as they stand in a text. `int` is a number literal without fraction and
exponent, `real` any other number literal (kept as text). A string literal comes in two
forms: `str s` is a literal written without escape sequences, so that the text between its
quotes is its content `s`; `escaped wire content` is a literal written with escape
sequences, `wire` being the text between its quotes as it stands in the input and `content`
the string it denotes (the literal `"0x1\u0030"` is `escaped "0x1\\u0030" "0x10"`). -/
inductive JSON where
  | null
  | bool (b : Bool)
  | int (n : Int)
  | real (lit : String)
  | str (s : String)
  | escaped (wire content : String)
  | arr (elems : List JSON)
  | obj (members : List (String × JSON))

abbrev RawMessage := Option JSON

/-- Type `EthResponse` (`ethrpc.go`, lines 19-24). -/
structure EthResponse where
  ID : Int
  Version : String
  Result : RawMessage
  Error : Option EthError

/-- Type `FilterParams` (`types.go`, lines 84-89). -/
structure FilterParams where
  FromBlock : String
  ToBlock : String
  Address : List String
  Topics : List (List String)

/-- Values passed as `interface{}` parameters. `other ok` stands for any other Go value;
`ok` tells whether `json.Marshal` accepts it. -/
inductive Param where
  | nil
  | str (s : String)
  | bool (b : Bool)
  | int (n : Int)
  | strMap (m : List (String × String))
  | filter (f : FilterParams)
  | slice (xs : List Param)
  | other (ok : Bool)

/-- Type `EthRequest` (`ethrpc.go`, lines 26-31). -/
structure EthRequest where
  ID : Int
  Version : String
  Method : String
  Params : List Param

/-- NewEthRequest (`ethrpc.go`, lines 33-40). -/
def NewEthRequest (method : String) (params : List Param) : EthRequest :=
  { ID := 1, Version := "2.0", Method := method, Params := params }

/-! ## encoding/json, as far as the envelope types use it -/

mutual
/-- Whether `json.Marshal` fails on a parameter value. -/
def Param.marshalFails : Param → Bool
  | .slice xs => Param.anyMarshalFails xs
  | .other ok => !ok
  | _ => false
/-- Whether `json.Marshal` fails on some value of a parameter list. -/
def Param.anyMarshalFails : List Param → Bool
  | [] => false
  | p :: ps => Param.marshalFails p || Param.anyMarshalFails ps
end

/-- The error of `json.Marshal` on a request, if any. -/
def marshalError (r : EthRequest) : Option GoError :=
  if Param.anyMarshalFails r.Params then some (.other "json: unsupported type") else none

/-- The error of `json.Marshal` on a request list, if any. -/
def marshalErrors (rs : List EthRequest) : Option GoError :=
  if rs.any (fun r => Param.anyMarshalFails r.Params) then
    some (.other "json: unsupported type") else none

/-- ASCII case folding of a key, for the case-insensitive field match of `encoding/json`
(which also folds the two non-ASCII letters U+017F and U+212A; keys with them are outside
the model). -/
def foldKey (s : String) : List Char := s.data.map Char.toLower

/-- Whether the object key `key` selects the struct field with JSON name `name`. All field
names of the decoded types are distinct lower-case words, so the exact match that
`encoding/json` tries first is a special case of the folded match. -/
def keyIs (key name : String) : Bool := foldKey key == foldKey name

/-- The first error saved while decoding (`decodeState.saveError`). -/
def saveError (saved : Option GoError) (e : GoError) : Option GoError :=
  match saved with
  | some s => some s
  | none => some e

/-- The kind word of a JSON value in an `UnmarshalTypeError`. -/
def JSON.kind : JSON → String
  | .null => "null"
  | .bool _ => "bool"
  | .int _ => "number"
  | .real _ => "number"
  | .str _ => "string"
  | .escaped _ _ => "string"
  | .arr _ => "array"
  | .obj _ => "object"

def typeError (v : JSON) (target : String) : GoError :=
  .other ("json: cannot unmarshal " ++ v.kind ++ " into Go value of type " ++ target)

/-- Decoding a JSON value into a Go `int`: `null` leaves the field alone, an integer literal
in the 64-bit range is stored, anything else saves a type error. -/
def decodeInt (v : JSON) (cur : Int) (saved : Option GoError) : Int × Option GoError :=
  match v with
  | .null => (cur, saved)
  | .int n =>
    if -(2 : Int) ^ 63 ≤ n ∧ n < (2 : Int) ^ 63 then (n, saved)
    else (cur, saveError saved (typeError v "int"))
  | _ => (cur, saveError saved (typeError v "int"))

/-- Decoding a JSON value into a Go `string`. -/
def decodeString (v : JSON) (cur : String) (saved : Option GoError) :
    String × Option GoError :=
  match v with
  | .null => (cur, saved)
  | .str s => (s, saved)
  | .escaped _ content => (content, saved)
  | _ => (cur, saveError saved (typeError v "string"))

/-- Decoding the members of an object into an `EthError` (fields `code`, `message`). -/
def decodeEthErrorMembers : List (String × JSON) → EthError → Option GoError →
    EthError × Option GoError
  | [], e, saved => (e, saved)
  | (k, v) :: ms, e, saved =>
    if keyIs k "code" then
      let r := decodeInt v e.Code saved
      decodeEthErrorMembers ms { e with Code := r.1 } r.2
    else if keyIs k "message" then
      let r := decodeString v e.Message saved
      decodeEthErrorMembers ms { e with Message := r.1 } r.2
    else decodeEthErrorMembers ms e saved

/-- Decoding a JSON value into the `*EthError` field: `null` sets the pointer to nil, an
object fills the pointed-to value (allocated when nil), anything else allocates and saves a
type error. -/
def decodeEthErrorPtr (v : JSON) (cur : Option EthError) (saved : Option GoError) :
    Option EthError × Option GoError :=
  match v with
  | .null => (none, saved)
  | .obj ms =>
    let r := decodeEthErrorMembers ms (cur.getD ⟨0, ""⟩) saved
    (some r.1, r.2)
  | _ => (some (cur.getD ⟨0, ""⟩), saveError saved (typeError v "ethrpc.EthError"))

/-- Decoding the members of an object into an `EthResponse` (fields `id`, `jsonrpc`,
`result`, `error`), in the order of the members; unknown keys are skipped. -/
def decodeEthResponseMembers : List (String × JSON) → EthResponse → Option GoError →
    EthResponse × Option GoError
  | [], r, saved => (r, saved)
  | (k, v) :: ms, r, saved =>
    if keyIs k "id" then
      let d := decodeInt v r.ID saved
      decodeEthResponseMembers ms { r with ID := d.1 } d.2
    else if keyIs k "jsonrpc" then
      let d := decodeString v r.Version saved
      decodeEthResponseMembers ms { r with Version := d.1 } d.2
    else if keyIs k "result" then
      decodeEthResponseMembers ms { r with Result := some v } saved
    else if keyIs k "error" then
      let d := decodeEthErrorPtr v r.Error saved
      decodeEthResponseMembers ms { r with Error := d.1 } d.2
    else decodeEthResponseMembers ms r saved

/-- The zero `EthResponse`. -/
def EthResponse.zero : EthResponse := ⟨0, "", none, none⟩

/-- Decoding one JSON value into a zero `EthResponse` slot, threading the saved error. -/
def decodeEthResponse (v : JSON) (saved : Option GoError) : EthResponse × Option GoError :=
  match v with
  | .null => (EthResponse.zero, saved)
  | .obj ms => decodeEthResponseMembers ms EthResponse.zero saved
  | _ => (EthResponse.zero, saveError saved (typeError v "ethrpc.EthResponse"))

/-- The call `json.Unmarshal(data, resp)` with `resp := new(EthResponse)`, on the value
that `data` holds: the filled response and the error. -/
def unmarshalEthResponse (v : JSON) : EthResponse × Option GoError :=
  decodeEthResponse v none

/-! ## net/http, as far as the clients use it -/

/-- What the request body carries: nothing (GET), one marshalled request, or a marshalled
request list. -/
inductive Payload where
  | empty
  | one (r : EthRequest)
  | many (rs : List EthRequest)

/-- An outgoing HTTP request: method, address, query values in the order they were added,
content type and body. -/
structure HttpRequest where
  Method : String
  URL : String
  Query : List (String × String)
  ContentType : String
  Body : Payload

/-- What reading and parsing a response body gives: `ioutil.ReadAll` fails, the bytes are not
a JSON text (the syntax error of `json.Unmarshal`), or the bytes are the JSON value `v`. -/
inductive BodyData where
  | readError (e : GoError)
  | invalid (e : GoError)
  | json (v : JSON)

structure HttpResponse where
  StatusCode : Int
  Body : BodyData

/-- The pair `(response, err)` of `client.Do` and `client.Post`. -/
inductive Answer where
  | err (e : GoError)
  | ok (response : HttpResponse)

/-- The HTTP side of a client. `NewRequest url` is the error of
`http.NewRequest("GET", url, nil)`, if any; `Do k req` is the answer to the `k`-th exchange
of the running operation. -/
structure HTTPClient where
  NewRequest : String → Option GoError
  Do : Nat → HttpRequest → Answer

/-- The common tail of `NodeAPI.Call` (`node_api.go`, lines 110-132) and `EtherscanAPI.Call`
(`etherscan_api.go`, lines 112-134) once a response is there: status check, body read,
envelope decoding, error member, result member. -/
def finishCall (response : HttpResponse) : RawMessage × Option GoError :=
  if response.StatusCode ≠ 200 then
    (none, some (.errorf "http status code error %d" [response.StatusCode]))
  else
    match response.Body with
    | .readError err => (none, some err)
    | .invalid err => (none, some err)
    | .json v =>
      match unmarshalEthResponse v with
      | (_, some err) => (none, some err)
      | (resp, none) =>
        match resp.Error with
        | some e => (none, some (.eth e))
        | none => (resp.Result, none)

/-! ## node_api.go: Call and BatchCall -/

/-- Type `NodeAPI` (`node_api.go`, lines 12-16). -/
structure NodeAPI where
  url : String
  client : HTTPClient
  debug : Bool

/-- Call returns raw response of method call (`node_api.go`, lines 90-133). -/
def NodeAPI.Call (x : NodeAPI) (method : String) (params : List Param) :
    RawMessage × Option GoError :=
  let request : EthRequest := { ID := 1, Version := "2.0", Method := method, Params := params }
  match marshalError request with
  | some err => (none, some err)
  | none =>
    match x.client.Do 0 ⟨"POST", x.url, [], "application/json", .one request⟩ with
    | .err err => (none, some err)
    | .ok response => finishCall response

/-- Decoding the elements of a JSON array into a slice of `EthResponse`, threading the saved
error. -/
def decodeEthResponses : List JSON → Option GoError → List EthResponse × Option GoError
  | [], saved => ([], saved)
  | v :: vs, saved =>
    let d := decodeEthResponse v saved
    let r := decodeEthResponses vs d.2
    (d.1 :: r.1, r.2)

/-- The call `json.Unmarshal(data, resps)` with `resps := &[]EthResponse{}`, on the value that
`data` holds: the slice `*resps` afterwards and the error. The literal `null` sets the slice
to nil (`none`); an array replaces it by the decoded elements (the empty array by an empty
slice that is not nil); any other value leaves the empty slice in place and saves a type
error. -/
def unmarshalEthResponses (v : JSON) : Option (List EthResponse) × Option GoError :=
  match v with
  | .null => (none, none)
  | .arr vs => (some (decodeEthResponses vs none).1, (decodeEthResponses vs none).2)
  | _ => (some [], some (typeError v "[]ethrpc.EthResponse"))

/-- The batch request (`node_api.go`, lines 56-87). The result `*resps` is nil exactly when
the body was the literal `null`. -/
def NodeAPI.BatchCall (x : NodeAPI) (reqs : List EthRequest) :
    Option (List EthResponse) × Option GoError :=
  match marshalErrors reqs with
  | some err => (none, some err)
  | none =>
    match x.client.Do 0 ⟨"POST", x.url, [], "application/json", .many reqs⟩ with
    | .err err => (none, some err)
    | .ok response =>
      if response.StatusCode ≠ 200 then
        (none, some (.errorf "http status code error %d" [response.StatusCode]))
      else
        match response.Body with
        | .readError err => (none, some err)
        | .invalid err => (none, some err)
        | .json v =>
          match unmarshalEthResponses v with
          | (_, some err) => (none, some err)
          | (resps, none) => (resps, none)

/-! ## etherscan_api.go: the client and Call -/

/-- Type `EtherscanAPI` (`etherscan_api.go`, lines 14-19). -/
structure EtherscanAPI where
  tokens : List String
  url : String
  client : HTTPClient
  debug : Bool

/-- How a run of `EtherscanAPI.Call` ends: it returns a pair, it panics, or the model's step
budget is used up before it ends (`unfinished`; `Call` never ends so, and a larger budget
gives the same run: `EtherscanAPI.Call_finishes`, `retryLoop_budget_irrelevant`). -/
inductive Outcome where
  | ret (result : RawMessage) (err : Option GoError)
  | panic (reason : String)
  | unfinished

/-- A run of `EtherscanAPI.Call`: how it ended and the requests it sent, in order. -/
structure Run where
  outcome : Outcome
  sent : List HttpRequest

/-- The body of `EtherscanAPI.Call` from the label `retry:` on (`etherscan_api.go`, lines
68-134). `retry` is the local counter, `sent` the requests sent so far in this call, and the
first argument bounds the number of passes through the label. -/
def EtherscanAPI.retryLoop (x : EtherscanAPI) (method : String) (params : List Param) :
    Nat → Nat → List HttpRequest → Run
  | 0, _, sent => ⟨.unfinished, sent⟩
  | fuel + 1, retry, sent =>
    if x.tokens.length = 0 then ⟨.panic "integer divide by zero", sent⟩ else
    let tokenIndex := retry % x.tokens.length
    match x.tokens.get? tokenIndex with
    | none => ⟨.panic "index out of range", sent⟩
    | some token =>
      if retry > 5 then ⟨.ret none (some (.errorf "etherscan retry failed" [])), sent⟩ else
      let retry := retry + 1
      match x.client.NewRequest x.url with
      | some err => ⟨.ret none (some err), sent⟩
      | none =>
        let q := [("module", "proxy"), ("action", method), ("apikey", token)]
        match params with
        | [] => ⟨.panic "index out of range [0] with length 0", sent⟩
        | _ :: _ =>
          let req : HttpRequest := ⟨"GET", x.url, q, "application/json", .empty⟩
          match x.client.Do sent.length req with
          | .err err => ⟨.ret none (some err), sent ++ [req]⟩
          | .ok response =>
            if response.StatusCode = 403 then
              EtherscanAPI.retryLoop x method params fuel retry (sent ++ [req])
            else
              let r := finishCall response
              ⟨.ret r.1 r.2, sent ++ [req]⟩

/-- Call returns raw response of method call (`etherscan_api.go`, lines 65-136). -/
def EtherscanAPI.Call (x : EtherscanAPI) (method : String) (params : List Param) : Run :=
  EtherscanAPI.retryLoop x method params 7 0 []

/-- The value of the `apikey` query parameter of a request. -/
def HttpRequest.apikey (r : HttpRequest) : Option String :=
  (r.Query.find? (fun kv => kv.1 == "apikey")).map Prod.snd

/-! ## Constructors -/

/-- The call `strings.Split(s, ",")` on the characters of `s`: `cur` holds, reversed, the
characters of the piece being read. The result always has at least one piece. -/
def splitComma : List Char → List Char → List String
  | cur, [] => [String.mk cur.reverse]
  | cur, c :: cs =>
    if c = ',' then String.mk cur.reverse :: splitComma [] cs else splitComma (c :: cur) cs

/-- New create new rpc client with given url (`node_api.go`, lines 19-29);
`defaultClient` is `http.DefaultClient`. -/
def NewNodeAPI (defaultClient : HTTPClient) (url : String)
    (options : List (NodeAPI → NodeAPI)) : NodeAPI :=
  options.foldl (fun rpc option => option rpc)
    { url := url, client := defaultClient, debug := false }

/-- The constructor `NewEtherscanAPI` (`etherscan_api.go`, lines 22-33); `defaultClient` is
`http.DefaultClient`. -/
def NewEtherscanAPI (defaultClient : HTTPClient) (token : String)
    (options : List (EtherscanAPI → EtherscanAPI)) : EtherscanAPI :=
  options.foldl (fun rpc option => option rpc)
    { tokens := splitComma [] token.data, url := "https://api.etherscan.io/api",
      client := defaultClient, debug := false }

/-- The method `(*EtherscanAPI).Debug` (`etherscan_api.go`, lines 35-37). -/
def EtherscanAPI.Debug (x : EtherscanAPI) (debug : Bool) : EtherscanAPI :=
  { x with debug := debug }

/-! ## Notions used in the statements about `EtherscanAPI.Call` -/

/-- The status code of an answer, when there is a response. -/
def Answer.status : Answer → Option Int
  | .err _ => none
  | .ok response => some response.StatusCode

/-- The request that `EtherscanAPI.Call` builds with a given credential. -/
def EtherscanAPI.requestWith (x : EtherscanAPI) (method token : String) : HttpRequest :=
  ⟨"GET", x.url, [("module", "proxy"), ("action", method), ("apikey", token)],
    "application/json", .empty⟩

/-- The credential of attempt `k`: `tokens[k % len(tokens)]`. -/
def EtherscanAPI.tokenAt (x : EtherscanAPI) (k : Nat) : String :=
  (x.tokens.get? (k % x.tokens.length)).getD ""

/-- The requests of a run from position `n` on follow the retry discipline: each is the
request built with the credential of its position, a further request follows it only after
a 403, and any other answer ends the run with that answer's result. -/
def TraceFrom (x : EtherscanAPI) (method : String) (run : Run) (n : Nat) : Prop :=
  ∀ (k : Nat) (req : HttpRequest), n ≤ k → run.sent[k]? = some req →
    req = x.requestWith method (x.tokenAt k) ∧ x.tokens ≠ [] ∧
    (k + 1 < run.sent.length → (x.client.Do k req).status = some 403) ∧
    (∀ response, x.client.Do k req = .ok response → response.StatusCode ≠ 403 →
      run.sent.length = k + 1 ∧
      run.outcome = .ret (finishCall response).1 (finishCall response).2) ∧
    (∀ err, x.client.Do k req = .err err →
      run.sent.length = k + 1 ∧ run.outcome = .ret none (some err))

/-- An envelope with a result member and no error member. -/
def resultEnvelope (r : JSON) : JSON :=
  .obj [("jsonrpc", .str "2.0"), ("id", .int 1), ("result", r)]

/-- A transport that answers 403 to the first `j` exchanges of an operation and then 200
with the given body. -/
def limitedClient (j : Nat) (body : JSON) : HTTPClient :=
  ⟨fun _ => none, fun k _ => if k < j then .ok ⟨403, .invalid (.other "Forbidden")⟩
    else .ok ⟨200, .json body⟩⟩

/-- A transport that answers every request with the given status and body. -/
def fixedClient (status : Int) (body : BodyData) : HTTPClient :=
  ⟨fun _ => none, fun _ _ => .ok ⟨status, body⟩⟩

/-- An explorer client with the three credentials `key0`, `key1`, `key2` over a given
transport, built by the constructor. -/
def threeKeys (client : HTTPClient) : EtherscanAPI :=
  NewEtherscanAPI client "key0,key1,key2" []

/-- A transport that answers every request with the given status and body, and for which
`http.NewRequest` rejects the address `%zz` (an invalid URL escape) and accepts every
other address. -/
def escapeCheckingClient (status : Int) (body : BodyData) : HTTPClient :=
  ⟨fun url => if url = "%zz" then some (.other "invalid URL escape") else none,
    fun _ _ => .ok ⟨status, body⟩⟩

/-- An explorer client with the three credentials `key0`, `key1`, `key2` over a given
transport, built by the constructor with an option that sets the address. -/
def threeKeysAt (url : String) (client : HTTPClient) : EtherscanAPI :=
  NewEtherscanAPI client "key0,key1,key2" [fun x => { x with url := url }]

/-! ## Examples for the batch call -/

/-- An envelope of a batch reply: result `r` for the request with id `n`. -/
def replyEnvelope (n : Int) (r : JSON) : JSON :=
  .obj [("jsonrpc", .str "2.0"), ("id", .int n), ("result", r)]

/-- A node client over a given transport. -/
def nodeOver (client : HTTPClient) : NodeAPI :=
  ⟨"http://127.0.0.1:8545", client, false⟩

/-- Three block-number requests with ids 1, 2, 3. -/
def threeRequests : List EthRequest :=
  [⟨1, "2.0", "eth_blockNumber", []⟩, ⟨2, "2.0", "eth_blockNumber", []⟩,
    ⟨3, "2.0", "eth_blockNumber", []⟩]

/-- The ids of a returned batch. -/
def batchIds (r : Option (List EthResponse) × Option GoError) : Option (List Int) :=
  r.1.map (fun rs => rs.map EthResponse.ID)

/-! ## Notions used in the statements about the response envelope -/

/-- The members `ms` of an envelope object have an error member with code `c` and message
`m`: some member with key `error` is the object `{"code": c, "message": m}` and no later
member has that key. -/
def HasErrorMember (ms : List (String × JSON)) (c : Int) (m : String) : Prop :=
  ∃ pre key post, ms = pre ++ (key, JSON.obj [("code", .int c), ("message", .str m)]) :: post ∧
    keyIs key "error" = true ∧ ∀ kv ∈ post, keyIs kv.1 "error" = false

/-- The members `ms` of an envelope object have the result member `r`: some member with key
`result` is `r` and no later member has that key. -/
def HasResultMember (ms : List (String × JSON)) (r : JSON) : Prop :=
  ∃ pre key post, ms = pre ++ (key, r) :: post ∧
    keyIs key "result" = true ∧ ∀ kv ∈ post, keyIs kv.1 "result" = false

/-- An envelope with a result member and an error member. -/
def errorEnvelope (r : JSON) (c : Int) (m : String) : JSON :=
  .obj [("jsonrpc", .str "2.0"), ("id", .int 1), ("result", r),
    ("error", .obj [("code", .int c), ("message", .str m)])]

/-! ## The hex helpers (not among the source files) -/

/-- The value of a hexadecimal digit, lower or upper case. -/
def hexDigitValue (c : Char) : Option Nat :=
  if '0' ≤ c ∧ c ≤ '9' then some (c.toNat - '0'.toNat)
  else if 'a' ≤ c ∧ c ≤ 'f' then some (c.toNat - 'a'.toNat + 10)
  else if 'A' ≤ c ∧ c ≤ 'F' then some (c.toNat - 'A'.toNat + 10)
  else none

/-- The value of a digit string read most significant digit first, from the value `acc` of
the digits already read; `none` when a character is not a hexadecimal digit. -/
def hexValue : List Char → Nat → Option Nat
  | [], acc => some acc
  | c :: cs, acc =>
    match hexDigitValue c with
    | none => none
    | some d => hexValue cs (16 * acc + d)

/-- Modelled from the spec: `ParseInt`, which is not among the source files. By section 4.1
and section 8 of the specification it fails if the string lacks the `0x` prefix, contains a
non-hex digit, has no digit at all (`ParseInt("")` and `ParseInt("0x")` both fail) or the
value overflows the native (64-bit signed) integer range; otherwise it returns the value.
A failure returns 0 with the error. -/
def ParseInt (s : String) : Int × Option GoError :=
  match s.data with
  | '0' :: 'x' :: ds =>
    if ds = [] then (0, some (.other "ParseInt: no digits")) else
    match hexValue ds 0 with
    | none => (0, some (.other "ParseInt: invalid syntax"))
    | some n =>
      if n < 2 ^ 63 then ((n : Int), none) else (0, some (.other "ParseInt: value out of range"))
  | _ => (0, some (.other "ParseInt: missing 0x"))

/-! ## types.go: sync status -/

/-- The call `bytes.Trim(data, cutset)` for a one-character cutset: all leading and trailing
occurrences of the character are removed. -/
def bytesTrim (data : String) (cut : Char) : String :=
  ⟨((data.data.dropWhile (· == cut)).reverse.dropWhile (· == cut)).reverse⟩

mutual
/-- The bytes of a JSON value in the input, as the decoder hands them to an `Unmarshaler`.
A string literal is the text between its quotes exactly as written, escape sequences
included, with the quotes around it; the other scalars are their spelling. For an array
or an object the text is given without the white space that may stand between its tokens
(and the integer literal `-0` is given as `0`): such texts are outside the model where
their bytes are looked at, which is only when they stand where a hex quantity is expected. -/
def JSON.raw : JSON → String
  | .null => "null"
  | .bool true => "true"
  | .bool false => "false"
  | .int n => toString n
  | .real lit => lit
  | .str s => "\"" ++ s ++ "\""
  | .escaped wire _ => "\"" ++ wire ++ "\""
  | .arr vs => "[" ++ JSON.rawElems vs ++ "]"
  | .obj ms => "\x7b" ++ JSON.rawMembers ms ++ "\x7d"
/-- The texts of array elements, separated by commas. -/
def JSON.rawElems : List JSON → String
  | [] => ""
  | [v] => JSON.raw v
  | v :: vs => JSON.raw v ++ "," ++ JSON.rawElems vs
/-- The texts of object members, separated by commas. -/
def JSON.rawMembers : List (String × JSON) → String
  | [] => ""
  | [(k, v)] => "\"" ++ k ++ "\":" ++ JSON.raw v
  | (k, v) :: ms => "\"" ++ k ++ "\":" ++ JSON.raw v ++ "," ++ JSON.rawMembers ms
end

/-- Syncing - object with syncing data info (`types.go`, lines 11-16). -/
structure Syncing where
  IsSyncing : Bool
  StartingBlock : Int
  CurrentBlock : Int
  HighestBlock : Int
deriving DecidableEq

/-- Type `proxySyncing` (`types.go`, lines 197-202); `hexInt` is `int`. -/
structure proxySyncing where
  IsSyncing : Bool
  StartingBlock : Int
  CurrentBlock : Int
  HighestBlock : Int
deriving DecidableEq

/-- The method `(*hexInt).UnmarshalJSON` (`types.go`, lines 246-251): the new value of `*i`
and the error. `parseInt` is the hex helper `ParseInt`, which is not among the source files. -/
def hexInt.UnmarshalJSON (parseInt : String → Int × Option GoError) (data : String) :
    Int × Option GoError :=
  let r := parseInt (bytesTrim data '"')
  (r.1, r.2)

/-- Decoding the members of an object into a `proxySyncing`: each member whose key names a
field is handed, as raw text, to `hexInt.UnmarshalJSON`; the first error ends the decoding.
The field `IsSyncing` is tagged `json:"-"` and never decoded. -/
def decodeProxySyncingMembers (parseInt : String → Int × Option GoError) :
    List (String × JSON) → proxySyncing → proxySyncing × Option GoError
  | [], p => (p, none)
  | (k, v) :: ms, p =>
    if keyIs k "startingBlock" then
      match hexInt.UnmarshalJSON parseInt v.raw with
      | (n, some err) => ({ p with StartingBlock := n }, some err)
      | (n, none) => decodeProxySyncingMembers parseInt ms { p with StartingBlock := n }
    else if keyIs k "currentBlock" then
      match hexInt.UnmarshalJSON parseInt v.raw with
      | (n, some err) => ({ p with CurrentBlock := n }, some err)
      | (n, none) => decodeProxySyncingMembers parseInt ms { p with CurrentBlock := n }
    else if keyIs k "highestBlock" then
      match hexInt.UnmarshalJSON parseInt v.raw with
      | (n, some err) => ({ p with HighestBlock := n }, some err)
      | (n, none) => decodeProxySyncingMembers parseInt ms { p with HighestBlock := n }
    else decodeProxySyncingMembers parseInt ms p

/-- The call `json.Unmarshal(data, proxy)` with `proxy := new(proxySyncing)`, on the value
that `data` holds. -/
def unmarshalProxySyncing (parseInt : String → Int × Option GoError) (v : JSON) :
    proxySyncing × Option GoError :=
  match v with
  | .null => (⟨false, 0, 0, 0⟩, none)
  | .obj ms => decodeProxySyncingMembers parseInt ms ⟨false, 0, 0, 0⟩
  | _ => (⟨false, 0, 0, 0⟩, some (typeError v "ethrpc.proxySyncing"))

/-- UnmarshalJSON implements the json.Unmarshaler interface (`types.go`, lines 19-29): the
new value of `*s` and the error. The cast through `unsafe.Pointer` copies the four fields,
which have the same layout in both types. -/
def Syncing.UnmarshalJSON (parseInt : String → Int × Option GoError) (s : Syncing)
    (data : JSON) : Syncing × Option GoError :=
  match unmarshalProxySyncing parseInt data with
  | (_, some err) => (s, some err)
  | (proxy, none) =>
    let proxy := { proxy with IsSyncing := true }
    (⟨proxy.IsSyncing, proxy.StartingBlock, proxy.CurrentBlock, proxy.HighestBlock⟩, none)

/-- EthSyncing returns an object with data about the sync status or false (`node_api.go`,
lines 178-189). -/
def NodeAPI.EthSyncing (parseInt : String → Int × Option GoError) (x : NodeAPI) :
    Option Syncing × Option GoError :=
  match x.Call "eth_syncing" [] with
  | (_, some err) => (none, some err)
  | (result, none) =>
    let syncing : Syncing := ⟨false, 0, 0, 0⟩
    match result with
    | some (.bool false) => (some syncing, none)
    | none => (some syncing, some (.other "unexpected end of JSON input"))
    | some data =>
      let r := Syncing.UnmarshalJSON parseInt syncing data
      (some r.1, r.2)

/-- The value of the last member of an object whose key names the field `name`: the one
that decoding leaves in the field. -/
def lastMember (name : String) : List (String × JSON) → Option JSON
  | [] => none
  | (k, v) :: ms =>
    match lastMember name ms with
    | some w => some w
    | none => if keyIs k name then some v else none

/-- Whether a key names one of the three height fields of the sync status. -/
def isHeightKey (k : String) : Bool :=
  keyIs k "startingBlock" || keyIs k "currentBlock" || keyIs k "highestBlock"

/-- The text between the quotes of a string literal, as it stands in the input; `none` for
a value that is not a string literal. -/
def JSON.wireText : JSON → Option String
  | .str s => some s
  | .escaped wire _ => some wire
  | _ => none

/-- The sync-status object of the specification's example. -/
def syncingExample : JSON :=
  .obj [("startingBlock", .str "0x0"), ("currentBlock", .str "0x1"),
    ("highestBlock", .str "0x2")]

/-! ## types.go: entities and their shadows -/

/-- Transaction - transaction object (`types.go`, lines 32-44). -/
structure Transaction where
  Hash : String
  Nonce : Int
  BlockHash : String
  BlockNumber : Option Int
  TransactionIndex : Option Int
  From : String
  To : String
  Value : Int
  Gas : Int
  GasPrice : Int
  Input : String
deriving DecidableEq

/-- Type `proxyTransaction` (`types.go`, lines 204-216); `hexInt` is `int`, `hexBig` is
`big.Int`. -/
structure proxyTransaction where
  Hash : String
  Nonce : Int
  BlockHash : String
  BlockNumber : Option Int
  TransactionIndex : Option Int
  From : String
  To : String
  Value : Int
  Gas : Int
  GasPrice : Int
  Input : String
deriving DecidableEq

/-- Log - log object (`types.go`, lines 59-69). -/
structure Log where
  Removed : Bool
  LogIndex : Int
  TransactionIndex : Int
  TransactionHash : String
  BlockNumber : Int
  BlockHash : String
  Address : String
  Data : String
  Topics : List String
deriving DecidableEq

/-- TransactionReceipt - transaction receipt object (`types.go`, lines 92-104). -/
structure TransactionReceipt where
  TransactionHash : String
  TransactionIndex : Int
  BlockHash : String
  BlockNumber : Int
  CumulativeGasUsed : Int
  GasUsed : Int
  ContractAddress : String
  Logs : List Log
  LogsBloom : String
  Root : String
  Status : Int
deriving DecidableEq

/-- Type `proxyTransactionReceipt` (`types.go`, lines 230-242). -/
structure proxyTransactionReceipt where
  TransactionHash : String
  TransactionIndex : Int
  BlockHash : String
  BlockNumber : Int
  CumulativeGasUsed : Int
  GasUsed : Int
  ContractAddress : String
  Logs : List Log
  LogsBloom : String
  Root : String
  Status : Int
deriving DecidableEq

/-- Block - block object (`types.go`, lines 119-138). -/
structure Block where
  Number : Int
  Hash : String
  ParentHash : String
  Nonce : String
  Sha3Uncles : String
  LogsBloom : String
  TransactionsRoot : String
  StateRoot : String
  Miner : String
  Difficulty : Int
  TotalDifficulty : Int
  ExtraData : String
  Size : Int
  GasLimit : Int
  GasUsed : Int
  Timestamp : Int
  Uncles : List String
  Transactions : List Transaction
deriving DecidableEq

/-- Type `UncleBlock` (`types.go`, lines 169-180). -/
structure UncleBlock where
  Number : Int
  Hash : String
  ParentHash : String
  Nonce : String
  Sha3Uncles : String
  LogsBloom : String
  TransactionsRoot : String
  StateRoot : String
  Miner : String
  Difficulty : Int
deriving DecidableEq

/-- Type `ProxyBlockWithTransactions` (`types.go`, lines 262-281). -/
structure ProxyBlockWithTransactions where
  Number : Int
  Hash : String
  ParentHash : String
  Nonce : String
  Sha3Uncles : String
  LogsBloom : String
  TransactionsRoot : String
  StateRoot : String
  Miner : String
  Difficulty : Int
  TotalDifficulty : Int
  ExtraData : String
  Size : Int
  GasLimit : Int
  GasUsed : Int
  Timestamp : Int
  Uncles : List String
  Transactions : List proxyTransaction
deriving DecidableEq

/-- Type `ProxyBlockWithoutTransactions` (`types.go`, lines 291-310). -/
structure ProxyBlockWithoutTransactions where
  Number : Int
  Hash : String
  ParentHash : String
  Nonce : String
  Sha3Uncles : String
  LogsBloom : String
  TransactionsRoot : String
  StateRoot : String
  Miner : String
  Difficulty : Int
  TotalDifficulty : Int
  ExtraData : String
  Size : Int
  GasLimit : Int
  GasUsed : Int
  Timestamp : Int
  Uncles : List String
  Transactions : List String
deriving DecidableEq

/-- The zero `Transaction`, as `new(Transaction)` gives it. -/
def Transaction.zero : Transaction := ⟨"", 0, "", none, none, "", "", 0, 0, 0, ""⟩

/-- The zero `TransactionReceipt`. -/
def TransactionReceipt.zero : TransactionReceipt := ⟨"", 0, "", 0, 0, 0, "", [], "", "", 0⟩

/-- The zero `UncleBlock`. -/
def UncleBlock.zero : UncleBlock := ⟨0, "", "", "", "", "", "", "", "", 0⟩

/-- The zero `ProxyBlockWithTransactions`. -/
def ProxyBlockWithTransactions.zero : ProxyBlockWithTransactions :=
  ⟨0, "", "", "", "", "", "", "", "", 0, 0, "", 0, 0, 0, 0, [], []⟩

/-- The zero `ProxyBlockWithoutTransactions`. -/
def ProxyBlockWithoutTransactions.zero : ProxyBlockWithoutTransactions :=
  ⟨0, "", "", "", "", "", "", "", "", 0, 0, "", 0, 0, 0, 0, [], []⟩

/-- The cast `*(*Transaction)(unsafe.Pointer(proxy))` (`types.go`, line 53): the two types
have the same fields in the same order and layout, so the cast copies field by field. -/
def proxyTransaction.cast (proxy : proxyTransaction) : Transaction :=
  { Hash := proxy.Hash, Nonce := proxy.Nonce, BlockHash := proxy.BlockHash,
    BlockNumber := proxy.BlockNumber, TransactionIndex := proxy.TransactionIndex,
    From := proxy.From, To := proxy.To, Value := proxy.Value, Gas := proxy.Gas,
    GasPrice := proxy.GasPrice, Input := proxy.Input }

/-- The cast `*(*TransactionReceipt)(unsafe.Pointer(proxy))` (`types.go`, line 113). -/
def proxyTransactionReceipt.cast (proxy : proxyTransactionReceipt) : TransactionReceipt :=
  { TransactionHash := proxy.TransactionHash, TransactionIndex := proxy.TransactionIndex,
    BlockHash := proxy.BlockHash, BlockNumber := proxy.BlockNumber,
    CumulativeGasUsed := proxy.CumulativeGasUsed, GasUsed := proxy.GasUsed,
    ContractAddress := proxy.ContractAddress, Logs := proxy.Logs,
    LogsBloom := proxy.LogsBloom, Root := proxy.Root, Status := proxy.Status }

/-- The method `(*UncleBlock).ToBlock` (`types.go`, lines 182-195); the fields it does not
set are zero. -/
def UncleBlock.ToBlock (proxy : UncleBlock) : Block :=
  { Number := proxy.Number, Hash := proxy.Hash, ParentHash := proxy.ParentHash,
    Nonce := proxy.Nonce, Sha3Uncles := proxy.Sha3Uncles, LogsBloom := proxy.LogsBloom,
    TransactionsRoot := proxy.TransactionsRoot, StateRoot := proxy.StateRoot,
    Miner := proxy.Miner, Difficulty := proxy.Difficulty,
    TotalDifficulty := 0, ExtraData := "", Size := 0, GasLimit := 0, GasUsed := 0,
    Timestamp := 0, Uncles := [], Transactions := [] }

/-- The method `(*ProxyBlockWithTransactions).ToBlock` (`types.go`, lines 283-285): the cast
`*(*Block)(unsafe.Pointer(proxy))`, which copies field by field, each transaction through
the same reinterpretation. The cast on the memory image of the value is
`ProxyBlockWithTransactions.castToBlock`. -/
def ProxyBlockWithTransactions.ToBlock (proxy : ProxyBlockWithTransactions) : Block :=
  { Number := proxy.Number, Hash := proxy.Hash, ParentHash := proxy.ParentHash,
    Nonce := proxy.Nonce, Sha3Uncles := proxy.Sha3Uncles, LogsBloom := proxy.LogsBloom,
    TransactionsRoot := proxy.TransactionsRoot, StateRoot := proxy.StateRoot,
    Miner := proxy.Miner, Difficulty := proxy.Difficulty,
    TotalDifficulty := proxy.TotalDifficulty, ExtraData := proxy.ExtraData,
    Size := proxy.Size, GasLimit := proxy.GasLimit, GasUsed := proxy.GasUsed,
    Timestamp := proxy.Timestamp, Uncles := proxy.Uncles,
    Transactions := proxy.Transactions.map proxyTransaction.cast }

/-- The loop of `(*ProxyBlockWithoutTransactions).ToBlock` (`types.go`, lines 333-338):
`make([]Transaction, len(hashes))` gives as many zero transactions as there are hashes, and
for each index `i` of `hashes`, in order, the element `i` is set to `Transaction{Hash:
hashes[i]}`. -/
def hashOnlyTransactions (hashes : List String) : List Transaction :=
  (List.range hashes.length).foldl
    (fun txs i => txs.set i { Transaction.zero with Hash := hashes.getD i "" })
    (List.replicate hashes.length Transaction.zero)

/-- The method `(*ProxyBlockWithoutTransactions).ToBlock` (`types.go`, lines 312-341). -/
def ProxyBlockWithoutTransactions.ToBlock (proxy : ProxyBlockWithoutTransactions) : Block :=
  { Number := proxy.Number, Hash := proxy.Hash, ParentHash := proxy.ParentHash,
    Nonce := proxy.Nonce, Sha3Uncles := proxy.Sha3Uncles, LogsBloom := proxy.LogsBloom,
    TransactionsRoot := proxy.TransactionsRoot, StateRoot := proxy.StateRoot,
    Miner := proxy.Miner, Difficulty := proxy.Difficulty,
    TotalDifficulty := proxy.TotalDifficulty, ExtraData := proxy.ExtraData,
    Size := proxy.Size, GasLimit := proxy.GasLimit, GasUsed := proxy.GasUsed,
    Timestamp := proxy.Timestamp, Uncles := proxy.Uncles,
    Transactions := hashOnlyTransactions proxy.Transactions }

/-- The interface `ProxyBlock` (`types.go`, lines 287-289) with its two implementations. -/
inductive ProxyBlock where
  | withTransactions (proxy : ProxyBlockWithTransactions)
  | withoutTransactions (proxy : ProxyBlockWithoutTransactions)

/-- The method `ToBlock` of the interface, dispatched on the implementation. -/
def ProxyBlock.ToBlock : ProxyBlock → Block
  | .withTransactions proxy => proxy.ToBlock
  | .withoutTransactions proxy => proxy.ToBlock

/-- The calls `json.Unmarshal(data, proxy)` of `encoding/json` for the shadow types that have
no `UnmarshalJSON` of their own, `proxy` being a fresh zero value: each a function from the
value that `data` holds to the filled shadow and the error. They are library code (with the
`hexInt` and `hexBig` hooks inside) and are left as parameters. -/
structure Unmarshalers where
  transaction : JSON → proxyTransaction × Option GoError
  receipt : JSON → proxyTransactionReceipt × Option GoError
  blockWithTransactions : JSON → ProxyBlockWithTransactions × Option GoError
  blockWithoutTransactions : JSON → ProxyBlockWithoutTransactions × Option GoError
  uncle : JSON → UncleBlock × Option GoError

/-- UnmarshalJSON implements the json.Unmarshaler interface (`types.go`, lines 47-56): the
new value of `*t` and the error. -/
def Transaction.UnmarshalJSON (u : Unmarshalers) (data : JSON) (t : Transaction) :
    Transaction × Option GoError :=
  match u.transaction data with
  | (_, some err) => (t, some err)
  | (proxy, none) => (proxy.cast, none)

/-- UnmarshalJSON implements the json.Unmarshaler interface (`types.go`, lines 107-116). -/
def TransactionReceipt.UnmarshalJSON (u : Unmarshalers) (data : JSON)
    (t : TransactionReceipt) : TransactionReceipt × Option GoError :=
  match u.receipt data with
  | (_, some err) => (t, some err)
  | (proxy, none) => (proxy.cast, none)

/-- The call `json.Unmarshal(result, response)` on a `ProxyBlock`: the implementation held
by the interface is the one that is filled. -/
def ProxyBlock.unmarshal (u : Unmarshalers) (data : JSON) (response : ProxyBlock) :
    ProxyBlock × Option GoError :=
  match response with
  | .withTransactions _ =>
    ((.withTransactions (u.blockWithTransactions data).1), (u.blockWithTransactions data).2)
  | .withoutTransactions _ =>
    ((.withoutTransactions (u.blockWithoutTransactions data).1),
      (u.blockWithoutTransactions data).2)

/-- The call `json.Unmarshal(result, uncleBlock)`. -/
def UncleBlock.unmarshal (u : Unmarshalers) (data : JSON) (_ : UncleBlock) :
    UncleBlock × Option GoError :=
  u.uncle data

/-! ## node_api.go: lookups -/

/-- The method `(*NodeAPI).call` (`node_api.go`, lines 39-53). `target` is the value the
pointer points to and `unmarshal` what `json.Unmarshal(result, target)` does to it; the
result is the new pointee and the returned error. Every caller passes a non-nil pointer, so
the branch `target == nil` is never taken and is left out. -/
def NodeAPI.call {T : Type} (x : NodeAPI) (method : String)
    (unmarshal : JSON → T → T × Option GoError) (target : T) (params : List Param) :
    T × Option GoError :=
  match x.Call method params with
  | (_, some err) => (target, some err)
  | (result, none) =>
    match result with
    | some .null => (target, some (.errorf "result null" []))
    | none => (target, some (.other "unexpected end of JSON input"))
    | some data => unmarshal data target

/-- The shadow that a block lookup allocates: `new(ProxyBlockWithTransactions)` when the
caller asks for transactions, `new(ProxyBlockWithoutTransactions)` otherwise (`node_api.go`,
lines 252-257; `etherscan_api.go`, lines 237-242). -/
def ProxyBlock.fresh (withTransactions : Bool) : ProxyBlock :=
  if withTransactions then .withTransactions ProxyBlockWithTransactions.zero
  else .withoutTransactions ProxyBlockWithoutTransactions.zero

/-- The method `(*NodeAPI).getBlock` (`node_api.go`, lines 251-269). -/
def NodeAPI.getBlock (u : Unmarshalers) (x : NodeAPI) (method : String)
    (withTransactions : Bool) (params : List Param) : Option Block × Option GoError :=
  let response : ProxyBlock := ProxyBlock.fresh withTransactions
  match x.call method (ProxyBlock.unmarshal u) response params with
  | (_, some err) => (none, some err)
  | (response, none) =>
    let block := response.ToBlock
    if block.Hash.length = 0 then (none, some (.errorf "block not found" []))
    else (some block, none)

/-- EthGetBlockByNumber returns information about a block by block number (`node_api.go`,
lines 272-274). `intToHex` is the hex helper `IntToHex`, which is not among the source
files. -/
def NodeAPI.EthGetBlockByNumber (u : Unmarshalers) (intToHex : Int → String) (x : NodeAPI)
    (number : Int) (withTransactions : Bool) : Option Block × Option GoError :=
  x.getBlock u "eth_getBlockByNumber" withTransactions
    [.str (intToHex number), .bool withTransactions]

/-- The method `(*NodeAPI).EthGetUncleByBlockNumberAndIndex` (`node_api.go`, lines
276-290). -/
def NodeAPI.EthGetUncleByBlockNumberAndIndex (u : Unmarshalers) (intToHex : Int → String)
    (x : NodeAPI) (number pos : Int) : Option Block × Option GoError :=
  match x.call "eth_getUncleByBlockNumberAndIndex" (UncleBlock.unmarshal u) UncleBlock.zero
      [.str (intToHex number), .str (intToHex pos)] with
  | (_, some err) => (none, some err)
  | (uncleBlock, none) =>
    let block := uncleBlock.ToBlock
    if block.Hash.length = 0 then (none, some (.errorf "block not found" []))
    else (some block, none)

/-- The method `(*NodeAPI).getTransaction` (`node_api.go`, lines 292-300). -/
def NodeAPI.getTransaction (u : Unmarshalers) (x : NodeAPI) (method : String)
    (params : List Param) : Option Transaction × Option GoError :=
  match x.call method (Transaction.UnmarshalJSON u) Transaction.zero params with
  | (transaction, err) =>
    if transaction.Hash.length = 0 then (none, some (.errorf "tx not found" []))
    else (some transaction, err)

/-- EthGetTransactionByHash returns the information about a transaction requested by
transaction hash (`node_api.go`, lines 303-305). -/
def NodeAPI.EthGetTransactionByHash (u : Unmarshalers) (x : NodeAPI) (hash : String) :
    Option Transaction × Option GoError :=
  x.getTransaction u "eth_getTransactionByHash" [.str hash]

/-- EthGetTransactionByBlockNumberAndIndex returns information about a transaction by block
number and transaction index position (`node_api.go`, lines 308-310). -/
def NodeAPI.EthGetTransactionByBlockNumberAndIndex (u : Unmarshalers)
    (intToHex : Int → String) (x : NodeAPI) (blockNumber transactionIndex : Int) :
    Option Transaction × Option GoError :=
  x.getTransaction u "eth_getTransactionByBlockNumberAndIndex"
    [.str (intToHex blockNumber), .str (intToHex transactionIndex)]

/-- EthGetTransactionReceipt returns the receipt of a transaction by transaction hash
(`node_api.go`, lines 314-327). -/
def NodeAPI.EthGetTransactionReceipt (u : Unmarshalers) (x : NodeAPI) (hash : String) :
    Option TransactionReceipt × Option GoError :=
  match x.call "eth_getTransactionReceipt" (TransactionReceipt.UnmarshalJSON u)
      TransactionReceipt.zero [.str hash] with
  | (_, some err) => (none, some err)
  | (transactionReceipt, none) =>
    if transactionReceipt.TransactionHash.length = 0 then
      (none, some (.errorf "receipt not found" []))
    else (some transactionReceipt, none)

/-! ## etherscan_api.go: lookups -/

/-- How an operation of the explorer client ends: with its return values, with a panic, or
with the step budget of `EtherscanAPI.Call` used up (which never happens). -/
inductive Exec (α : Type) where
  | done (values : α)
  | panic (reason : String)
  | unfinished

/-- The rest of an operation after a step that may have panicked. -/
def Exec.andThen {α β : Type} (e : Exec α) (f : α → β) : Exec β :=
  match e with
  | .done a => .done (f a)
  | .panic reason => .panic reason
  | .unfinished => .unfinished

/-- The method `(*EtherscanAPI).call` (`etherscan_api.go`, lines 43-57). It hands its
parameter slice to `Call` as one argument (`x.Call(method, params)`), so `Call` receives a
one-element list holding the slice. As for the node client, `target` is never nil. -/
def EtherscanAPI.call {T : Type} (x : EtherscanAPI) (method : String)
    (unmarshal : JSON → T → T × Option GoError) (target : T) (params : List Param) :
    Exec (T × Option GoError) :=
  match (x.Call method [.slice params]).outcome with
  | .panic reason => .panic reason
  | .unfinished => .unfinished
  | .ret _ (some err) => .done (target, some err)
  | .ret result none =>
    match result with
    | some .null => .done (target, some (.errorf "result null" []))
    | none => .done (target, some (.other "unexpected end of JSON input"))
    | some data => .done (unmarshal data target)

/-- The method `(*EtherscanAPI).EthGetBlockByNumber` (`etherscan_api.go`, lines 236-259). -/
def EtherscanAPI.EthGetBlockByNumber (u : Unmarshalers) (intToHex : Int → String)
    (x : EtherscanAPI) (number : Int) (withTransactions : Bool) :
    Exec (Option Block × Option GoError) :=
  let response : ProxyBlock := ProxyBlock.fresh withTransactions
  let params : Param := .strMap
    [("tag", intToHex number), ("boolean", if withTransactions then "true" else "false")]
  (x.call "eth_getBlockByNumber" (ProxyBlock.unmarshal u) response [params]).andThen
    fun r =>
      match r with
      | (_, some err) => (none, some err)
      | (response, none) =>
        let block := response.ToBlock
        if block.Hash.length = 0 then (none, some (.errorf "block not found" []))
        else (some block, none)

/-- The method `(*EtherscanAPI).EthGetUncleByBlockNumberAndIndex` (`etherscan_api.go`, lines
261-263). -/
def EtherscanAPI.EthGetUncleByBlockNumberAndIndex (_ : EtherscanAPI) (_ _ : Int) :
    Exec (Option Block × Option GoError) :=
  .done (none, some (.errorf "TODO" []))

/-- EthGetTransactionByHash returns the information about a transaction requested by
transaction hash (`etherscan_api.go`, lines 266-278). -/
def EtherscanAPI.EthGetTransactionByHash (u : Unmarshalers) (x : EtherscanAPI)
    (hash : String) : Exec (Option Transaction × Option GoError) :=
  let params : Param := .strMap [("txhash", hash)]
  (x.call "eth_getTransactionByHash" (Transaction.UnmarshalJSON u) Transaction.zero
      [params]).andThen
    fun r =>
      match r with
      | (transaction, err) =>
        if transaction.Hash.length = 0 then (none, some (.errorf "tx not found" []))
        else (some transaction, err)

/-- EthGetTransactionByBlockNumberAndIndex returns information about a transaction by block
number and transaction index position (`etherscan_api.go`, lines 281-294). -/
def EtherscanAPI.EthGetTransactionByBlockNumberAndIndex (u : Unmarshalers)
    (intToHex : Int → String) (x : EtherscanAPI) (blockNumber transactionIndex : Int) :
    Exec (Option Transaction × Option GoError) :=
  let params : Param := .strMap
    [("tag", intToHex blockNumber), ("index", intToHex transactionIndex)]
  (x.call "eth_getTransactionByBlockNumberAndIndex" (Transaction.UnmarshalJSON u)
      Transaction.zero [params]).andThen
    fun r =>
      match r with
      | (transaction, err) =>
        if transaction.Hash.length = 0 then (none, some (.errorf "tx not found" []))
        else (some transaction, err)

/-- EthGetTransactionReceipt returns the receipt of a transaction by transaction hash
(`etherscan_api.go`, lines 298-315). -/
def EtherscanAPI.EthGetTransactionReceipt (u : Unmarshalers) (x : EtherscanAPI)
    (hash : String) : Exec (Option TransactionReceipt × Option GoError) :=
  let params : Param := .strMap [("txhash", hash)]
  (x.call "eth_getTransactionReceipt" (TransactionReceipt.UnmarshalJSON u)
      TransactionReceipt.zero [params]).andThen
    fun r =>
      match r with
      | (_, some err) => (none, some err)
      | (transactionReceipt, none) =>
        if transactionReceipt.TransactionHash.length = 0 then
          (none, some (.errorf "receipt not found" []))
        else (some transactionReceipt, none)

/-! ## Examples for the lookups -/

/-- A transport on which every exchange fails with the given error. -/
def failingClient (err : GoError) : HTTPClient :=
  ⟨fun _ => none, fun _ _ => .err err⟩

/-- Modelled from the spec: `IntToHex` (`FormatHex` in the specification), which is not
among the source files, on the non-negative integers, the only ones the specification
gives a text for: lowercase hexadecimal digits after `0x`, no leading zero digit, and `0x0`
for zero. -/
def IntToHex (n : Nat) : String :=
  "0x" ++ String.mk (Nat.toDigits 16 n)

/-- The zero `proxyTransaction`. -/
def proxyTransaction.zero : proxyTransaction := ⟨"", 0, "", none, none, "", "", 0, 0, 0, ""⟩

/-- The zero `proxyTransactionReceipt`. -/
def proxyTransactionReceipt.zero : proxyTransactionReceipt :=
  ⟨"", 0, "", 0, 0, 0, "", [], "", "", 0⟩

/-- The string member `name` of an object, or the empty string. -/
def stringMember (name : String) (v : JSON) : String :=
  match v with
  | .obj ms =>
    match lastMember name ms with
    | some (.str s) => s
    | some (.escaped _ content) => content
    | _ => ""
  | _ => ""

/-- Decoders for the examples: they accept objects only and read nothing but the
identifying hash (`hash`, `transactionHash`), leaving every other field zero. -/
def hashOnlyUnmarshalers : Unmarshalers where
  transaction v :=
    match v with
    | .obj _ => ({ proxyTransaction.zero with Hash := stringMember "hash" v }, none)
    | _ => (proxyTransaction.zero, some (typeError v "ethrpc.proxyTransaction"))
  receipt v :=
    match v with
    | .obj _ =>
      ({ proxyTransactionReceipt.zero with
          TransactionHash := stringMember "transactionHash" v }, none)
    | _ => (proxyTransactionReceipt.zero,
        some (typeError v "ethrpc.proxyTransactionReceipt"))
  blockWithTransactions v :=
    match v with
    | .obj _ => ({ ProxyBlockWithTransactions.zero with Hash := stringMember "hash" v }, none)
    | _ => (ProxyBlockWithTransactions.zero,
        some (typeError v "ethrpc.ProxyBlockWithTransactions"))
  blockWithoutTransactions v :=
    match v with
    | .obj _ =>
      ({ ProxyBlockWithoutTransactions.zero with Hash := stringMember "hash" v }, none)
    | _ => (ProxyBlockWithoutTransactions.zero,
        some (typeError v "ethrpc.ProxyBlockWithoutTransactions"))
  uncle v :=
    match v with
    | .obj _ => ({ UncleBlock.zero with Hash := stringMember "hash" v }, none)
    | _ => (UncleBlock.zero, some (typeError v "ethrpc.UncleBlock"))

/-! ## types.go: memory images and the casts through `unsafe.Pointer` -/

/-- One field of a struct value as it lies in memory, by the underlying type of the field.
The named types `hexInt` and `hexBig` have the underlying types `int` and `big.Int` and so
occupy the slots of those types; a slice of structs holds, per element, the slots of the
element. The layout of a struct is the sequence of the slots of its fields in declaration
order. -/
inductive Slot where
  | bool (b : Bool)
  | int (n : Int)
  | bigInt (n : Int)
  | string (s : String)
  | intPtr (p : Option Int)
  | strings (xs : List String)
  | structs (xs : List (List Slot))

/-- The memory image of a `proxyTransaction` (`types.go`, lines 204-216). -/
def proxyTransaction.slots (t : proxyTransaction) : List Slot :=
  [.string t.Hash, .int t.Nonce, .string t.BlockHash, .intPtr t.BlockNumber,
    .intPtr t.TransactionIndex, .string t.From, .string t.To, .bigInt t.Value, .int t.Gas,
    .bigInt t.GasPrice, .string t.Input]

/-- Reading a memory image as a `Transaction` (`types.go`, lines 32-44): defined when the
image has the slots of the fields of `Transaction`, in their order. -/
def Transaction.ofSlots : List Slot → Option Transaction
  | [.string hash, .int nonce, .string blockHash, .intPtr blockNumber,
      .intPtr transactionIndex, .string sender, .string recipient, .bigInt value, .int gas,
      .bigInt gasPrice, .string input] =>
    some { Hash := hash, Nonce := nonce, BlockHash := blockHash, BlockNumber := blockNumber,
           TransactionIndex := transactionIndex, From := sender, To := recipient,
           Value := value, Gas := gas, GasPrice := gasPrice, Input := input }
  | _ => none

/-- Reading the elements of a slice as transactions. -/
def Transaction.allOfSlots : List (List Slot) → Option (List Transaction)
  | [] => some []
  | s :: ss =>
    match Transaction.ofSlots s, Transaction.allOfSlots ss with
    | some t, some ts => some (t :: ts)
    | _, _ => none

/-- The memory image of a `ProxyBlockWithTransactions` (`types.go`, lines 262-281). -/
def ProxyBlockWithTransactions.slots (p : ProxyBlockWithTransactions) : List Slot :=
  [.int p.Number, .string p.Hash, .string p.ParentHash, .string p.Nonce,
    .string p.Sha3Uncles, .string p.LogsBloom, .string p.TransactionsRoot,
    .string p.StateRoot, .string p.Miner, .bigInt p.Difficulty, .bigInt p.TotalDifficulty,
    .string p.ExtraData, .int p.Size, .int p.GasLimit, .int p.GasUsed, .int p.Timestamp,
    .strings p.Uncles, .structs (p.Transactions.map proxyTransaction.slots)]

/-- Reading a memory image as a `Block` (`types.go`, lines 119-138): defined when the image
has the slots of the fields of `Block`, in their order. -/
def Block.ofSlots : List Slot → Option Block
  | [.int number, .string hash, .string parentHash, .string nonce, .string sha3Uncles,
      .string logsBloom, .string transactionsRoot, .string stateRoot, .string miner,
      .bigInt difficulty, .bigInt totalDifficulty, .string extraData, .int size,
      .int gasLimit, .int gasUsed, .int timestamp, .strings uncles, .structs transactions] =>
    match Transaction.allOfSlots transactions with
    | some ts =>
      some { Number := number, Hash := hash, ParentHash := parentHash, Nonce := nonce,
             Sha3Uncles := sha3Uncles, LogsBloom := logsBloom,
             TransactionsRoot := transactionsRoot, StateRoot := stateRoot, Miner := miner,
             Difficulty := difficulty, TotalDifficulty := totalDifficulty,
             ExtraData := extraData, Size := size, GasLimit := gasLimit, GasUsed := gasUsed,
             Timestamp := timestamp, Uncles := uncles, Transactions := ts }
    | none => none
  | _ => none

/-- The body of `(*ProxyBlockWithTransactions).ToBlock` (`types.go`, line 284) on the memory
image: `*(*Block)(unsafe.Pointer(proxy))` reads the memory of `proxy` as a `Block`. -/
def ProxyBlockWithTransactions.castToBlock (proxy : ProxyBlockWithTransactions) :
    Option Block :=
  Block.ofSlots proxy.slots

/-- The explicit lift of a shadow transaction, field by field, as the design notes of the
specification ask for it. -/
def liftTransaction (t : proxyTransaction) : Transaction :=
  { Hash := t.Hash, Nonce := t.Nonce, BlockHash := t.BlockHash,
    BlockNumber := t.BlockNumber, TransactionIndex := t.TransactionIndex, From := t.From,
    To := t.To, Value := t.Value, Gas := t.Gas, GasPrice := t.GasPrice, Input := t.Input }

/-- The explicit lift of a full-transaction block shadow, field by field, as the design
notes of the specification ask for it. -/
def liftBlockWithTransactions (p : ProxyBlockWithTransactions) : Block :=
  { Number := p.Number, Hash := p.Hash, ParentHash := p.ParentHash, Nonce := p.Nonce,
    Sha3Uncles := p.Sha3Uncles, LogsBloom := p.LogsBloom,
    TransactionsRoot := p.TransactionsRoot, StateRoot := p.StateRoot, Miner := p.Miner,
    Difficulty := p.Difficulty, TotalDifficulty := p.TotalDifficulty,
    ExtraData := p.ExtraData, Size := p.Size, GasLimit := p.GasLimit, GasUsed := p.GasUsed,
    Timestamp := p.Timestamp, Uncles := p.Uncles,
    Transactions := p.Transactions.map liftTransaction }

/-- A full-transaction block shadow with one transaction, for the examples. -/
def exampleFullBlock : ProxyBlockWithTransactions :=
  { ProxyBlockWithTransactions.zero with
    Number := 16, Hash := "0xb10c",
    Transactions := [⟨"0x7a", 1, "0xb10c", some 16, some 0, "0xf0", "0x70", 5, 21000, 2, "0x"⟩] }

/-! ## etherscan_api.go: operations that are not served -/

/-- The batch request of the explorer client (`etherscan_api.go`, lines 60-62). -/
def EtherscanAPI.BatchCall (_ : EtherscanAPI) (_ : List EthRequest) :
    Option (List EthResponse) × Option GoError :=
  (none, some (.errorf "TODO" []))

/-- Web3ClientVersion returns the current client version (`etherscan_api.go`, lines
139-141). -/
def EtherscanAPI.Web3ClientVersion (_ : EtherscanAPI) : String × Option GoError :=
  ("", some (.errorf "TODO" []))

/-- NetVersion returns the current network protocol version (`etherscan_api.go`, lines
144-146). -/
def EtherscanAPI.NetVersion (_ : EtherscanAPI) : String × Option GoError :=
  ("", some (.errorf "TODO" []))

/-- NetListening returns true if client is actively listening for network connections
(`etherscan_api.go`, lines 149-151). -/
def EtherscanAPI.NetListening (_ : EtherscanAPI) : Bool × Option GoError :=
  (false, some (.errorf "TODO" []))

/-- NetPeerCount returns number of peers currently connected to the client
(`etherscan_api.go`, lines 154-156). -/
def EtherscanAPI.NetPeerCount (_ : EtherscanAPI) : Int × Option GoError :=
  (0, some (.errorf "TODO" []))

/-- EthProtocolVersion returns the current ethereum protocol version (`etherscan_api.go`,
lines 159-161). -/
def EtherscanAPI.EthProtocolVersion (_ : EtherscanAPI) : String × Option GoError :=
  ("", some (.errorf "TODO" []))

/-- EthSyncing returns an object with data about the sync status or false
(`etherscan_api.go`, lines 164-166). -/
def EtherscanAPI.EthSyncing (_ : EtherscanAPI) : Option Syncing × Option GoError :=
  (none, some (.errorf "TODO" []))

/-- EthGetBalance returns the balance of the account of given address in wei
(`etherscan_api.go`, lines 189-191); `big.Int{}` is zero. -/
def EtherscanAPI.EthGetBalance (_ : EtherscanAPI) (_ _ : String) : Int × Option GoError :=
  (0, some (.errorf "TODO" []))

/-- EthGetLogs returns an array of all logs matching a given filter object
(`etherscan_api.go`, lines 318-321); the returned slice is the nil slice. -/
def EtherscanAPI.EthGetLogs (_ : EtherscanAPI) (_ : FilterParams) :
    List Log × Option GoError :=
  ([], some (.errorf "TODO" []))

/-! # Theorems -/

/-! ## The retry loop of `EtherscanAPI.Call` -/

theorem requestWith_apikey (x : EtherscanAPI) (method token : String) :
    (x.requestWith method token).apikey = some token := by
  simp [EtherscanAPI.requestWith, HttpRequest.apikey, List.find?]

theorem tokens_get?_mod (x : EtherscanAPI) (h : x.tokens ≠ []) (k : Nat) :
    x.tokens.get? (k % x.tokens.length) = some (x.tokenAt k) := by
  have hpos : 0 < x.tokens.length := List.length_pos.mpr h
  have hlt : k % x.tokens.length < x.tokens.length := Nat.mod_lt _ hpos
  simp [EtherscanAPI.tokenAt, List.getElem?_eq_getElem hlt]

theorem retryLoop_noTokens (x : EtherscanAPI) (method : String) (params : List Param)
    (fuel retry : Nat) (sent : List HttpRequest) (h : x.tokens = []) :
    x.retryLoop method params (fuel + 1) retry sent =
      ⟨.panic "integer divide by zero", sent⟩ := by
  simp [EtherscanAPI.retryLoop, h]

theorem retryLoop_stop (x : EtherscanAPI) (method : String) (params : List Param)
    (fuel retry : Nat) (sent : List HttpRequest) (h : x.tokens ≠ []) (hr : 5 < retry) :
    x.retryLoop method params (fuel + 1) retry sent =
      ⟨.ret none (some (.errorf "etherscan retry failed" [])), sent⟩ := by
  have h0 : x.tokens.length ≠ 0 := by simpa using h
  have ht := tokens_get?_mod x h retry
  simp only [List.get?_eq_getElem?] at ht
  simp [EtherscanAPI.retryLoop, h, ht, hr]

theorem retryLoop_badRequest (x : EtherscanAPI) (method : String) (params : List Param)
    (fuel retry : Nat) (sent : List HttpRequest) (h : x.tokens ≠ []) (hr : retry ≤ 5)
    (err : GoError) (hreq : x.client.NewRequest x.url = some err) :
    x.retryLoop method params (fuel + 1) retry sent = ⟨.ret none (some err), sent⟩ := by
  have ht := tokens_get?_mod x h retry
  simp only [List.get?_eq_getElem?] at ht
  have hr' : ¬ 5 < retry := by omega
  simp [EtherscanAPI.retryLoop, h, ht, hr', hreq]

theorem retryLoop_noParams (x : EtherscanAPI) (method : String)
    (fuel retry : Nat) (sent : List HttpRequest) (h : x.tokens ≠ []) (hr : retry ≤ 5)
    (hreq : x.client.NewRequest x.url = none) :
    x.retryLoop method [] (fuel + 1) retry sent =
      ⟨.panic "index out of range [0] with length 0", sent⟩ := by
  have ht := tokens_get?_mod x h retry
  simp only [List.get?_eq_getElem?] at ht
  have hr' : ¬ 5 < retry := by omega
  simp [EtherscanAPI.retryLoop, h, ht, hr', hreq]

theorem retryLoop_send (x : EtherscanAPI) (method : String) (params : List Param)
    (fuel retry : Nat) (sent : List HttpRequest) (h : x.tokens ≠ []) (hr : retry ≤ 5)
    (hreq : x.client.NewRequest x.url = none) (hp : params ≠ []) :
    x.retryLoop method params (fuel + 1) retry sent =
      match x.client.Do sent.length (x.requestWith method (x.tokenAt retry)) with
      | .err err =>
        ⟨.ret none (some err), sent ++ [x.requestWith method (x.tokenAt retry)]⟩
      | .ok response =>
        if response.StatusCode = 403 then
          x.retryLoop method params fuel (retry + 1)
            (sent ++ [x.requestWith method (x.tokenAt retry)])
        else
          ⟨.ret (finishCall response).1 (finishCall response).2,
            sent ++ [x.requestWith method (x.tokenAt retry)]⟩ := by
  have ht := tokens_get?_mod x h retry
  simp only [List.get?_eq_getElem?] at ht
  have hr' : ¬ 5 < retry := by omega
  cases params with
  | nil => exact absurd rfl hp
  | cons p ps =>
    simp [EtherscanAPI.retryLoop, h, ht, hr', hreq, EtherscanAPI.requestWith]

theorem retryLoop_finishes (x : EtherscanAPI) (method : String) (params : List Param) :
    ∀ (fuel retry : Nat) (sent : List HttpRequest), 1 ≤ fuel → 7 ≤ fuel + retry →
      (x.retryLoop method params fuel retry sent).outcome ≠ Outcome.unfinished := by
  intro fuel
  induction fuel with
  | zero => intro retry sent h; omega
  | succ fuel ih =>
    intro retry sent _ h7
    by_cases htok : x.tokens = []
    · simp [retryLoop_noTokens x method params fuel retry sent htok]
    by_cases hr : 5 < retry
    · simp [retryLoop_stop x method params fuel retry sent htok hr]
    have hr5 : retry ≤ 5 := by omega
    cases hreq : x.client.NewRequest x.url with
    | some err => simp [retryLoop_badRequest x method params fuel retry sent htok hr5 err hreq]
    | none =>
      by_cases hp : params = []
      · subst hp
        simp [retryLoop_noParams x method fuel retry sent htok hr5 hreq]
      rw [retryLoop_send x method params fuel retry sent htok hr5 hreq hp]
      split
      · simp
      · split
        · apply ih <;> omega
        · simp

/-- The step budget does not matter once it covers the passes that are left: any two
sufficient budgets give the same run. -/
theorem retryLoop_budget_irrelevant (x : EtherscanAPI) (method : String)
    (params : List Param) :
    ∀ (fuel fuel' retry : Nat) (sent : List HttpRequest), 1 ≤ fuel → 7 ≤ fuel + retry →
      1 ≤ fuel' → 7 ≤ fuel' + retry →
      x.retryLoop method params fuel retry sent = x.retryLoop method params fuel' retry sent := by
  intro fuel
  induction fuel with
  | zero => intro fuel' retry sent h; omega
  | succ fuel ih =>
    intro fuel' retry sent _ h7 h1' h7'
    obtain ⟨g, rfl⟩ : ∃ g, fuel' = g + 1 := ⟨fuel' - 1, by omega⟩
    by_cases htok : x.tokens = []
    · rw [retryLoop_noTokens x method params fuel retry sent htok,
        retryLoop_noTokens x method params g retry sent htok]
    by_cases hr : 5 < retry
    · rw [retryLoop_stop x method params fuel retry sent htok hr,
        retryLoop_stop x method params g retry sent htok hr]
    have hr5 : retry ≤ 5 := by omega
    cases hreq : x.client.NewRequest x.url with
    | some err =>
      rw [retryLoop_badRequest x method params fuel retry sent htok hr5 err hreq,
        retryLoop_badRequest x method params g retry sent htok hr5 err hreq]
    | none =>
      by_cases hp : params = []
      · subst hp
        rw [retryLoop_noParams x method fuel retry sent htok hr5 hreq,
          retryLoop_noParams x method g retry sent htok hr5 hreq]
      rw [retryLoop_send x method params fuel retry sent htok hr5 hreq hp,
        retryLoop_send x method params g retry sent htok hr5 hreq hp]
      split
      · rfl
      · split
        · exact ih g (retry + 1) _ (by omega) (by omega) (by omega) (by omega)
        · rfl

theorem traceFrom_quiet (x : EtherscanAPI) (method : String) (o : Outcome)
    (sent : List HttpRequest) : TraceFrom x method ⟨o, sent⟩ sent.length := by
  intro k req hk hget
  have hnone : sent[k]? = none := List.getElem?_eq_none hk
  have hget' : sent[k]? = some req := hget
  rw [hnone] at hget'
  cases hget'

theorem traceFrom_last (x : EtherscanAPI) (method : String) (o : Outcome)
    (sent : List HttpRequest) (htok : x.tokens ≠ [])
    (hok : ∀ response,
      x.client.Do sent.length (x.requestWith method (x.tokenAt sent.length)) = .ok response →
      response.StatusCode ≠ 403 → o = .ret (finishCall response).1 (finishCall response).2)
    (herr : ∀ err,
      x.client.Do sent.length (x.requestWith method (x.tokenAt sent.length)) = .err err →
      o = .ret none (some err)) :
    TraceFrom x method ⟨o, sent ++ [x.requestWith method (x.tokenAt sent.length)]⟩
      sent.length := by
  intro k req hk hget
  have hget' : (sent ++ [x.requestWith method (x.tokenAt sent.length)])[k]? = some req := hget
  have hk' : k = sent.length := by
    by_contra hne
    have hlen : (sent ++ [x.requestWith method (x.tokenAt sent.length)]).length ≤ k := by
      simp only [List.length_append, List.length_singleton]; omega
    rw [List.getElem?_eq_none hlen] at hget'
    cases hget'
  subst hk'
  have hreq' : req = x.requestWith method (x.tokenAt sent.length) := by
    simpa using hget'.symm
  subst hreq'
  refine ⟨rfl, htok, ?_, ?_, ?_⟩
  · intro h; simp at h
  · intro response hdo hne
    exact ⟨by simp, hok response hdo hne⟩
  · intro err hdo
    exact ⟨by simp, herr err hdo⟩

theorem retryLoop_trace (x : EtherscanAPI) (method : String) (params : List Param) :
    ∀ (fuel retry : Nat) (sent : List HttpRequest), sent.length = retry →
      (∃ t, (x.retryLoop method params fuel retry sent).sent = sent ++ t) ∧
      TraceFrom x method (x.retryLoop method params fuel retry sent) sent.length := by
  intro fuel
  induction fuel with
  | zero =>
    intro retry sent _
    exact ⟨⟨[], by simp [EtherscanAPI.retryLoop]⟩, traceFrom_quiet x method _ sent⟩
  | succ fuel ih =>
    intro retry sent hlen
    by_cases htok : x.tokens = []
    · rw [retryLoop_noTokens x method params fuel retry sent htok]
      exact ⟨⟨[], by simp⟩, traceFrom_quiet x method _ sent⟩
    by_cases hr : 5 < retry
    · rw [retryLoop_stop x method params fuel retry sent htok hr]
      exact ⟨⟨[], by simp⟩, traceFrom_quiet x method _ sent⟩
    have hr5 : retry ≤ 5 := by omega
    cases hreq : x.client.NewRequest x.url with
    | some err =>
      rw [retryLoop_badRequest x method params fuel retry sent htok hr5 err hreq]
      exact ⟨⟨[], by simp⟩, traceFrom_quiet x method _ sent⟩
    | none =>
      by_cases hp : params = []
      · subst hp
        rw [retryLoop_noParams x method fuel retry sent htok hr5 hreq]
        exact ⟨⟨[], by simp⟩, traceFrom_quiet x method _ sent⟩
      have hstep := retryLoop_send x method params fuel retry sent htok hr5 hreq hp
      subst hlen
      cases hdo : x.client.Do sent.length (x.requestWith method (x.tokenAt sent.length)) with
      | err err =>
        rw [hdo] at hstep
        rw [hstep]
        refine ⟨⟨_, rfl⟩, traceFrom_last x method _ sent htok ?_ ?_⟩
        · intro response h; rw [hdo] at h; cases h
        · intro err' h; rw [hdo] at h; cases h; rfl
      | ok response =>
        rw [hdo] at hstep
        by_cases h403 : response.StatusCode = 403
        · simp only [h403, if_true] at hstep
          rw [hstep]
          have hlen' :
              (sent ++ [x.requestWith method (x.tokenAt sent.length)]).length =
                sent.length + 1 := by simp
          obtain ⟨⟨t, ht⟩, ihk⟩ := ih (sent.length + 1) _ hlen'
          refine ⟨⟨[x.requestWith method (x.tokenAt sent.length)] ++ t, by rw [ht]; simp⟩, ?_⟩
          intro k req hk hget
          by_cases hk' : k = sent.length
          · subst hk'
            rw [ht, List.append_assoc, List.getElem?_append_right (Nat.le_refl _)] at hget
            have hreq' : req = x.requestWith method (x.tokenAt sent.length) := by
              simpa using hget.symm
            subst hreq'
            refine ⟨rfl, htok, ?_, ?_, ?_⟩
            · intro _; rw [hdo]; simp [Answer.status, h403]
            · intro response' h hne; rw [hdo] at h; cases h; exact absurd h403 hne
            · intro err h; rw [hdo] at h; cases h
          · exact ihk k req (by rw [hlen']; omega) hget
        · simp only [h403, if_false] at hstep
          rw [hstep]
          refine ⟨⟨_, rfl⟩, traceFrom_last x method _ sent htok ?_ ?_⟩
          · intro response' h _; rw [hdo] at h; cases h; rfl
          · intro err' h; rw [hdo] at h; cases h

theorem retryLoop_sent_le (x : EtherscanAPI) (method : String) (params : List Param) :
    ∀ (fuel retry : Nat) (sent : List HttpRequest), sent.length = retry → retry ≤ 6 →
      (x.retryLoop method params fuel retry sent).sent.length ≤ 6 := by
  intro fuel
  induction fuel with
  | zero => intro retry sent h h6; simp only [EtherscanAPI.retryLoop]; omega
  | succ fuel ih =>
    intro retry sent hlen h6
    by_cases htok : x.tokens = []
    · rw [retryLoop_noTokens x method params fuel retry sent htok]; simp only; omega
    by_cases hr : 5 < retry
    · rw [retryLoop_stop x method params fuel retry sent htok hr]; simp only; omega
    have hr5 : retry ≤ 5 := by omega
    cases hreq : x.client.NewRequest x.url with
    | some err =>
      rw [retryLoop_badRequest x method params fuel retry sent htok hr5 err hreq]
      simp only; omega
    | none =>
      by_cases hp : params = []
      · subst hp
        rw [retryLoop_noParams x method fuel retry sent htok hr5 hreq]; simp only; omega
      rw [retryLoop_send x method params fuel retry sent htok hr5 hreq hp]
      split
      · simp only [List.length_append, List.length_singleton]; omega
      · split
        · apply ih (retry + 1)
          · simp only [List.length_append, List.length_singleton]; omega
          · omega
        · simp only [List.length_append, List.length_singleton]; omega

/-- While the transport answers 403, each pass through the label sends one request and comes
back to the label with the counter advanced. -/
theorem retryLoop_403 (x : EtherscanAPI) (method : String) (params : List Param)
    (htok : x.tokens ≠ []) (hp : params ≠ []) (hreq : x.client.NewRequest x.url = none) :
    ∀ (m fuel retry : Nat) (sent : List HttpRequest), sent.length = retry → retry + m ≤ 6 →
      (∀ k, retry ≤ k → k < retry + m → ∀ req, (x.client.Do k req).status = some 403) →
      x.retryLoop method params (fuel + m) retry sent =
        x.retryLoop method params fuel (retry + m)
          (sent ++ (List.range' retry m).map (fun k => x.requestWith method (x.tokenAt k))) := by
  intro m
  induction m with
  | zero => intro fuel retry sent _ _ _; simp
  | succ m ih =>
    intro fuel retry sent hlen h6 h403
    have hstep := retryLoop_send x method params (fuel + m) retry sent htok (by omega) hreq hp
    have hs := h403 retry (Nat.le_refl _) (by omega) (x.requestWith method (x.tokenAt retry))
    rw [hlen] at hstep
    cases hdo : x.client.Do retry (x.requestWith method (x.tokenAt retry)) with
    | err err => rw [hdo] at hs; simp [Answer.status] at hs
    | ok response =>
      rw [hdo] at hs hstep
      have hcode : response.StatusCode = 403 := by simpa [Answer.status] using hs
      simp only [hcode, if_true] at hstep
      have e1 : fuel + (m + 1) = fuel + m + 1 := by omega
      rw [e1, hstep, ih fuel (retry + 1) _ (by simp [hlen]) (by omega)
        (fun k hk hk' => h403 k (by omega) (by omega))]
      have e2 : retry + 1 + m = retry + (m + 1) := by omega
      rw [e2, List.range'_succ, List.map_cons, List.append_assoc]
      rfl

/-! ## Clients built by the constructor -/

theorem splitComma_ne_nil (cs : List Char) : ∀ cur : List Char, splitComma cur cs ≠ [] := by
  induction cs with
  | nil => intro cur; simp [splitComma]
  | cons c cs ih =>
    intro cur
    simp only [splitComma]
    split
    · simp
    · exact ih _

/-- A client built by `NewEtherscanAPI` without options has at least one token. -/
theorem NewEtherscanAPI_tokens_ne_nil (defaultClient : HTTPClient) (token : String) :
    (NewEtherscanAPI defaultClient token []).tokens ≠ [] :=
  splitComma_ne_nil token.data []

/-! ## C1-C3: credential rotation, retry bound, other statuses -/

/-- C1 (counterexample): three credentials and a transport that answers 200 to every
request, that is 403 on the first 0 attempts and 200 on the next one, so that the claim
promises exactly one attempt. On a client whose address cannot be parsed the call returns
the error of `http.NewRequest` and makes no attempt; a call without variadic argument stops
at `params[0]` and makes no attempt either. -/
theorem etherscan_call_attempt_count_counterexample :
    (threeKeysAt "%zz" (escapeCheckingClient 200
      (.json (resultEnvelope (.str "0x10"))))).tokens.length = 3 ∧
    (∀ req, ((escapeCheckingClient 200 (.json (resultEnvelope (.str "0x10")))).Do 0
      req).status = some 200) ∧
    (threeKeysAt "%zz" (escapeCheckingClient 200
      (.json (resultEnvelope (.str "0x10"))))).Call "eth_blockNumber" [.nil] =
      ⟨.ret none (some (.other "invalid URL escape")), []⟩ ∧
    ((threeKeysAt "%zz" (escapeCheckingClient 200
      (.json (resultEnvelope (.str "0x10"))))).Call "eth_blockNumber" [.nil]).sent.length ≠
      0 + 1 ∧
    (threeKeys (fixedClient 200 (.json (resultEnvelope (.str "0x10"))))).tokens.length = 3 ∧
    (∀ req, ((fixedClient 200 (.json (resultEnvelope (.str "0x10")))).Do 0 req).status =
      some 200) ∧
    ((threeKeys (fixedClient 200 (.json (resultEnvelope (.str "0x10"))))).Call
      "eth_blockNumber" []).outcome = .panic "index out of range [0] with length 0" ∧
    ((threeKeys (fixedClient 200 (.json (resultEnvelope (.str "0x10"))))).Call
      "eth_blockNumber" []).sent.length ≠ 0 + 1 :=
  ⟨by decide, fun _ => rfl, rfl, by decide, by decide, fun _ => rfl, rfl, by decide⟩

/-- C1 (amended): `EtherscanAPI.Call` rotates credentials by attempt number. For every
client and call, the `k`-th request of the call (counted from 0 within the call) carries
`apikey = tokens[k mod n]`; and when the client has at least one token, the call has at
least one variadic argument and the request can be built, a transport that answers 403 to
the first `j ≤ 5` attempts and 200 to the next makes the call send exactly `j + 1`
requests, the last with `tokens[j mod n]`, and return what the 200 response decodes to.
When the request cannot be built, the call sends no request and returns the error of
`http.NewRequest`. -/
theorem etherscan_call_rotates_credentials (x : EtherscanAPI) (method : String)
    (params : List Param) :
    (∀ (k : Nat) (req : HttpRequest), (x.Call method params).sent[k]? = some req →
      ∃ token, x.tokens[k % x.tokens.length]? = some token ∧ req.apikey = some token) ∧
    (∀ j : Nat, j ≤ 5 → x.tokens ≠ [] → params ≠ [] → x.client.NewRequest x.url = none →
      (∀ k, k < j → ∀ req, (x.client.Do k req).status = some 403) →
      (∀ req, (x.client.Do j req).status = some 200) →
      (x.Call method params).sent.length = j + 1 ∧
      ∃ req token response, (x.Call method params).sent[j]? = some req ∧
        x.tokens[j % x.tokens.length]? = some token ∧ req.apikey = some token ∧
        x.client.Do j req = .ok response ∧ response.StatusCode = 200 ∧
        (x.Call method params).outcome =
          .ret (finishCall response).1 (finishCall response).2) ∧
    (∀ err, x.tokens ≠ [] → x.client.NewRequest x.url = some err →
      x.Call method params = ⟨.ret none (some err), []⟩) := by
  refine ⟨?_, ?_, fun err htok hnew =>
    retryLoop_badRequest x method params 6 0 [] htok (by omega) err hnew⟩
  · intro k req hget
    obtain ⟨hreq, htok, -⟩ :=
      (retryLoop_trace x method params 7 0 [] rfl).2 k req (Nat.zero_le _) hget
    refine ⟨x.tokenAt k, ?_, ?_⟩
    · simpa using tokens_get?_mod x htok k
    · rw [hreq]; exact requestWith_apikey x method _
  · intro j hj htok hp hnew h403 h200
    have hrun := retryLoop_403 x method params htok hp hnew j (7 - j) 0 [] rfl (by omega)
      (fun k _ hk => h403 k (by omega))
    have e7 : 7 - j + j = 7 := by omega
    rw [e7] at hrun
    have e6 : 7 - j = (6 - j) + 1 := by omega
    have hstep := retryLoop_send x method params (6 - j) (0 + j)
      ([] ++ (List.range' 0 j).map (fun k => x.requestWith method (x.tokenAt k))) htok
      (by omega) hnew hp
    have hlen : ([] ++ (List.range' 0 j).map
        (fun k => x.requestWith method (x.tokenAt k))).length = j := by simp
    rw [hlen] at hstep
    have hs := h200 (x.requestWith method (x.tokenAt (0 + j)))
    cases hdo : x.client.Do j (x.requestWith method (x.tokenAt (0 + j))) with
    | err err => rw [hdo] at hs; simp [Answer.status] at hs
    | ok response =>
      rw [hdo] at hs hstep
      have hcode : response.StatusCode = 200 := by simpa [Answer.status] using hs
      have hne : ¬ response.StatusCode = 403 := by rw [hcode]; decide
      simp only [hne, if_false] at hstep
      have hcall : x.Call method params =
          ⟨.ret (finishCall response).1 (finishCall response).2,
            ([] ++ (List.range' 0 j).map (fun k => x.requestWith method (x.tokenAt k))) ++
              [x.requestWith method (x.tokenAt (0 + j))]⟩ := by
        unfold EtherscanAPI.Call
        rw [hrun, e6, hstep]
      rw [hcall]
      refine ⟨by simp, x.requestWith method (x.tokenAt (0 + j)), x.tokenAt j, response,
        ?_, ?_, ?_, hdo, hcode, rfl⟩
      · have hl : ([] ++ (List.range' 0 j).map
            (fun k => x.requestWith method (x.tokenAt k))).length ≤ j := by rw [hlen]
        show (([] ++ (List.range' 0 j).map (fun k => x.requestWith method (x.tokenAt k))) ++
              [x.requestWith method (x.tokenAt (0 + j))])[j]? = _
        rw [List.getElem?_append_right hl, hlen]
        simp
      · simpa using tokens_get?_mod x htok j
      · rw [Nat.zero_add]; exact requestWith_apikey x method _

/-- C1 (amended), on the example of the specification: three credentials, 403 on two
attempts, then success: three requests, the last with the credential of index 2. -/
theorem etherscan_call_rotates_credentials_witness :
    ((threeKeys (limitedClient 2 (resultEnvelope (.str "0x10")))).Call
        "eth_blockNumber" [.nil]).sent.length = 2 + 1 ∧
      ∃ req token response,
        ((threeKeys (limitedClient 2 (resultEnvelope (.str "0x10")))).Call
          "eth_blockNumber" [.nil]).sent[2]? = some req ∧
        (threeKeys (limitedClient 2 (resultEnvelope (.str "0x10")))).tokens[2 % 3]? =
          some token ∧ req.apikey = some token ∧
        (limitedClient 2 (resultEnvelope (.str "0x10"))).Do 2 req = .ok response ∧
        response.StatusCode = 200 ∧
        ((threeKeys (limitedClient 2 (resultEnvelope (.str "0x10")))).Call
          "eth_blockNumber" [.nil]).outcome =
          .ret (finishCall response).1 (finishCall response).2 :=
  (etherscan_call_rotates_credentials
    (threeKeys (limitedClient 2 (resultEnvelope (.str "0x10")))) "eth_blockNumber"
    [.nil]).2.1 2 (by decide) (by decide) (by simp) rfl
    (fun k hk _ => by simp [threeKeys, NewEtherscanAPI, limitedClient, hk, Answer.status])
    (fun _ => by simp [threeKeys, NewEtherscanAPI, limitedClient, Answer.status])

/-- C2 (counterexample): a transport that answers 403 to every request, for which the
claim promises exactly 6 requests and then the retry-exhausted error. On a client whose
address cannot be parsed the call returns the error of `http.NewRequest` after no request;
a call without variadic argument stops at `params[0]` after no request; on a client without
credential the call stops at `retry % len(x.tokens)` after no request. -/
theorem etherscan_call_exhaustion_counterexample :
    (∀ k req, ((escapeCheckingClient 403 (.invalid (.other "Forbidden"))).Do k req).status =
      some 403) ∧
    (threeKeysAt "%zz" (escapeCheckingClient 403 (.invalid (.other "Forbidden")))).Call
      "eth_blockNumber" [.nil] = ⟨.ret none (some (.other "invalid URL escape")), []⟩ ∧
    (∀ k req, ((fixedClient 403 (.invalid (.other "Forbidden"))).Do k req).status =
      some 403) ∧
    (threeKeys (fixedClient 403 (.invalid (.other "Forbidden")))).Call "eth_blockNumber" [] =
      ⟨.panic "index out of range [0] with length 0", []⟩ ∧
    EtherscanAPI.Call ⟨[], "https://api.etherscan.io/api",
      fixedClient 403 (.invalid (.other "Forbidden")), false⟩ "eth_blockNumber" [.nil] =
      ⟨.panic "integer divide by zero", []⟩ :=
  ⟨fun _ _ => rfl, rfl, fun _ _ => rfl, rfl, rfl⟩

/-- C2 (amended): `EtherscanAPI.Call` sends at most 6 requests, whatever the client, call
and transport; and when every request is answered 403 (client with at least one token, call
with at least one variadic argument, request buildable) it sends exactly 6 requests and
returns a nil result with the retry-exhausted error. When the request cannot be built, the
call sends no request and returns the error of `http.NewRequest`. -/
theorem etherscan_call_six_attempts (x : EtherscanAPI) (method : String)
    (params : List Param) :
    (x.Call method params).sent.length ≤ 6 ∧
    (x.tokens ≠ [] → params ≠ [] → x.client.NewRequest x.url = none →
      (∀ k req, (x.client.Do k req).status = some 403) →
      (x.Call method params).sent.length = 6 ∧
      (x.Call method params).outcome =
        .ret none (some (.errorf "etherscan retry failed" []))) ∧
    (∀ err, x.tokens ≠ [] → x.client.NewRequest x.url = some err →
      x.Call method params = ⟨.ret none (some err), []⟩) := by
  refine ⟨?_, ?_, fun err htok hnew =>
    retryLoop_badRequest x method params 6 0 [] htok (by omega) err hnew⟩
  · exact retryLoop_sent_le x method params 7 0 [] rfl (by omega)
  · intro htok hp hnew h403
    have hrun := retryLoop_403 x method params htok hp hnew 6 1 0 [] rfl (by omega)
      (fun k _ _ => h403 k)
    have hcall : x.Call method params =
        ⟨.ret none (some (.errorf "etherscan retry failed" [])),
          [] ++ (List.range' 0 6).map (fun k => x.requestWith method (x.tokenAt k))⟩ := by
      unfold EtherscanAPI.Call
      rw [show (7 : Nat) = 1 + 6 from rfl, hrun]
      exact retryLoop_stop x method params 0 (0 + 6) _ htok (by omega)
    rw [hcall]
    exact ⟨by simp, rfl⟩

/-- C2 (amended), on a transport that always answers 403. -/
theorem etherscan_call_six_attempts_witness :
    ((threeKeys (fixedClient 403 (.invalid (.other "Forbidden")))).Call
        "eth_blockNumber" [.nil]).sent.length = 6 ∧
      ((threeKeys (fixedClient 403 (.invalid (.other "Forbidden")))).Call
        "eth_blockNumber" [.nil]).outcome =
        .ret none (some (.errorf "etherscan retry failed" [])) :=
  (etherscan_call_six_attempts (threeKeys (fixedClient 403 (.invalid (.other "Forbidden"))))
    "eth_blockNumber" [.nil]).2.1 (by decide) (by simp) rfl
    (fun _ _ => by simp [threeKeys, NewEtherscanAPI, fixedClient, Answer.status])

/-- C3: in `EtherscanAPI.Call`, a response whose status is neither 200 nor 403 ends the
call at that attempt: it is the last request and the call returns a nil result with the
status error. A further request is made only after a 403. -/
theorem etherscan_call_other_status_fails (x : EtherscanAPI) (method : String)
    (params : List Param) :
    (∀ (k : Nat) (req : HttpRequest) (response : HttpResponse),
      (x.Call method params).sent[k]? = some req → x.client.Do k req = .ok response →
      response.StatusCode ≠ 200 → response.StatusCode ≠ 403 →
      (x.Call method params).sent.length = k + 1 ∧
      (x.Call method params).outcome =
        .ret none (some (.errorf "http status code error %d" [response.StatusCode]))) ∧
    (∀ (k : Nat) (req : HttpRequest), (x.Call method params).sent[k]? = some req →
      k + 1 < (x.Call method params).sent.length →
      (x.client.Do k req).status = some 403) := by
  constructor
  · intro k req response hget hdo h200 h403
    obtain ⟨-, -, -, hok, -⟩ :=
      (retryLoop_trace x method params 7 0 [] rfl).2 k req (Nat.zero_le _) hget
    obtain ⟨hlen, hout⟩ := hok response hdo h403
    refine ⟨hlen, ?_⟩
    rw [show x.Call method params = x.retryLoop method params 7 0 [] from rfl, hout]
    simp [finishCall, h200]
  · intro k req hget hlt
    exact ((retryLoop_trace x method params 7 0 [] rfl).2 k req (Nat.zero_le _) hget).2.2.1 hlt

/-- C3, on a transport that answers 500: one request, then the status error. -/
theorem etherscan_call_other_status_fails_witness :
    ((threeKeys (fixedClient 500 (.invalid (.other "Internal Server Error")))).Call
        "eth_blockNumber" [.nil]).sent.length = 0 + 1 ∧
      ((threeKeys (fixedClient 500 (.invalid (.other "Internal Server Error")))).Call
        "eth_blockNumber" [.nil]).outcome =
        .ret none (some (.errorf "http status code error %d" [500])) :=
  (etherscan_call_other_status_fails
    (threeKeys (fixedClient 500 (.invalid (.other "Internal Server Error"))))
    "eth_blockNumber" [.nil]).1 0
    ((threeKeys (fixedClient 500 (.invalid (.other "Internal Server Error")))).requestWith
      "eth_blockNumber" "key0")
    ⟨500, .invalid (.other "Internal Server Error")⟩ rfl rfl (by decide) (by decide)

/-! ## The envelope decoder: saved errors -/

theorem saveError_ne_none (saved : Option GoError) (e : GoError) :
    saveError saved e ≠ none := by
  cases saved <;> simp [saveError]

theorem decodeInt_fst (v : JSON) (cur : Int) (saved : Option GoError) :
    (decodeInt v cur saved).1 = (decodeInt v cur none).1 := by
  cases v <;> simp only [decodeInt]
  split <;> rfl

theorem decodeInt_snd (v : JSON) (cur : Int) (saved : Option GoError) :
    (decodeInt v cur saved).2 = none → saved = none := by
  cases v <;> simp only [decodeInt]
  all_goals first
    | exact id
    | exact fun h => absurd h (saveError_ne_none _ _)
    | (split
       · exact id
       · exact fun h => absurd h (saveError_ne_none _ _))

theorem decodeString_fst (v : JSON) (cur : String) (saved : Option GoError) :
    (decodeString v cur saved).1 = (decodeString v cur none).1 := by
  cases v <;> rfl

theorem decodeString_snd (v : JSON) (cur : String) (saved : Option GoError) :
    (decodeString v cur saved).2 = none → saved = none := by
  cases v <;> simp only [decodeString]
  all_goals first
    | exact id
    | exact fun h => absurd h (saveError_ne_none _ _)

theorem decodeEthErrorMembers_fst (ms : List (String × JSON)) :
    ∀ (e : EthError) (saved : Option GoError),
      (decodeEthErrorMembers ms e saved).1 = (decodeEthErrorMembers ms e none).1 := by
  induction ms with
  | nil => intro e saved; rfl
  | cons kv ms ih =>
    intro e saved
    obtain ⟨k, v⟩ := kv
    simp only [decodeEthErrorMembers]
    split
    · rw [ih _ (decodeInt v e.Code saved).2, ih _ (decodeInt v e.Code none).2,
        decodeInt_fst v e.Code saved]
    · split
      · rw [ih _ (decodeString v e.Message saved).2, ih _ (decodeString v e.Message none).2,
          decodeString_fst v e.Message saved]
      · exact ih e saved

theorem decodeEthErrorMembers_snd (ms : List (String × JSON)) :
    ∀ (e : EthError) (saved : Option GoError),
      (decodeEthErrorMembers ms e saved).2 = none → saved = none := by
  induction ms with
  | nil => intro e saved h; exact h
  | cons kv ms ih =>
    intro e saved
    obtain ⟨k, v⟩ := kv
    simp only [decodeEthErrorMembers]
    split
    · exact fun h => decodeInt_snd v e.Code saved (ih _ _ h)
    · split
      · exact fun h => decodeString_snd v e.Message saved (ih _ _ h)
      · exact ih e saved

theorem decodeEthErrorPtr_fst (v : JSON) (cur : Option EthError) (saved : Option GoError) :
    (decodeEthErrorPtr v cur saved).1 = (decodeEthErrorPtr v cur none).1 := by
  cases v <;> simp only [decodeEthErrorPtr]
  rw [decodeEthErrorMembers_fst]

theorem decodeEthErrorPtr_snd (v : JSON) (cur : Option EthError) (saved : Option GoError) :
    (decodeEthErrorPtr v cur saved).2 = none → saved = none := by
  cases v <;> simp only [decodeEthErrorPtr]
  all_goals first
    | exact id
    | exact fun h => absurd h (saveError_ne_none _ _)
    | exact decodeEthErrorMembers_snd _ _ _

theorem decodeEthResponseMembers_fst (ms : List (String × JSON)) :
    ∀ (r : EthResponse) (saved : Option GoError),
      (decodeEthResponseMembers ms r saved).1 = (decodeEthResponseMembers ms r none).1 := by
  induction ms with
  | nil => intro r saved; rfl
  | cons kv ms ih =>
    intro r saved
    obtain ⟨k, v⟩ := kv
    simp only [decodeEthResponseMembers]
    split
    · rw [ih _ (decodeInt v r.ID saved).2, ih _ (decodeInt v r.ID none).2,
        decodeInt_fst v r.ID saved]
    · split
      · rw [ih _ (decodeString v r.Version saved).2, ih _ (decodeString v r.Version none).2,
          decodeString_fst v r.Version saved]
      · split
        · exact ih _ saved
        · split
          · rw [ih _ (decodeEthErrorPtr v r.Error saved).2,
              ih _ (decodeEthErrorPtr v r.Error none).2, decodeEthErrorPtr_fst v r.Error saved]
          · exact ih r saved

theorem decodeEthResponseMembers_snd (ms : List (String × JSON)) :
    ∀ (r : EthResponse) (saved : Option GoError),
      (decodeEthResponseMembers ms r saved).2 = none → saved = none := by
  induction ms with
  | nil => intro r saved h; exact h
  | cons kv ms ih =>
    intro r saved
    obtain ⟨k, v⟩ := kv
    simp only [decodeEthResponseMembers]
    split
    · exact fun h => decodeInt_snd v r.ID saved (ih _ _ h)
    · split
      · exact fun h => decodeString_snd v r.Version saved (ih _ _ h)
      · split
        · exact ih _ saved
        · split
          · exact fun h => decodeEthErrorPtr_snd v r.Error saved (ih _ _ h)
          · exact ih r saved

theorem decodeEthResponse_fst (v : JSON) (saved : Option GoError) :
    (decodeEthResponse v saved).1 = (decodeEthResponse v none).1 := by
  cases v <;> simp only [decodeEthResponse]
  rw [decodeEthResponseMembers_fst]

theorem decodeEthResponse_snd (v : JSON) (saved : Option GoError) :
    (decodeEthResponse v saved).2 = none → saved = none := by
  cases v <;> simp only [decodeEthResponse]
  all_goals first
    | exact id
    | exact fun h => absurd h (saveError_ne_none _ _)
    | exact decodeEthResponseMembers_snd _ _ _

/-- A reply array that decodes without error decodes element by element, in order. -/
theorem decodeEthResponses_eq_map (vs : List JSON) :
    ∀ (saved : Option GoError), (decodeEthResponses vs saved).2 = none →
      saved = none ∧
      (decodeEthResponses vs saved).1 = vs.map (fun v => (decodeEthResponse v none).1) := by
  induction vs with
  | nil => intro saved h; exact ⟨h, rfl⟩
  | cons v vs ih =>
    intro saved h
    simp only [decodeEthResponses] at h ⊢
    obtain ⟨h1, h2⟩ := ih _ h
    exact ⟨decodeEthResponse_snd v saved h1, by rw [h2, decodeEthResponse_fst v saved]; rfl⟩

/-! ## C4, C5: the batch call -/

theorem batchCall_of_reply (x : NodeAPI) (reqs : List EthRequest) (response : HttpResponse)
    (v : JSON) (rs : Option (List EthResponse)) (hm : marshalErrors reqs = none)
    (hdo : x.client.Do 0 ⟨"POST", x.url, [], "application/json", .many reqs⟩ = .ok response)
    (hs : response.StatusCode = 200) (hb : response.Body = .json v)
    (hd : unmarshalEthResponses v = (rs, none)) :
    x.BatchCall reqs = (rs, none) := by
  simp [NodeAPI.BatchCall, hm, hdo, hs, hb, hd]

/-- The decoding of a reply array that leaves no error. -/
theorem unmarshalEthResponses_arr (vs : List JSON) (hd : (decodeEthResponses vs none).2 = none) :
    unmarshalEthResponses (.arr vs) =
      (some (vs.map (fun v => (decodeEthResponse v none).1)), none) := by
  simp only [unmarshalEthResponses, hd, (decodeEthResponses_eq_map vs none hd).2]

/-- A batch call without error had a reply with status 200 whose body was `null` or an array
that decodes without error. -/
theorem batchCall_nil_error_cases (x : NodeAPI) (reqs : List EthRequest)
    (h : (x.BatchCall reqs).2 = none) :
    marshalErrors reqs = none ∧
    ∃ response,
      x.client.Do 0 ⟨"POST", x.url, [], "application/json", .many reqs⟩ = .ok response ∧
      response.StatusCode = 200 ∧
      (response.Body = .json .null ∨
        ∃ vs, response.Body = .json (.arr vs) ∧ (decodeEthResponses vs none).2 = none) := by
  unfold NodeAPI.BatchCall at h
  cases hm : marshalErrors reqs with
  | some err => simp [hm] at h
  | none =>
    refine ⟨rfl, ?_⟩
    cases hdo : x.client.Do 0 ⟨"POST", x.url, [], "application/json", .many reqs⟩ with
    | err err => simp [hm, hdo] at h
    | ok response =>
      by_cases hs : response.StatusCode = 200
      · cases hb : response.Body with
        | readError err => simp [hm, hdo, hs, hb] at h
        | invalid err => simp [hm, hdo, hs, hb] at h
        | json v =>
          refine ⟨response, rfl, hs, ?_⟩
          cases v with
          | null => exact Or.inl hb
          | arr vs =>
            refine Or.inr ⟨vs, hb, ?_⟩
            cases hd : (decodeEthResponses vs none).2 with
            | none => rfl
            | some err => simp [hm, hdo, hs, hb, unmarshalEthResponses, hd] at h
          | _ => simp [hm, hdo, hs, hb, unmarshalEthResponses] at h
      · simp [hm, hdo, hs] at h

/-- C4 (counterexample): request ids [1,2,3], pairwise distinct, and a reply carrying the
three matching responses in the order [3,1,2]: `BatchCall` returns them with a nil error
in the order [3,1,2], not in the order of the requests. -/
theorem batchCall_reassociation_counterexample :
    threeRequests.map EthRequest.ID = [1, 2, 3] ∧
    (threeRequests.map EthRequest.ID).Nodup ∧
    ((nodeOver (fixedClient 200 (.json (.arr
      [replyEnvelope 3 (.str "0xc"), replyEnvelope 1 (.str "0xa"),
        replyEnvelope 2 (.str "0xb")])))).BatchCall threeRequests).2 = none ∧
    batchIds ((nodeOver (fixedClient 200 (.json (.arr
      [replyEnvelope 3 (.str "0xc"), replyEnvelope 1 (.str "0xa"),
        replyEnvelope 2 (.str "0xb")])))).BatchCall threeRequests) = some [3, 1, 2] ∧
    batchIds ((nodeOver (fixedClient 200 (.json (.arr
      [replyEnvelope 3 (.str "0xc"), replyEnvelope 1 (.str "0xa"),
        replyEnvelope 2 (.str "0xb")])))).BatchCall threeRequests) ≠
      some (threeRequests.map EthRequest.ID) := by
  decide

/-- C4 (amended): `BatchCall` returns the responses in the order of the reply. When the
request list marshals and the reply has status 200 and a body that is an array decoding
without error, whose ids are a permutation of the request ids, the call returns with a nil
error the element-wise decoding of that array, in the order of arrival; the returned list
has the length of the request list and its ids are a permutation of the request ids. -/
theorem batchCall_keeps_reply_order (x : NodeAPI) (reqs : List EthRequest)
    (response : HttpResponse) (vs : List JSON) (hm : marshalErrors reqs = none)
    (hdo : x.client.Do 0 ⟨"POST", x.url, [], "application/json", .many reqs⟩ = .ok response)
    (hs : response.StatusCode = 200) (hb : response.Body = .json (.arr vs))
    (hd : (decodeEthResponses vs none).2 = none)
    (hperm : (vs.map (fun v => (decodeEthResponse v none).1.ID)).Perm
      (reqs.map EthRequest.ID)) :
    x.BatchCall reqs = (some (vs.map (fun v => (decodeEthResponse v none).1)), none) ∧
    (vs.map (fun v => (decodeEthResponse v none).1)).length = reqs.length ∧
    ((vs.map (fun v => (decodeEthResponse v none).1)).map EthResponse.ID).Perm
      (reqs.map EthRequest.ID) := by
  refine ⟨batchCall_of_reply x reqs response _ _ hm hdo hs hb
    (unmarshalEthResponses_arr vs hd), ?_, ?_⟩
  · have := hperm.length_eq
    simpa using this
  · simpa [List.map_map] using hperm

/-- C4 (amended), on the reply that arrives as [3,1,2]. -/
theorem batchCall_keeps_reply_order_witness :
    (nodeOver (fixedClient 200 (.json (.arr
      [replyEnvelope 3 (.str "0xc"), replyEnvelope 1 (.str "0xa"),
        replyEnvelope 2 (.str "0xb")])))).BatchCall threeRequests =
      (some ([replyEnvelope 3 (.str "0xc"), replyEnvelope 1 (.str "0xa"),
        replyEnvelope 2 (.str "0xb")].map (fun v => (decodeEthResponse v none).1)), none) ∧
    ([replyEnvelope 3 (.str "0xc"), replyEnvelope 1 (.str "0xa"),
        replyEnvelope 2 (.str "0xb")].map (fun v => (decodeEthResponse v none).1)).length =
      threeRequests.length ∧
    (([replyEnvelope 3 (.str "0xc"), replyEnvelope 1 (.str "0xa"),
        replyEnvelope 2 (.str "0xb")].map (fun v => (decodeEthResponse v none).1)).map
      EthResponse.ID).Perm (threeRequests.map EthRequest.ID) :=
  batchCall_keeps_reply_order _ threeRequests
    ⟨200, .json (.arr [replyEnvelope 3 (.str "0xc"), replyEnvelope 1 (.str "0xa"),
      replyEnvelope 2 (.str "0xb")])⟩ _ (by decide) rfl rfl rfl (by decide) (by decide)

/-- C5 (counterexample): request ids [1,2,3]. A reply without a response for id 2 is
returned with a nil error as the two responses [1,3]; a reply in which id 1 occurs twice is
returned with a nil error as the four responses [1,1,2,3]. -/
theorem batchCall_unmatched_ids_counterexample :
    threeRequests.map EthRequest.ID = [1, 2, 3] ∧
    ((nodeOver (fixedClient 200 (.json (.arr
      [replyEnvelope 1 (.str "0xa"), replyEnvelope 3 (.str "0xc")])))).BatchCall
        threeRequests).2 = none ∧
    batchIds ((nodeOver (fixedClient 200 (.json (.arr
      [replyEnvelope 1 (.str "0xa"), replyEnvelope 3 (.str "0xc")])))).BatchCall
        threeRequests) = some [1, 3] ∧
    ((nodeOver (fixedClient 200 (.json (.arr
      [replyEnvelope 1 (.str "0xa"), replyEnvelope 1 (.str "0xa"),
        replyEnvelope 2 (.str "0xb"), replyEnvelope 3 (.str "0xc")])))).BatchCall
        threeRequests).2 = none ∧
    batchIds ((nodeOver (fixedClient 200 (.json (.arr
      [replyEnvelope 1 (.str "0xa"), replyEnvelope 1 (.str "0xa"),
        replyEnvelope 2 (.str "0xb"), replyEnvelope 3 (.str "0xc")])))).BatchCall
        threeRequests) = some [1, 1, 2, 3] := by
  decide

/-- C5 (amended): `BatchCall` never returns responses together with an error, and it
returns an error unless the request list marshals and the reply has status 200 and a body
that is the literal `null` or an array decoding without error as response envelopes. Such
an array is returned as decoded, element by element, with a nil error, whatever ids it
carries; the body `null` is returned as the nil list with a nil error. -/
theorem batchCall_all_or_nothing (x : NodeAPI) (reqs : List EthRequest) :
    ((x.BatchCall reqs).2 ≠ none → (x.BatchCall reqs).1 = none) ∧
    ((x.BatchCall reqs).2 = none →
      marshalErrors reqs = none ∧
      ∃ response,
        x.client.Do 0 ⟨"POST", x.url, [], "application/json", .many reqs⟩ = .ok response ∧
        response.StatusCode = 200 ∧
        ((response.Body = .json .null ∧ x.BatchCall reqs = (none, none)) ∨
          ∃ vs, response.Body = .json (.arr vs) ∧ (decodeEthResponses vs none).2 = none ∧
            x.BatchCall reqs =
              (some (vs.map (fun v => (decodeEthResponse v none).1)), none))) ∧
    (∀ response vs, marshalErrors reqs = none →
      x.client.Do 0 ⟨"POST", x.url, [], "application/json", .many reqs⟩ = .ok response →
      response.StatusCode = 200 → response.Body = .json (.arr vs) →
      (decodeEthResponses vs none).2 = none →
      x.BatchCall reqs = (some (vs.map (fun v => (decodeEthResponse v none).1)), none)) ∧
    (∀ response, marshalErrors reqs = none →
      x.client.Do 0 ⟨"POST", x.url, [], "application/json", .many reqs⟩ = .ok response →
      response.StatusCode = 200 → response.Body = .json .null →
      x.BatchCall reqs = (none, none)) := by
  refine ⟨?_, ?_, fun response vs hm hdo hs hb hd =>
    batchCall_of_reply x reqs response _ _ hm hdo hs hb (unmarshalEthResponses_arr vs hd),
    fun response hm hdo hs hb => batchCall_of_reply x reqs response _ _ hm hdo hs hb rfl⟩
  · unfold NodeAPI.BatchCall
    cases marshalErrors reqs with
    | some err => simp
    | none =>
      cases x.client.Do 0 ⟨"POST", x.url, [], "application/json", .many reqs⟩ with
      | err err => simp
      | ok response =>
        by_cases hs : response.StatusCode = 200
        · simp only [hs]
          cases response.Body with
          | readError err => simp
          | invalid err => simp
          | json v =>
            rcases hu : unmarshalEthResponses v with ⟨rs, _ | err⟩ <;> simp [hu]
        · simp [hs]
  · intro h
    obtain ⟨hm, response, hdo, hs, hb⟩ := batchCall_nil_error_cases x reqs h
    refine ⟨hm, response, hdo, hs, ?_⟩
    rcases hb with hb | ⟨vs, hb, hd⟩
    · exact Or.inl ⟨hb, batchCall_of_reply x reqs response _ _ hm hdo hs hb rfl⟩
    · exact Or.inr ⟨vs, hb, hd, batchCall_of_reply x reqs response _ _ hm hdo hs hb
        (unmarshalEthResponses_arr vs hd)⟩

/-- C5 (amended), on the reply that lacks id 2. -/
theorem batchCall_all_or_nothing_witness :
    (nodeOver (fixedClient 200 (.json (.arr
      [replyEnvelope 1 (.str "0xa"), replyEnvelope 3 (.str "0xc")])))).BatchCall
        threeRequests =
      (some ([replyEnvelope 1 (.str "0xa"), replyEnvelope 3 (.str "0xc")].map
        (fun v => (decodeEthResponse v none).1)), none) :=
  (batchCall_all_or_nothing (nodeOver (fixedClient 200 (.json (.arr
      [replyEnvelope 1 (.str "0xa"), replyEnvelope 3 (.str "0xc")])))) threeRequests).2.2.1
    ⟨200, .json (.arr [replyEnvelope 1 (.str "0xa"), replyEnvelope 3 (.str "0xc")])⟩
    _ (by decide) rfl rfl rfl (by decide)

/-! ## C10: the error member of the envelope -/

theorem keyIs_congr (k a b : String) (h : keyIs k a = true) : keyIs k b = keyIs a b := by
  unfold keyIs at h ⊢
  rw [eq_of_beq h]

theorem decodeEthResponseMembers_append (pre : List (String × JSON)) :
    ∀ (rest : List (String × JSON)) (r : EthResponse) (saved : Option GoError),
      decodeEthResponseMembers (pre ++ rest) r saved =
        decodeEthResponseMembers rest (decodeEthResponseMembers pre r saved).1
          (decodeEthResponseMembers pre r saved).2 := by
  induction pre with
  | nil => intro rest r saved; rfl
  | cons kv pre ih =>
    intro rest r saved
    obtain ⟨k, v⟩ := kv
    simp only [List.cons_append, decodeEthResponseMembers]
    split
    · exact ih _ _ _
    · split
      · exact ih _ _ _
      · split
        · exact ih _ _ _
        · split
          · exact ih _ _ _
          · exact ih _ _ _

theorem decodeEthResponseMembers_error_absent (ms : List (String × JSON)) :
    ∀ (r : EthResponse) (saved : Option GoError),
      (∀ kv ∈ ms, keyIs kv.1 "error" = false) →
      (decodeEthResponseMembers ms r saved).1.Error = r.Error := by
  induction ms with
  | nil => intro r saved _; rfl
  | cons kv ms ih =>
    intro r saved h
    obtain ⟨k, v⟩ := kv
    have hk : keyIs k "error" = false := h (k, v) (List.mem_cons_self _ _)
    have hms : ∀ kv ∈ ms, keyIs kv.1 "error" = false :=
      fun kv hkv => h kv (List.mem_cons_of_mem _ hkv)
    simp only [decodeEthResponseMembers, hk]
    split
    · rw [ih _ _ hms]
    · split
      · rw [ih _ _ hms]
      · split
        · rw [ih _ _ hms]
        · simp only [Bool.false_eq_true, if_false]
          exact ih _ _ hms

theorem decodeEthResponseMembers_result_absent (ms : List (String × JSON)) :
    ∀ (r : EthResponse) (saved : Option GoError),
      (∀ kv ∈ ms, keyIs kv.1 "result" = false) →
      (decodeEthResponseMembers ms r saved).1.Result = r.Result := by
  induction ms with
  | nil => intro r saved _; rfl
  | cons kv ms ih =>
    intro r saved h
    obtain ⟨k, v⟩ := kv
    have hk : keyIs k "result" = false := h (k, v) (List.mem_cons_self _ _)
    have hms : ∀ kv ∈ ms, keyIs kv.1 "result" = false :=
      fun kv hkv => h kv (List.mem_cons_of_mem _ hkv)
    simp only [decodeEthResponseMembers, hk]
    split
    · rw [ih _ _ hms]
    · split
      · rw [ih _ _ hms]
      · simp only [Bool.false_eq_true, if_false]
        split
        · rw [ih _ _ hms]
        · exact ih _ _ hms

theorem decodeEthErrorPtr_code_message (c : Int) (m : String) (cur : Option EthError)
    (saved : Option GoError)
    (h : (decodeEthErrorPtr (.obj [("code", .int c), ("message", .str m)]) cur saved).2 = none) :
    (decodeEthErrorPtr (.obj [("code", .int c), ("message", .str m)]) cur saved).1 =
      some ⟨c, m⟩ := by
  have hc : keyIs "code" "code" = true := by decide
  have hm1 : keyIs "message" "code" = false := by decide
  have hm2 : keyIs "message" "message" = true := by decide
  simp only [decodeEthErrorPtr, decodeEthErrorMembers, hc, hm1, hm2, if_true,
    Bool.false_eq_true, if_false, decodeString] at h ⊢
  by_cases hr : -(2 : Int) ^ 63 ≤ c ∧ c < (2 : Int) ^ 63
  · simp only [decodeInt, hr, and_self, if_true]
  · simp only [decodeInt, hr, if_false] at h
    exact absurd h (saveError_ne_none _ _)

theorem unmarshal_error_member (ms : List (String × JSON)) (c : Int) (m : String)
    (resp : EthResponse) (hmem : HasErrorMember ms c m)
    (h : unmarshalEthResponse (.obj ms) = (resp, none)) : resp.Error = some ⟨c, m⟩ := by
  obtain ⟨pre, key, post, rfl, hkey, hpost⟩ := hmem
  have hid : keyIs key "id" = false := by rw [keyIs_congr key "error" "id" hkey]; decide
  have hver : keyIs key "jsonrpc" = false := by
    rw [keyIs_congr key "error" "jsonrpc" hkey]; decide
  have hres : keyIs key "result" = false := by
    rw [keyIs_congr key "error" "result" hkey]; decide
  simp only [unmarshalEthResponse, decodeEthResponse] at h
  rw [decodeEthResponseMembers_append] at h
  simp only [decodeEthResponseMembers, hid, hver, hres, hkey, Bool.false_eq_true, if_false,
    if_true] at h
  have h1 := congrArg Prod.fst h
  have h2 := congrArg Prod.snd h
  simp only at h1 h2
  have hsaved := decodeEthResponseMembers_snd post _ _ h2
  rw [← h1, decodeEthResponseMembers_error_absent post _ _ hpost]
  exact decodeEthErrorPtr_code_message c m _ _ hsaved

theorem unmarshal_error_absent (ms : List (String × JSON)) (resp : EthResponse)
    (saved : Option GoError) (habs : ∀ kv ∈ ms, keyIs kv.1 "error" = false)
    (h : unmarshalEthResponse (.obj ms) = (resp, saved)) : resp.Error = none := by
  simp only [unmarshalEthResponse, decodeEthResponse] at h
  have h1 := congrArg Prod.fst h
  simp only at h1
  rw [← h1, decodeEthResponseMembers_error_absent ms _ _ habs]
  rfl

theorem unmarshal_result_member (ms : List (String × JSON)) (r : JSON) (resp : EthResponse)
    (saved : Option GoError) (hmem : HasResultMember ms r)
    (h : unmarshalEthResponse (.obj ms) = (resp, saved)) : resp.Result = some r := by
  obtain ⟨pre, key, post, rfl, hkey, hpost⟩ := hmem
  have hid : keyIs key "id" = false := by rw [keyIs_congr key "result" "id" hkey]; decide
  have hver : keyIs key "jsonrpc" = false := by
    rw [keyIs_congr key "result" "jsonrpc" hkey]; decide
  simp only [unmarshalEthResponse, decodeEthResponse] at h
  rw [decodeEthResponseMembers_append] at h
  simp only [decodeEthResponseMembers, hid, hver, hkey, Bool.false_eq_true, if_false,
    if_true] at h
  have h1 := congrArg Prod.fst h
  simp only at h1
  rw [← h1, decodeEthResponseMembers_result_absent post _ _ hpost]

theorem finishCall_of_envelope (response : HttpResponse) (v : JSON) (resp : EthResponse)
    (hs : response.StatusCode = 200) (hb : response.Body = .json v)
    (hd : unmarshalEthResponse v = (resp, none)) :
    (∀ c m, resp.Error = some ⟨c, m⟩ → finishCall response = (none, some (.eth ⟨c, m⟩))) ∧
    (resp.Error = none → finishCall response = (resp.Result, none)) := by
  constructor
  · intro c m he
    simp [finishCall, hs, hb, hd, he]
  · intro he
    simp [finishCall, hs, hb, hd, he]

/-- C10: `Call` preserves a JSON-RPC error object. For the node variant and for the explorer
variant: when the response has status 200 and its body is an envelope that decodes without
error into `resp`, then an error member `{code c, message m}` (`resp.Error` non-nil) makes
`Call` return a nil result and the error `EthError{c, m}`, whatever `resp.Result` is, and
an absent error member (`resp.Error` nil) makes it return `resp.Result` with a nil error.
On the JSON side: an envelope object with an error member `{"code": c, "message": m}` that
decodes has `resp.Error = &EthError{c, m}`; one without an error member has a nil
`resp.Error`; one with a result member `r` has `resp.Result = r`. -/
theorem call_preserves_rpc_error :
    (∀ (x : NodeAPI) (method : String) (params : List Param) (response : HttpResponse)
      (v : JSON) (resp : EthResponse),
      marshalError ⟨1, "2.0", method, params⟩ = none →
      x.client.Do 0 ⟨"POST", x.url, [], "application/json",
        .one ⟨1, "2.0", method, params⟩⟩ = .ok response →
      response.StatusCode = 200 → response.Body = .json v →
      unmarshalEthResponse v = (resp, none) →
      (∀ c m, resp.Error = some ⟨c, m⟩ →
        x.Call method params = (none, some (.eth ⟨c, m⟩))) ∧
      (resp.Error = none → x.Call method params = (resp.Result, none))) ∧
    (∀ (x : EtherscanAPI) (method : String) (params : List Param) (k : Nat)
      (req : HttpRequest) (response : HttpResponse) (v : JSON) (resp : EthResponse),
      (x.Call method params).sent[k]? = some req → x.client.Do k req = .ok response →
      response.StatusCode = 200 → response.Body = .json v →
      unmarshalEthResponse v = (resp, none) →
      (∀ c m, resp.Error = some ⟨c, m⟩ →
        (x.Call method params).outcome = .ret none (some (.eth ⟨c, m⟩))) ∧
      (resp.Error = none → (x.Call method params).outcome = .ret resp.Result none)) ∧
    (∀ (ms : List (String × JSON)) (c : Int) (m : String) (resp : EthResponse),
      HasErrorMember ms c m → unmarshalEthResponse (.obj ms) = (resp, none) →
      resp.Error = some ⟨c, m⟩) ∧
    (∀ (ms : List (String × JSON)) (resp : EthResponse) (saved : Option GoError),
      (∀ kv ∈ ms, keyIs kv.1 "error" = false) →
      unmarshalEthResponse (.obj ms) = (resp, saved) → resp.Error = none) ∧
    (∀ (ms : List (String × JSON)) (r : JSON) (resp : EthResponse) (saved : Option GoError),
      HasResultMember ms r → unmarshalEthResponse (.obj ms) = (resp, saved) →
      resp.Result = some r) := by
  refine ⟨?_, ?_, unmarshal_error_member, unmarshal_error_absent, unmarshal_result_member⟩
  · intro x method params response v resp hm hdo hs hb hd
    have hcall : x.Call method params = finishCall response := by
      simp [NodeAPI.Call, hm, hdo]
    rw [hcall]
    exact finishCall_of_envelope response v resp hs hb hd
  · intro x method params k req response v resp hget hdo hs hb hd
    have h403 : response.StatusCode ≠ 403 := by rw [hs]; decide
    obtain ⟨-, -, -, hok, -⟩ :=
      (retryLoop_trace x method params 7 0 [] rfl).2 k req (Nat.zero_le _) hget
    have hout : (x.Call method params).outcome =
        .ret (finishCall response).1 (finishCall response).2 := (hok response hdo h403).2
    obtain ⟨h1, h2⟩ := finishCall_of_envelope response v resp hs hb hd
    constructor
    · intro c m he; rw [hout, h1 c m he]
    · intro he; rw [hout, h2 he]

/-- C10, on a node reply that carries both a result and the error object
`{"code": -32000, "message": "header not found"}`. -/
theorem call_preserves_rpc_error_witness :
    (nodeOver (fixedClient 200 (.json
      (errorEnvelope (.str "0x1") (-32000) "header not found")))).Call
        "eth_getBlockByNumber" [.str "0x10", .bool true] =
      (none, some (.eth ⟨-32000, "header not found"⟩)) :=
  (call_preserves_rpc_error.1
    (nodeOver (fixedClient 200 (.json
      (errorEnvelope (.str "0x1") (-32000) "header not found"))))
    "eth_getBlockByNumber" [.str "0x10", .bool true]
    ⟨200, .json (errorEnvelope (.str "0x1") (-32000) "header not found")⟩
    (errorEnvelope (.str "0x1") (-32000) "header not found")
    ⟨1, "2.0", some (.str "0x1"), some ⟨-32000, "header not found"⟩⟩
    (by decide) rfl rfl rfl rfl).1 (-32000) "header not found" rfl

/-! ## C6: sync status -/

theorem dropWhile_eq_self_of_not_mem (q : Char) (m : List Char) (h : q ∉ m) :
    m.dropWhile (· == q) = m := by
  cases m with
  | nil => rfl
  | cons a m =>
    have ha : a ≠ q := fun e => h (by rw [e]; exact List.mem_cons_self _ _)
    have hb : (a == q) = false := by simpa using ha
    simp [List.dropWhile, hb]

/-- Trimming the quotes of a string literal gives back the text between them, when that
text has no quote character. -/
theorem bytesTrim_quoted (s : String) (h : '"' ∉ s.data) :
    bytesTrim ("\"" ++ s ++ "\"") '"' = s := by
  have hdata : ("\"" ++ s ++ "\"").data = '"' :: (s.data ++ ['"']) := by
    simp [String.data_append]
  unfold bytesTrim
  rw [hdata]
  have h1 : ('"' :: (s.data ++ ['"'])).dropWhile (· == '"') =
      (s.data ++ ['"']).dropWhile (· == '"') := by
    simp [List.dropWhile]
  rw [h1]
  cases hs : s.data with
  | nil =>
    have : s = "" := by
      cases s; simp_all
    subst this
    rfl
  | cons a l =>
    have ha : a ≠ '"' := fun e => h (by rw [hs, e]; exact List.mem_cons_self _ _)
    have hb : (a == '"') = false := by simpa using ha
    have h2 : (a :: l ++ ['"']).dropWhile (· == '"') = a :: l ++ ['"'] := by
      simp [List.dropWhile, hb]
    rw [h2]
    have h3 : (a :: l ++ ['"']).reverse = '"' :: (a :: l).reverse := by simp
    rw [h3]
    have h4 : ('"' :: (a :: l).reverse).dropWhile (· == '"') =
        (a :: l).reverse.dropWhile (· == '"') := by
      simp [List.dropWhile]
    rw [h4, dropWhile_eq_self_of_not_mem '"' (a :: l).reverse
      (by rw [List.mem_reverse, ← hs]; exact h), List.reverse_reverse, ← hs]

theorem hexInt_unmarshal_str (parseInt : String → Int × Option GoError) (s : String)
    (h : '"' ∉ s.data) : hexInt.UnmarshalJSON parseInt (JSON.str s).raw = parseInt s := by
  simp only [hexInt.UnmarshalJSON, JSON.raw]
  rw [bytesTrim_quoted s h]

/-- The hook on a string literal hands the text between the quotes to the hex helper, when
that text has no quote character. -/
theorem hexInt_unmarshal_wire (parseInt : String → Int × Option GoError) (v : JSON)
    (s : String) (hw : v.wireText = some s) (h : '"' ∉ s.data) :
    hexInt.UnmarshalJSON parseInt v.raw = parseInt s := by
  cases v with
  | str t =>
    simp only [JSON.wireText, Option.some.injEq] at hw
    subst hw
    exact hexInt_unmarshal_str parseInt t h
  | escaped w c =>
    simp only [JSON.wireText, Option.some.injEq] at hw
    subst hw
    simp only [hexInt.UnmarshalJSON, JSON.raw]
    rw [bytesTrim_quoted w h]
  | _ => simp [JSON.wireText] at hw

/-- A hex quantity as an object member: a string without quote characters that the hex
helper accepts. -/
theorem decodeProxySyncingMembers_spec (parseInt : String → Int × Option GoError)
    (ms : List (String × JSON)) :
    ∀ (p : proxySyncing),
      (∀ kv ∈ ms, isHeightKey kv.1 = true →
        (hexInt.UnmarshalJSON parseInt kv.2.raw).2 = none) →
      decodeProxySyncingMembers parseInt ms p =
        (⟨p.IsSyncing,
          match lastMember "startingBlock" ms with
          | some v => (hexInt.UnmarshalJSON parseInt v.raw).1
          | none => p.StartingBlock,
          match lastMember "currentBlock" ms with
          | some v => (hexInt.UnmarshalJSON parseInt v.raw).1
          | none => p.CurrentBlock,
          match lastMember "highestBlock" ms with
          | some v => (hexInt.UnmarshalJSON parseInt v.raw).1
          | none => p.HighestBlock⟩, none) := by
  induction ms with
  | nil => intro p _; rfl
  | cons kv ms ih =>
    intro p h
    obtain ⟨k, v⟩ := kv
    have hms : ∀ kv ∈ ms, isHeightKey kv.1 = true →
        (hexInt.UnmarshalJSON parseInt kv.2.raw).2 = none :=
      fun kv hkv => h kv (List.mem_cons_of_mem _ hkv)
    have hkv := h (k, v) (List.mem_cons_self _ _)
    simp only [isHeightKey, Bool.or_eq_true] at hkv
    simp only [decodeProxySyncingMembers, lastMember]
    by_cases h1 : keyIs k "startingBlock" = true
    · have h2 : keyIs k "currentBlock" = false := by
        rw [keyIs_congr k "startingBlock" "currentBlock" h1]; decide
      have h3 : keyIs k "highestBlock" = false := by
        rw [keyIs_congr k "startingBlock" "highestBlock" h1]; decide
      have hok := hkv (Or.inl (Or.inl h1))
      rcases hu : hexInt.UnmarshalJSON parseInt v.raw with ⟨n, e⟩
      rw [hu] at hok
      simp only at hok
      subst hok
      simp only [h1, h2, h3, if_true, Bool.false_eq_true, if_false]
      rw [ih _ hms]
      cases lastMember "startingBlock" ms <;> cases lastMember "currentBlock" ms <;>
        cases lastMember "highestBlock" ms <;> simp [hu]
    · by_cases h2 : keyIs k "currentBlock" = true
      · have h3 : keyIs k "highestBlock" = false := by
          rw [keyIs_congr k "currentBlock" "highestBlock" h2]; decide
        have hok := hkv (Or.inl (Or.inr h2))
        rcases hu : hexInt.UnmarshalJSON parseInt v.raw with ⟨n, e⟩
        rw [hu] at hok
        simp only at hok
        subst hok
        simp only [h1, h2, h3, if_true, Bool.false_eq_true, if_false]
        rw [ih _ hms]
        cases lastMember "startingBlock" ms <;> cases lastMember "currentBlock" ms <;>
          cases lastMember "highestBlock" ms <;> simp [hu]
      · by_cases h3 : keyIs k "highestBlock" = true
        · have hok := hkv (Or.inr h3)
          rcases hu : hexInt.UnmarshalJSON parseInt v.raw with ⟨n, e⟩
          rw [hu] at hok
          simp only at hok
          subst hok
          simp only [h1, h2, h3, if_true, Bool.false_eq_true, if_false]
          rw [ih _ hms]
          cases lastMember "startingBlock" ms <;> cases lastMember "currentBlock" ms <;>
            cases lastMember "highestBlock" ms <;> simp [hu]
        · simp only [h1, h2, h3, if_false]
          rw [ih _ hms]
          cases lastMember "startingBlock" ms <;> cases lastMember "currentBlock" ms <;>
            cases lastMember "highestBlock" ms <;> rfl

theorem lastMember_mem (name : String) (ms : List (String × JSON)) (v : JSON)
    (h : lastMember name ms = some v) : ∃ k, (k, v) ∈ ms ∧ keyIs k name = true := by
  induction ms with
  | nil => simp [lastMember] at h
  | cons kv ms ih =>
    obtain ⟨k, w⟩ := kv
    simp only [lastMember] at h
    cases hl : lastMember name ms with
    | some u =>
      rw [hl] at h
      simp only [Option.some.injEq] at h
      subst h
      obtain ⟨k', hk', hkey⟩ := ih hl
      exact ⟨k', List.mem_cons_of_mem _ hk', hkey⟩
    | none =>
      rw [hl] at h
      by_cases hk : keyIs k name = true
      · simp only [hk, if_true, Option.some.injEq] at h
        subst h
        exact ⟨k, List.mem_cons_self _ _, hk⟩
      · simp [hk] at h

/-- C6: sync-status decoding in `NodeAPI.EthSyncing`, for any hex helper `parseInt`. When
the raw result is the literal `false` it returns `Syncing{false, 0, 0, 0}` with no error.
When the raw result is an object whose height members are hex quantities (string literals
whose text between the quotes, taken as it stands in the input, `parseInt` accepts), it
returns `IsSyncing = true` and the three heights that `parseInt` gives for the texts of the
members `startingBlock`, `currentBlock` and `highestBlock`. With the `ParseInt` of the
specification, the object with `0x0`, `0x1`, `0x2` gives `Syncing{true, 0, 1, 2}`. -/
theorem ethSyncing_decodes (parseInt : String → Int × Option GoError) (x : NodeAPI) :
    (x.Call "eth_syncing" [] = (some (.bool false), none) →
      NodeAPI.EthSyncing parseInt x = (some ⟨false, 0, 0, 0⟩, none)) ∧
    (∀ (ms : List (String × JSON)) (v1 v2 v3 : JSON) (s1 s2 s3 : String) (n1 n2 n3 : Int),
      x.Call "eth_syncing" [] = (some (.obj ms), none) →
      lastMember "startingBlock" ms = some v1 → v1.wireText = some s1 →
      lastMember "currentBlock" ms = some v2 → v2.wireText = some s2 →
      lastMember "highestBlock" ms = some v3 → v3.wireText = some s3 →
      (∀ kv ∈ ms, isHeightKey kv.1 = true →
        ∃ s n, kv.2.wireText = some s ∧ '"' ∉ s.data ∧ parseInt s = (n, none)) →
      parseInt s1 = (n1, none) → parseInt s2 = (n2, none) → parseInt s3 = (n3, none) →
      NodeAPI.EthSyncing parseInt x = (some ⟨true, n1, n2, n3⟩, none)) ∧
    (parseInt = ParseInt → x.Call "eth_syncing" [] = (some syncingExample, none) →
      NodeAPI.EthSyncing parseInt x = (some ⟨true, 0, 1, 2⟩, none)) := by
  refine ⟨?_, ?_, ?_⟩
  · intro h
    simp [NodeAPI.EthSyncing, h]
  · intro ms v1 v2 v3 s1 s2 s3 n1 n2 n3 hcall h1 w1 h2 w2 h3 w3 hall p1 p2 p3
    have hok : ∀ kv ∈ ms, isHeightKey kv.1 = true →
        (hexInt.UnmarshalJSON parseInt kv.2.raw).2 = none := by
      intro kv hkv hkey
      obtain ⟨s, n, hs, hq, hp⟩ := hall kv hkv hkey
      rw [hexInt_unmarshal_wire parseInt kv.2 s hs hq, hp]
    have quote : ∀ (name : String) (v : JSON) (s : String), isHeightKey name = true →
        lastMember name ms = some v → v.wireText = some s → '"' ∉ s.data := by
      intro name v s hname hl hw
      obtain ⟨k, hk, hkey⟩ := lastMember_mem name ms _ hl
      have hkh : isHeightKey k = true := by
        unfold isHeightKey at hname ⊢
        rw [keyIs_congr k name "startingBlock" hkey, keyIs_congr k name "currentBlock" hkey,
          keyIs_congr k name "highestBlock" hkey]
        exact hname
      obtain ⟨s', n, hs, hq, -⟩ := hall (k, v) hk hkh
      rw [hw, Option.some.injEq] at hs
      rw [hs]; exact hq
    have q1 := quote "startingBlock" v1 s1 (by decide) h1 w1
    have q2 := quote "currentBlock" v2 s2 (by decide) h2 w2
    have q3 := quote "highestBlock" v3 s3 (by decide) h3 w3
    have hdec := decodeProxySyncingMembers_spec parseInt ms ⟨false, 0, 0, 0⟩ hok
    rw [h1, h2, h3] at hdec
    simp only [hexInt_unmarshal_wire parseInt v1 s1 w1 q1,
      hexInt_unmarshal_wire parseInt v2 s2 w2 q2,
      hexInt_unmarshal_wire parseInt v3 s3 w3 q3, p1, p2, p3] at hdec
    simp [NodeAPI.EthSyncing, hcall, Syncing.UnmarshalJSON, unmarshalProxySyncing, hdec]
  · intro hp hcall
    subst hp
    have hdec : Syncing.UnmarshalJSON ParseInt ⟨false, 0, 0, 0⟩ syncingExample =
        (⟨true, 0, 1, 2⟩, none) := by decide
    simp [NodeAPI.EthSyncing, hcall, syncingExample] at hdec ⊢
    simp [hdec]

/-- C6, on the example of the specification: once through the general statement about
objects of hex quantities, once through the statement about the example. -/
theorem ethSyncing_decodes_witness :
    NodeAPI.EthSyncing ParseInt (nodeOver (fixedClient 200 (.json
      (resultEnvelope syncingExample)))) = (some ⟨true, 0, 1, 2⟩, none) ∧
    NodeAPI.EthSyncing ParseInt (nodeOver (fixedClient 200 (.json
      (resultEnvelope syncingExample)))) = (some ⟨true, 0, 1, 2⟩, none) :=
  ⟨(ethSyncing_decodes ParseInt (nodeOver (fixedClient 200 (.json
      (resultEnvelope syncingExample))))).2.1
      [("startingBlock", .str "0x0"), ("currentBlock", .str "0x1"),
        ("highestBlock", .str "0x2")] (.str "0x0") (.str "0x1") (.str "0x2")
      "0x0" "0x1" "0x2" 0 1 2 rfl rfl rfl rfl rfl rfl rfl
      (by
        intro kv hkv _
        simp only [List.mem_cons, List.mem_singleton, List.not_mem_nil, or_false] at hkv
        rcases hkv with rfl | rfl | rfl
        · exact ⟨"0x0", 0, rfl, by decide, rfl⟩
        · exact ⟨"0x1", 1, rfl, by decide, rfl⟩
        · exact ⟨"0x2", 2, rfl, by decide, rfl⟩)
      rfl rfl rfl,
    (ethSyncing_decodes ParseInt (nodeOver (fixedClient 200 (.json
      (resultEnvelope syncingExample))))).2.2 rfl rfl⟩

/-! ## C7-C9: lookups, null results, the not-found convention, error propagation -/

theorem length_eq_zero_iff (s : String) : s.length = 0 ↔ s = "" := by
  constructor
  · intro h
    cases s with
    | mk data =>
      have : data = [] := List.length_eq_zero.mp h
      subst this; rfl
  · intro h; subst h; rfl

theorem node_call_of_null {T : Type} (x : NodeAPI) (method : String)
    (unmarshal : JSON → T → T × Option GoError) (target : T) (params : List Param)
    (h : x.Call method params = (some .null, none)) :
    x.call method unmarshal target params = (target, some (.errorf "result null" [])) := by
  simp [NodeAPI.call, h]

theorem node_call_of_error {T : Type} (x : NodeAPI) (method : String)
    (unmarshal : JSON → T → T × Option GoError) (target : T) (params : List Param)
    (e : GoError) (h : (x.Call method params).2 = some e) :
    x.call method unmarshal target params = (target, some e) := by
  rcases hc : x.Call method params with ⟨r, err⟩
  rw [hc] at h
  simp only at h
  subst h
  simp [NodeAPI.call, hc]

theorem etherscan_call_of_null {T : Type} (x : EtherscanAPI) (method : String)
    (unmarshal : JSON → T → T × Option GoError) (target : T) (params : List Param)
    (h : (x.Call method [.slice params]).outcome = .ret (some .null) none) :
    x.call method unmarshal target params =
      .done (target, some (.errorf "result null" [])) := by
  simp [EtherscanAPI.call, h]

theorem etherscan_call_of_error {T : Type} (x : EtherscanAPI) (method : String)
    (unmarshal : JSON → T → T × Option GoError) (target : T) (params : List Param)
    (r : RawMessage) (e : GoError)
    (h : (x.Call method [.slice params]).outcome = .ret r (some e)) :
    x.call method unmarshal target params = .done (target, some e) := by
  simp [EtherscanAPI.call, h]

theorem node_getBlock_cases (u : Unmarshalers) (x : NodeAPI) (method : String)
    (withTransactions : Bool) (params : List Param) :
    (∃ err, x.getBlock u method withTransactions params = (none, some err)) ∨
    (∃ block, x.getBlock u method withTransactions params = (some block, none) ∧
      block.Hash ≠ "") := by
  rcases hc : x.call method (ProxyBlock.unmarshal u) (ProxyBlock.fresh withTransactions)
    params with ⟨response, _ | err⟩
  · by_cases h : response.ToBlock.Hash.length = 0
    · exact Or.inl ⟨.errorf "block not found" [], by simp [NodeAPI.getBlock, hc, h]⟩
    · exact Or.inr ⟨response.ToBlock, by simp [NodeAPI.getBlock, hc, h],
        fun he => h ((length_eq_zero_iff _).mpr he)⟩
  · exact Or.inl ⟨err, by simp [NodeAPI.getBlock, hc]⟩

theorem node_uncle_cases (u : Unmarshalers) (intToHex : Int → String) (x : NodeAPI)
    (number pos : Int) :
    (∃ err, x.EthGetUncleByBlockNumberAndIndex u intToHex number pos = (none, some err)) ∨
    (∃ block, x.EthGetUncleByBlockNumberAndIndex u intToHex number pos = (some block, none) ∧
      block.Hash ≠ "") := by
  rcases hc : x.call "eth_getUncleByBlockNumberAndIndex" (UncleBlock.unmarshal u)
    UncleBlock.zero [.str (intToHex number), .str (intToHex pos)] with ⟨uncleBlock, _ | err⟩
  · by_cases h : uncleBlock.ToBlock.Hash.length = 0
    · exact Or.inl ⟨.errorf "block not found" [],
        by simp [NodeAPI.EthGetUncleByBlockNumberAndIndex, hc, h]⟩
    · exact Or.inr ⟨uncleBlock.ToBlock,
        by simp [NodeAPI.EthGetUncleByBlockNumberAndIndex, hc, h],
        fun he => h ((length_eq_zero_iff _).mpr he)⟩
  · exact Or.inl ⟨err, by simp [NodeAPI.EthGetUncleByBlockNumberAndIndex, hc]⟩

theorem node_getTransaction_cases (u : Unmarshalers) (x : NodeAPI) (method : String)
    (params : List Param) :
    (∃ err, x.getTransaction u method params = (none, some err)) ∨
    (∃ transaction err, x.getTransaction u method params = (some transaction, err) ∧
      transaction.Hash ≠ "") := by
  rcases hc : x.call method (Transaction.UnmarshalJSON u) Transaction.zero params
    with ⟨transaction, err⟩
  by_cases h : transaction.Hash.length = 0
  · exact Or.inl ⟨.errorf "tx not found" [], by simp [NodeAPI.getTransaction, hc, h]⟩
  · exact Or.inr ⟨transaction, err, by simp [NodeAPI.getTransaction, hc, h],
      fun he => h ((length_eq_zero_iff _).mpr he)⟩

theorem node_receipt_cases (u : Unmarshalers) (x : NodeAPI) (hash : String) :
    (∃ err, x.EthGetTransactionReceipt u hash = (none, some err)) ∨
    (∃ receipt, x.EthGetTransactionReceipt u hash = (some receipt, none) ∧
      receipt.TransactionHash ≠ "") := by
  rcases hc : x.call "eth_getTransactionReceipt" (TransactionReceipt.UnmarshalJSON u)
    TransactionReceipt.zero [.str hash] with ⟨receipt, _ | err⟩
  · by_cases h : receipt.TransactionHash.length = 0
    · exact Or.inl ⟨.errorf "receipt not found" [],
        by simp [NodeAPI.EthGetTransactionReceipt, hc, h]⟩
    · exact Or.inr ⟨receipt, by simp [NodeAPI.EthGetTransactionReceipt, hc, h],
        fun he => h ((length_eq_zero_iff _).mpr he)⟩
  · exact Or.inl ⟨err, by simp [NodeAPI.EthGetTransactionReceipt, hc]⟩

/-- `EtherscanAPI.Call` always ends within its step budget: it returns or panics. -/
theorem EtherscanAPI.Call_finishes (x : EtherscanAPI) (method : String)
    (params : List Param) : (x.Call method params).outcome ≠ Outcome.unfinished :=
  retryLoop_finishes x method params 7 0 [] (by omega) (by omega)

theorem etherscan_call_finishes {T : Type} (x : EtherscanAPI) (method : String)
    (unmarshal : JSON → T → T × Option GoError) (target : T) (params : List Param) :
    x.call method unmarshal target params ≠ Exec.unfinished := by
  have hf := EtherscanAPI.Call_finishes x method [.slice params]
  unfold EtherscanAPI.call
  rcases ho : (x.Call method [.slice params]).outcome with ⟨result, _ | err⟩ | reason | _
  · rcases result with _ | v
    · simp
    · cases v <;> simp
  · simp
  · simp
  · exact absurd ho hf

/-- How an explorer lookup can end: a panic (inherited from `Call`), a nil entity with an
error, or an entity. -/
theorem etherscan_block_cases (u : Unmarshalers) (intToHex : Int → String)
    (x : EtherscanAPI) (number : Int) (withTransactions : Bool) :
    (∃ reason, x.EthGetBlockByNumber u intToHex number withTransactions = .panic reason) ∨
    (∃ err, x.EthGetBlockByNumber u intToHex number withTransactions =
      .done (none, some err)) ∨
    (∃ block, x.EthGetBlockByNumber u intToHex number withTransactions =
      .done (some block, none) ∧ block.Hash ≠ "") := by
  rcases hc : x.call "eth_getBlockByNumber" (ProxyBlock.unmarshal u)
    (ProxyBlock.fresh withTransactions)
    [.strMap [("tag", intToHex number),
      ("boolean", if withTransactions then "true" else "false")]]
    with ⟨response, _ | err⟩ | reason | _
  · by_cases h : response.ToBlock.Hash.length = 0
    · refine Or.inr (Or.inl ⟨.errorf "block not found" [], ?_⟩)
      simp [EtherscanAPI.EthGetBlockByNumber, Exec.andThen, hc, h]
    · refine Or.inr (Or.inr ⟨response.ToBlock, ?_,
        fun he => h ((length_eq_zero_iff _).mpr he)⟩)
      simp [EtherscanAPI.EthGetBlockByNumber, Exec.andThen, hc, h]
  · refine Or.inr (Or.inl ⟨err, ?_⟩)
    simp [EtherscanAPI.EthGetBlockByNumber, Exec.andThen, hc]
  · refine Or.inl ⟨reason, ?_⟩
    simp [EtherscanAPI.EthGetBlockByNumber, Exec.andThen, hc]
  · exact absurd hc (etherscan_call_finishes _ _ _ _ _)

theorem etherscan_txByHash_cases (u : Unmarshalers) (x : EtherscanAPI) (hash : String) :
    (∃ reason, x.EthGetTransactionByHash u hash = .panic reason) ∨
    (∃ err, x.EthGetTransactionByHash u hash = .done (none, some err)) ∨
    (∃ transaction err, x.EthGetTransactionByHash u hash = .done (some transaction, err) ∧
      transaction.Hash ≠ "") := by
  rcases hc : x.call "eth_getTransactionByHash" (Transaction.UnmarshalJSON u)
    Transaction.zero [.strMap [("txhash", hash)]] with ⟨transaction, err⟩ | reason | _
  · by_cases h : transaction.Hash.length = 0
    · refine Or.inr (Or.inl ⟨.errorf "tx not found" [], ?_⟩)
      simp [EtherscanAPI.EthGetTransactionByHash, Exec.andThen, hc, h]
    · refine Or.inr (Or.inr ⟨transaction, err, ?_,
        fun he => h ((length_eq_zero_iff _).mpr he)⟩)
      simp [EtherscanAPI.EthGetTransactionByHash, Exec.andThen, hc, h]
  · refine Or.inl ⟨reason, ?_⟩
    simp [EtherscanAPI.EthGetTransactionByHash, Exec.andThen, hc]
  · exact absurd hc (etherscan_call_finishes _ _ _ _ _)

theorem etherscan_txByIndex_cases (u : Unmarshalers) (intToHex : Int → String)
    (x : EtherscanAPI) (blockNumber transactionIndex : Int) :
    (∃ reason, x.EthGetTransactionByBlockNumberAndIndex u intToHex blockNumber
      transactionIndex = .panic reason) ∨
    (∃ err, x.EthGetTransactionByBlockNumberAndIndex u intToHex blockNumber
      transactionIndex = .done (none, some err)) ∨
    (∃ transaction err, x.EthGetTransactionByBlockNumberAndIndex u intToHex blockNumber
      transactionIndex = .done (some transaction, err) ∧ transaction.Hash ≠ "") := by
  rcases hc : x.call "eth_getTransactionByBlockNumberAndIndex" (Transaction.UnmarshalJSON u)
    Transaction.zero
    [.strMap [("tag", intToHex blockNumber), ("index", intToHex transactionIndex)]]
    with ⟨transaction, err⟩ | reason | _
  · by_cases h : transaction.Hash.length = 0
    · refine Or.inr (Or.inl ⟨.errorf "tx not found" [], ?_⟩)
      simp [EtherscanAPI.EthGetTransactionByBlockNumberAndIndex, Exec.andThen, hc, h]
    · refine Or.inr (Or.inr ⟨transaction, err, ?_,
        fun he => h ((length_eq_zero_iff _).mpr he)⟩)
      simp [EtherscanAPI.EthGetTransactionByBlockNumberAndIndex, Exec.andThen, hc, h]
  · refine Or.inl ⟨reason, ?_⟩
    simp [EtherscanAPI.EthGetTransactionByBlockNumberAndIndex, Exec.andThen, hc]
  · exact absurd hc (etherscan_call_finishes _ _ _ _ _)

theorem etherscan_receipt_cases (u : Unmarshalers) (x : EtherscanAPI) (hash : String) :
    (∃ reason, x.EthGetTransactionReceipt u hash = .panic reason) ∨
    (∃ err, x.EthGetTransactionReceipt u hash = .done (none, some err)) ∨
    (∃ receipt, x.EthGetTransactionReceipt u hash = .done (some receipt, none) ∧
      receipt.TransactionHash ≠ "") := by
  rcases hc : x.call "eth_getTransactionReceipt" (TransactionReceipt.UnmarshalJSON u)
    TransactionReceipt.zero [.strMap [("txhash", hash)]]
    with ⟨receipt, _ | err⟩ | reason | _
  · by_cases h : receipt.TransactionHash.length = 0
    · refine Or.inr (Or.inl ⟨.errorf "receipt not found" [], ?_⟩)
      simp [EtherscanAPI.EthGetTransactionReceipt, Exec.andThen, hc, h]
    · refine Or.inr (Or.inr ⟨receipt, ?_, fun he => h ((length_eq_zero_iff _).mpr he)⟩)
      simp [EtherscanAPI.EthGetTransactionReceipt, Exec.andThen, hc, h]
  · refine Or.inr (Or.inl ⟨err, ?_⟩)
    simp [EtherscanAPI.EthGetTransactionReceipt, Exec.andThen, hc]
  · refine Or.inl ⟨reason, ?_⟩
    simp [EtherscanAPI.EthGetTransactionReceipt, Exec.andThen, hc]
  · exact absurd hc (etherscan_call_finishes _ _ _ _ _)

theorem transaction_unmarshal_keeps_on_error (u : Unmarshalers) (data : JSON)
    (t : Transaction) (h : (Transaction.UnmarshalJSON u data t).2 ≠ none) :
    (Transaction.UnmarshalJSON u data t).1 = t := by
  unfold Transaction.UnmarshalJSON at h ⊢
  rcases hu : u.transaction data with ⟨proxy, _ | err⟩
  · rw [hu] at h; simp at h
  · rfl

theorem node_call_keeps_target_on_error {T : Type} (x : NodeAPI) (method : String)
    (unmarshal : JSON → T → T × Option GoError) (target : T) (params : List Param)
    (hum : ∀ data, (unmarshal data target).2 ≠ none → (unmarshal data target).1 = target)
    (h : (x.call method unmarshal target params).2 ≠ none) :
    (x.call method unmarshal target params).1 = target := by
  unfold NodeAPI.call at h ⊢
  rcases hc : x.Call method params with ⟨result, _ | err⟩
  · rw [hc] at h
    rcases result with _ | v
    · rfl
    · cases v
      case null => rfl
      all_goals exact hum _ h
  · rfl

/-- Whenever the call inside `getTransaction` fails, with whatever error, the transaction is
still the zero value and `getTransaction` returns "tx not found". -/
theorem node_getTransaction_of_call_error (u : Unmarshalers) (x : NodeAPI) (method : String)
    (params : List Param)
    (h : (x.call method (Transaction.UnmarshalJSON u) Transaction.zero params).2 ≠ none) :
    x.getTransaction u method params = (none, some (.errorf "tx not found" [])) := by
  have hzero := node_call_keeps_target_on_error x method (Transaction.UnmarshalJSON u)
    Transaction.zero params
    (fun data hd => transaction_unmarshal_keeps_on_error u data Transaction.zero hd) h
  unfold NodeAPI.getTransaction
  rcases hc : x.call method (Transaction.UnmarshalJSON u) Transaction.zero params
    with ⟨transaction, err⟩
  rw [hc] at hzero
  simp only at hzero
  subst hzero
  simp [Transaction.zero]

theorem not_nil_nil_of_cases {α : Type} (r : Option α × Option GoError)
    (h : (∃ err, r = (none, some err)) ∨ (∃ a e, r = (some a, e))) :
    r.1 = none → r.2 ≠ none := by
  rcases h with ⟨err, rfl⟩ | ⟨a, e, rfl⟩
  · intro _; simp
  · intro h; simp at h

/-- C7: a lookup whose wire result is the JSON literal `null` returns a nil entity with a
non-nil error, and no lookup ever returns a nil entity with a nil error. For the node
variant and the explorer variant, for the block, uncle, transaction (by hash, by block and
index) and receipt lookups: when `Call` has returned the raw message `null` with a nil
error, the block, uncle and receipt lookups return `(nil, "result null")` and the
transaction lookups `(nil, "tx not found")`; and whatever the client and transport, a nil
entity comes with a non-nil error. The explorer's uncle lookup always returns
`(nil, "TODO")`. -/
theorem lookup_null_gives_error (u : Unmarshalers) (intToHex : Int → String) :
    (∀ (x : NodeAPI) (number : Int) (withTransactions : Bool),
      (x.Call "eth_getBlockByNumber" [.str (intToHex number), .bool withTransactions] =
          (some .null, none) →
        x.EthGetBlockByNumber u intToHex number withTransactions =
          (none, some (.errorf "result null" []))) ∧
      ((x.EthGetBlockByNumber u intToHex number withTransactions).1 = none →
        (x.EthGetBlockByNumber u intToHex number withTransactions).2 ≠ none)) ∧
    (∀ (x : NodeAPI) (number pos : Int),
      (x.Call "eth_getUncleByBlockNumberAndIndex"
          [.str (intToHex number), .str (intToHex pos)] = (some .null, none) →
        x.EthGetUncleByBlockNumberAndIndex u intToHex number pos =
          (none, some (.errorf "result null" []))) ∧
      ((x.EthGetUncleByBlockNumberAndIndex u intToHex number pos).1 = none →
        (x.EthGetUncleByBlockNumberAndIndex u intToHex number pos).2 ≠ none)) ∧
    (∀ (x : NodeAPI) (hash : String),
      (x.Call "eth_getTransactionByHash" [.str hash] = (some .null, none) →
        x.EthGetTransactionByHash u hash = (none, some (.errorf "tx not found" []))) ∧
      ((x.EthGetTransactionByHash u hash).1 = none →
        (x.EthGetTransactionByHash u hash).2 ≠ none)) ∧
    (∀ (x : NodeAPI) (blockNumber transactionIndex : Int),
      (x.Call "eth_getTransactionByBlockNumberAndIndex"
          [.str (intToHex blockNumber), .str (intToHex transactionIndex)] =
          (some .null, none) →
        x.EthGetTransactionByBlockNumberAndIndex u intToHex blockNumber transactionIndex =
          (none, some (.errorf "tx not found" []))) ∧
      ((x.EthGetTransactionByBlockNumberAndIndex u intToHex blockNumber
          transactionIndex).1 = none →
        (x.EthGetTransactionByBlockNumberAndIndex u intToHex blockNumber
          transactionIndex).2 ≠ none)) ∧
    (∀ (x : NodeAPI) (hash : String),
      (x.Call "eth_getTransactionReceipt" [.str hash] = (some .null, none) →
        x.EthGetTransactionReceipt u hash = (none, some (.errorf "result null" []))) ∧
      ((x.EthGetTransactionReceipt u hash).1 = none →
        (x.EthGetTransactionReceipt u hash).2 ≠ none)) ∧
    (∀ (x : EtherscanAPI) (number : Int) (withTransactions : Bool),
      ((x.Call "eth_getBlockByNumber" [.slice [.strMap [("tag", intToHex number),
          ("boolean", if withTransactions then "true" else "false")]]]).outcome =
          .ret (some .null) none →
        x.EthGetBlockByNumber u intToHex number withTransactions =
          .done (none, some (.errorf "result null" []))) ∧
      (∀ r, x.EthGetBlockByNumber u intToHex number withTransactions = .done r →
        r.1 = none → r.2 ≠ none)) ∧
    (∀ (x : EtherscanAPI) (number pos : Int),
      x.EthGetUncleByBlockNumberAndIndex number pos =
        .done (none, some (.errorf "TODO" []))) ∧
    (∀ (x : EtherscanAPI) (hash : String),
      ((x.Call "eth_getTransactionByHash" [.slice [.strMap [("txhash", hash)]]]).outcome =
          .ret (some .null) none →
        x.EthGetTransactionByHash u hash = .done (none, some (.errorf "tx not found" []))) ∧
      (∀ r, x.EthGetTransactionByHash u hash = .done r → r.1 = none → r.2 ≠ none)) ∧
    (∀ (x : EtherscanAPI) (blockNumber transactionIndex : Int),
      ((x.Call "eth_getTransactionByBlockNumberAndIndex" [.slice [.strMap
          [("tag", intToHex blockNumber), ("index", intToHex transactionIndex)]]]).outcome =
          .ret (some .null) none →
        x.EthGetTransactionByBlockNumberAndIndex u intToHex blockNumber transactionIndex =
          .done (none, some (.errorf "tx not found" []))) ∧
      (∀ r, x.EthGetTransactionByBlockNumberAndIndex u intToHex blockNumber
          transactionIndex = .done r → r.1 = none → r.2 ≠ none)) ∧
    (∀ (x : EtherscanAPI) (hash : String),
      ((x.Call "eth_getTransactionReceipt" [.slice [.strMap [("txhash", hash)]]]).outcome =
          .ret (some .null) none →
        x.EthGetTransactionReceipt u hash = .done (none, some (.errorf "result null" []))) ∧
      (∀ r, x.EthGetTransactionReceipt u hash = .done r → r.1 = none → r.2 ≠ none)) := by
  refine ⟨?_, ?_, ?_, ?_, ?_, ?_, ?_, ?_, ?_, ?_⟩
  · intro x number wt
    refine ⟨fun h => ?_, not_nil_nil_of_cases _ ?_⟩
    · simp [NodeAPI.EthGetBlockByNumber, NodeAPI.getBlock, node_call_of_null _ _ _ _ _ h]
    · rcases node_getBlock_cases u x "eth_getBlockByNumber" wt
        [.str (intToHex number), .bool wt] with ⟨e, he⟩ | ⟨b, hb, -⟩
      · exact Or.inl ⟨e, he⟩
      · exact Or.inr ⟨b, none, hb⟩
  · intro x number pos
    refine ⟨fun h => ?_, not_nil_nil_of_cases _ ?_⟩
    · simp [NodeAPI.EthGetUncleByBlockNumberAndIndex, node_call_of_null _ _ _ _ _ h]
    · rcases node_uncle_cases u intToHex x number pos with ⟨e, he⟩ | ⟨b, hb, -⟩
      · exact Or.inl ⟨e, he⟩
      · exact Or.inr ⟨b, none, hb⟩
  · intro x hash
    refine ⟨fun h => ?_, not_nil_nil_of_cases _ ?_⟩
    · simp [NodeAPI.EthGetTransactionByHash, NodeAPI.getTransaction,
        node_call_of_null _ _ _ _ _ h, Transaction.zero]
    · rcases node_getTransaction_cases u x "eth_getTransactionByHash" [.str hash]
        with ⟨e, he⟩ | ⟨t, e, ht, -⟩
      · exact Or.inl ⟨e, he⟩
      · exact Or.inr ⟨t, e, ht⟩
  · intro x blockNumber transactionIndex
    refine ⟨fun h => ?_, not_nil_nil_of_cases _ ?_⟩
    · simp [NodeAPI.EthGetTransactionByBlockNumberAndIndex, NodeAPI.getTransaction,
        node_call_of_null _ _ _ _ _ h, Transaction.zero]
    · rcases node_getTransaction_cases u x "eth_getTransactionByBlockNumberAndIndex"
        [.str (intToHex blockNumber), .str (intToHex transactionIndex)]
        with ⟨e, he⟩ | ⟨t, e, ht, -⟩
      · exact Or.inl ⟨e, he⟩
      · exact Or.inr ⟨t, e, ht⟩
  · intro x hash
    refine ⟨fun h => ?_, not_nil_nil_of_cases _ ?_⟩
    · simp [NodeAPI.EthGetTransactionReceipt, node_call_of_null _ _ _ _ _ h]
    · rcases node_receipt_cases u x hash with ⟨e, he⟩ | ⟨b, hb, -⟩
      · exact Or.inl ⟨e, he⟩
      · exact Or.inr ⟨b, none, hb⟩
  · intro x number wt
    refine ⟨fun h => ?_, fun r hr => not_nil_nil_of_cases _ ?_⟩
    · simp [EtherscanAPI.EthGetBlockByNumber, Exec.andThen,
        etherscan_call_of_null _ _ _ _ _ h]
    · rcases etherscan_block_cases u intToHex x number wt
        with ⟨reason, hp⟩ | ⟨e, he⟩ | ⟨b, hb, -⟩
      · rw [hp] at hr; cases hr
      · rw [he] at hr; cases hr; exact Or.inl ⟨e, rfl⟩
      · rw [hb] at hr; cases hr; exact Or.inr ⟨b, none, rfl⟩
  · intro x number pos
    rfl
  · intro x hash
    refine ⟨fun h => ?_, fun r hr => not_nil_nil_of_cases _ ?_⟩
    · simp [EtherscanAPI.EthGetTransactionByHash, Exec.andThen,
        etherscan_call_of_null _ _ _ _ _ h, Transaction.zero]
    · rcases etherscan_txByHash_cases u x hash with ⟨reason, hp⟩ | ⟨e, he⟩ | ⟨t, e, ht, -⟩
      · rw [hp] at hr; cases hr
      · rw [he] at hr; cases hr; exact Or.inl ⟨e, rfl⟩
      · rw [ht] at hr; cases hr; exact Or.inr ⟨t, e, rfl⟩
  · intro x blockNumber transactionIndex
    refine ⟨fun h => ?_, fun r hr => not_nil_nil_of_cases _ ?_⟩
    · simp [EtherscanAPI.EthGetTransactionByBlockNumberAndIndex, Exec.andThen,
        etherscan_call_of_null _ _ _ _ _ h, Transaction.zero]
    · rcases etherscan_txByIndex_cases u intToHex x blockNumber transactionIndex
        with ⟨reason, hp⟩ | ⟨e, he⟩ | ⟨t, e, ht, -⟩
      · rw [hp] at hr; cases hr
      · rw [he] at hr; cases hr; exact Or.inl ⟨e, rfl⟩
      · rw [ht] at hr; cases hr; exact Or.inr ⟨t, e, rfl⟩
  · intro x hash
    refine ⟨fun h => ?_, fun r hr => not_nil_nil_of_cases _ ?_⟩
    · simp [EtherscanAPI.EthGetTransactionReceipt, Exec.andThen,
        etherscan_call_of_null _ _ _ _ _ h]
    · rcases etherscan_receipt_cases u x hash with ⟨reason, hp⟩ | ⟨e, he⟩ | ⟨b, hb, -⟩
      · rw [hp] at hr; cases hr
      · rw [he] at hr; cases hr; exact Or.inl ⟨e, rfl⟩
      · rw [hb] at hr; cases hr; exact Or.inr ⟨b, none, rfl⟩

/-- C7, on replies whose result member is `null`: the node's block lookup and the
explorer's receipt lookup. -/
theorem lookup_null_gives_error_witness :
    NodeAPI.EthGetBlockByNumber hashOnlyUnmarshalers (fun i => IntToHex i.toNat)
      (nodeOver (fixedClient 200 (.json (resultEnvelope .null)))) 16 true =
      (none, some (.errorf "result null" [])) ∧
    EtherscanAPI.EthGetTransactionReceipt hashOnlyUnmarshalers
      (threeKeys (fixedClient 200 (.json (resultEnvelope .null)))) "0xabc" =
      .done (none, some (.errorf "result null" [])) :=
  ⟨((lookup_null_gives_error hashOnlyUnmarshalers (fun i => IntToHex i.toNat)).1
      (nodeOver (fixedClient 200 (.json (resultEnvelope .null)))) 16 true).1 rfl,
    ((lookup_null_gives_error hashOnlyUnmarshalers
      (fun i => IntToHex i.toNat)).2.2.2.2.2.2.2.2.2
      (threeKeys (fixedClient 200 (.json (resultEnvelope .null)))) "0xabc").1 rfl⟩

/-- C8: the not-found convention. For the block, uncle, transaction and receipt lookups of
the node variant and of the explorer variant: when the result has been decoded without
error and the lifted entity's identifying hash (`Block.Hash`, `Transaction.Hash`,
`TransactionReceipt.TransactionHash`) is empty, the lookup returns a nil entity with the
error "block not found", "tx not found" or "receipt not found"; and every entity a lookup
returns has a non-empty identifying hash. -/
theorem lookup_not_found_convention (u : Unmarshalers) (intToHex : Int → String) :
    (∀ (x : NodeAPI) (method : String) (withTransactions : Bool) (params : List Param)
      (response : ProxyBlock),
      x.call method (ProxyBlock.unmarshal u) (ProxyBlock.fresh withTransactions) params =
        (response, none) →
      response.ToBlock.Hash = "" →
      x.getBlock u method withTransactions params =
        (none, some (.errorf "block not found" []))) ∧
    (∀ (x : NodeAPI) (number : Int) (withTransactions : Bool) (block : Block)
      (err : Option GoError),
      x.EthGetBlockByNumber u intToHex number withTransactions = (some block, err) →
      block.Hash ≠ "") ∧
    (∀ (x : NodeAPI) (number pos : Int) (uncleBlock : UncleBlock),
      x.call "eth_getUncleByBlockNumberAndIndex" (UncleBlock.unmarshal u) UncleBlock.zero
        [.str (intToHex number), .str (intToHex pos)] = (uncleBlock, none) →
      uncleBlock.ToBlock.Hash = "" →
      x.EthGetUncleByBlockNumberAndIndex u intToHex number pos =
        (none, some (.errorf "block not found" []))) ∧
    (∀ (x : NodeAPI) (number pos : Int) (block : Block) (err : Option GoError),
      x.EthGetUncleByBlockNumberAndIndex u intToHex number pos = (some block, err) →
      block.Hash ≠ "") ∧
    (∀ (x : NodeAPI) (method : String) (params : List Param) (transaction : Transaction),
      x.call method (Transaction.UnmarshalJSON u) Transaction.zero params =
        (transaction, none) →
      transaction.Hash = "" →
      x.getTransaction u method params = (none, some (.errorf "tx not found" []))) ∧
    (∀ (x : NodeAPI) (hash : String) (transaction : Transaction) (err : Option GoError),
      x.EthGetTransactionByHash u hash = (some transaction, err) → transaction.Hash ≠ "") ∧
    (∀ (x : NodeAPI) (blockNumber transactionIndex : Int) (transaction : Transaction)
      (err : Option GoError),
      x.EthGetTransactionByBlockNumberAndIndex u intToHex blockNumber transactionIndex =
        (some transaction, err) →
      transaction.Hash ≠ "") ∧
    (∀ (x : NodeAPI) (hash : String) (receipt : TransactionReceipt),
      x.call "eth_getTransactionReceipt" (TransactionReceipt.UnmarshalJSON u)
        TransactionReceipt.zero [.str hash] = (receipt, none) →
      receipt.TransactionHash = "" →
      x.EthGetTransactionReceipt u hash = (none, some (.errorf "receipt not found" []))) ∧
    (∀ (x : NodeAPI) (hash : String) (receipt : TransactionReceipt) (err : Option GoError),
      x.EthGetTransactionReceipt u hash = (some receipt, err) →
      receipt.TransactionHash ≠ "") ∧
    (∀ (x : EtherscanAPI) (number : Int) (withTransactions : Bool) (response : ProxyBlock),
      x.call "eth_getBlockByNumber" (ProxyBlock.unmarshal u)
        (ProxyBlock.fresh withTransactions)
        [.strMap [("tag", intToHex number),
          ("boolean", if withTransactions then "true" else "false")]] =
        .done (response, none) →
      response.ToBlock.Hash = "" →
      x.EthGetBlockByNumber u intToHex number withTransactions =
        .done (none, some (.errorf "block not found" []))) ∧
    (∀ (x : EtherscanAPI) (number : Int) (withTransactions : Bool) (block : Block)
      (err : Option GoError),
      x.EthGetBlockByNumber u intToHex number withTransactions = .done (some block, err) →
      block.Hash ≠ "") ∧
    (∀ (x : EtherscanAPI) (number pos : Int) (block : Block) (err : Option GoError),
      x.EthGetUncleByBlockNumberAndIndex number pos ≠ .done (some block, err)) ∧
    (∀ (x : EtherscanAPI) (hash : String) (transaction : Transaction),
      x.call "eth_getTransactionByHash" (Transaction.UnmarshalJSON u) Transaction.zero
        [.strMap [("txhash", hash)]] = .done (transaction, none) →
      transaction.Hash = "" →
      x.EthGetTransactionByHash u hash = .done (none, some (.errorf "tx not found" []))) ∧
    (∀ (x : EtherscanAPI) (hash : String) (transaction : Transaction)
      (err : Option GoError),
      x.EthGetTransactionByHash u hash = .done (some transaction, err) →
      transaction.Hash ≠ "") ∧
    (∀ (x : EtherscanAPI) (blockNumber transactionIndex : Int) (transaction : Transaction),
      x.call "eth_getTransactionByBlockNumberAndIndex" (Transaction.UnmarshalJSON u)
        Transaction.zero
        [.strMap [("tag", intToHex blockNumber), ("index", intToHex transactionIndex)]] =
        .done (transaction, none) →
      transaction.Hash = "" →
      x.EthGetTransactionByBlockNumberAndIndex u intToHex blockNumber transactionIndex =
        .done (none, some (.errorf "tx not found" []))) ∧
    (∀ (x : EtherscanAPI) (blockNumber transactionIndex : Int) (transaction : Transaction)
      (err : Option GoError),
      x.EthGetTransactionByBlockNumberAndIndex u intToHex blockNumber transactionIndex =
        .done (some transaction, err) →
      transaction.Hash ≠ "") ∧
    (∀ (x : EtherscanAPI) (hash : String) (receipt : TransactionReceipt),
      x.call "eth_getTransactionReceipt" (TransactionReceipt.UnmarshalJSON u)
        TransactionReceipt.zero [.strMap [("txhash", hash)]] = .done (receipt, none) →
      receipt.TransactionHash = "" →
      x.EthGetTransactionReceipt u hash =
        .done (none, some (.errorf "receipt not found" []))) ∧
    (∀ (x : EtherscanAPI) (hash : String) (receipt : TransactionReceipt)
      (err : Option GoError),
      x.EthGetTransactionReceipt u hash = .done (some receipt, err) →
      receipt.TransactionHash ≠ "") := by
  refine ⟨?_, ?_, ?_, ?_, ?_, ?_, ?_, ?_, ?_, ?_, ?_, ?_, ?_, ?_, ?_, ?_, ?_, ?_⟩
  · intro x method wt params response hc hh
    simp [NodeAPI.getBlock, hc, hh]
  · intro x number wt block err h
    rcases node_getBlock_cases u x "eth_getBlockByNumber" wt
      [.str (intToHex number), .bool wt] with ⟨e, he⟩ | ⟨b, hb, hne⟩
    · rw [NodeAPI.EthGetBlockByNumber, he] at h; cases h
    · rw [NodeAPI.EthGetBlockByNumber, hb] at h; cases h; exact hne
  · intro x number pos uncleBlock hc hh
    simp [NodeAPI.EthGetUncleByBlockNumberAndIndex, hc, hh]
  · intro x number pos block err h
    rcases node_uncle_cases u intToHex x number pos with ⟨e, he⟩ | ⟨b, hb, hne⟩
    · rw [he] at h; cases h
    · rw [hb] at h; cases h; exact hne
  · intro x method params transaction hc hh
    simp [NodeAPI.getTransaction, hc, hh]
  · intro x hash transaction err h
    rcases node_getTransaction_cases u x "eth_getTransactionByHash" [.str hash]
      with ⟨e, he⟩ | ⟨t, e, ht, hne⟩
    · rw [NodeAPI.EthGetTransactionByHash, he] at h; cases h
    · rw [NodeAPI.EthGetTransactionByHash, ht] at h; cases h; exact hne
  · intro x blockNumber transactionIndex transaction err h
    rcases node_getTransaction_cases u x "eth_getTransactionByBlockNumberAndIndex"
      [.str (intToHex blockNumber), .str (intToHex transactionIndex)]
      with ⟨e, he⟩ | ⟨t, e, ht, hne⟩
    · rw [NodeAPI.EthGetTransactionByBlockNumberAndIndex, he] at h; cases h
    · rw [NodeAPI.EthGetTransactionByBlockNumberAndIndex, ht] at h; cases h; exact hne
  · intro x hash receipt hc hh
    simp [NodeAPI.EthGetTransactionReceipt, hc, hh]
  · intro x hash receipt err h
    rcases node_receipt_cases u x hash with ⟨e, he⟩ | ⟨b, hb, hne⟩
    · rw [he] at h; cases h
    · rw [hb] at h; cases h; exact hne
  · intro x number wt response hc hh
    simp [EtherscanAPI.EthGetBlockByNumber, Exec.andThen, hc, hh]
  · intro x number wt block err h
    rcases etherscan_block_cases u intToHex x number wt
      with ⟨reason, hp⟩ | ⟨e, he⟩ | ⟨b, hb, hne⟩
    · rw [hp] at h; cases h
    · rw [he] at h; cases h
    · rw [hb] at h; cases h; exact hne
  · intro x number pos block err h
    simp [EtherscanAPI.EthGetUncleByBlockNumberAndIndex] at h
  · intro x hash transaction hc hh
    simp [EtherscanAPI.EthGetTransactionByHash, Exec.andThen, hc, hh]
  · intro x hash transaction err h
    rcases etherscan_txByHash_cases u x hash with ⟨reason, hp⟩ | ⟨e, he⟩ | ⟨t, e, ht, hne⟩
    · rw [hp] at h; cases h
    · rw [he] at h; cases h
    · rw [ht] at h; cases h; exact hne
  · intro x blockNumber transactionIndex transaction hc hh
    simp [EtherscanAPI.EthGetTransactionByBlockNumberAndIndex, Exec.andThen, hc, hh]
  · intro x blockNumber transactionIndex transaction err h
    rcases etherscan_txByIndex_cases u intToHex x blockNumber transactionIndex
      with ⟨reason, hp⟩ | ⟨e, he⟩ | ⟨t, e, ht, hne⟩
    · rw [hp] at h; cases h
    · rw [he] at h; cases h
    · rw [ht] at h; cases h; exact hne
  · intro x hash receipt hc hh
    simp [EtherscanAPI.EthGetTransactionReceipt, Exec.andThen, hc, hh]
  · intro x hash receipt err h
    rcases etherscan_receipt_cases u x hash with ⟨reason, hp⟩ | ⟨e, he⟩ | ⟨b, hb, hne⟩
    · rw [hp] at h; cases h
    · rw [he] at h; cases h
    · rw [hb] at h; cases h; exact hne

/-- C8, on the node's receipt lookup: a result object without a transaction hash decodes
and is reported as not found; a result object with the hash `0xabc` is returned, and its
hash is not empty. -/
theorem lookup_not_found_convention_witness :
    NodeAPI.EthGetTransactionReceipt hashOnlyUnmarshalers
      (nodeOver (fixedClient 200 (.json (resultEnvelope (.obj []))))) "0xabc" =
      (none, some (.errorf "receipt not found" [])) ∧
    ({ TransactionReceipt.zero with TransactionHash := "0xabc" } :
      TransactionReceipt).TransactionHash ≠ "" :=
  ⟨(lookup_not_found_convention hashOnlyUnmarshalers
      (fun i => IntToHex i.toNat)).2.2.2.2.2.2.2.1
      (nodeOver (fixedClient 200 (.json (resultEnvelope (.obj []))))) "0xabc"
      { TransactionReceipt.zero with TransactionHash := "" } rfl rfl,
    (lookup_not_found_convention hashOnlyUnmarshalers
      (fun i => IntToHex i.toNat)).2.2.2.2.2.2.2.2.1
      (nodeOver (fixedClient 200 (.json
        (resultEnvelope (.obj [("transactionHash", .str "0xabc")]))))) "0xabc"
      { TransactionReceipt.zero with TransactionHash := "0xabc" } none rfl⟩

/-- C9 (the code at the failing input): on a transport whose every exchange fails with
"connection refused", the transaction lookups of both variants return the error "tx not
found" in place of the transport error, while the block, uncle and receipt lookups return
the transport error itself. -/
theorem transaction_lookup_hides_call_error (u : Unmarshalers) (intToHex : Int → String) :
    NodeAPI.EthGetTransactionByHash u
      (nodeOver (failingClient (.other "connection refused"))) "0xabc" =
      (none, some (.errorf "tx not found" [])) ∧
    NodeAPI.EthGetTransactionByBlockNumberAndIndex u intToHex
      (nodeOver (failingClient (.other "connection refused"))) 16 0 =
      (none, some (.errorf "tx not found" [])) ∧
    EtherscanAPI.EthGetTransactionByHash u
      (threeKeys (failingClient (.other "connection refused"))) "0xabc" =
      .done (none, some (.errorf "tx not found" [])) ∧
    EtherscanAPI.EthGetTransactionByBlockNumberAndIndex u intToHex
      (threeKeys (failingClient (.other "connection refused"))) 16 0 =
      .done (none, some (.errorf "tx not found" [])) ∧
    NodeAPI.EthGetBlockByNumber u intToHex
      (nodeOver (failingClient (.other "connection refused"))) 16 true =
      (none, some (.other "connection refused")) ∧
    NodeAPI.EthGetUncleByBlockNumberAndIndex u intToHex
      (nodeOver (failingClient (.other "connection refused"))) 16 0 =
      (none, some (.other "connection refused")) ∧
    NodeAPI.EthGetTransactionReceipt u
      (nodeOver (failingClient (.other "connection refused"))) "0xabc" =
      (none, some (.other "connection refused")) ∧
    EtherscanAPI.EthGetBlockByNumber u intToHex
      (threeKeys (failingClient (.other "connection refused"))) 16 true =
      .done (none, some (.other "connection refused")) ∧
    EtherscanAPI.EthGetTransactionReceipt u
      (threeKeys (failingClient (.other "connection refused"))) "0xabc" =
      .done (none, some (.other "connection refused")) := by
  refine ⟨rfl, rfl, rfl, rfl, rfl, rfl, rfl, rfl, rfl⟩

/-! ## C11: the query of the explorer request -/

/-- Every request that `EtherscanAPI.Call` sends has exactly the three query values
`module`, `action` and `apikey`, whatever parameters the call was given. -/
theorem call_query_keys (x : EtherscanAPI) (method : String) (params : List Param) :
    (x.Call method params).sent.map (fun r => r.Query.map Prod.fst) =
      List.replicate (x.Call method params).sent.length ["module", "action", "apikey"] := by
  rw [List.eq_replicate_iff]
  refine ⟨by simp, ?_⟩
  intro ks hks
  obtain ⟨req, hreq, rfl⟩ := List.mem_map.mp hks
  obtain ⟨k, hk, hget⟩ := List.getElem_of_mem hreq
  have hget' : (x.Call method params).sent[k]? = some req := by
    rw [List.getElem?_eq_getElem hk, hget]
  obtain ⟨hq, -⟩ := (retryLoop_trace x method params 7 0 [] rfl).2 k req (Nat.zero_le _) hget'
  rw [hq]
  rfl

/-- C11 (the code at the failing input): the named parameters never reach the request. For
every client, method and parameter list, each request that `Call` sends has the query keys
`module`, `action`, `apikey` and no other. On the calls that `EthGetTransactionByHash("0xabc")`
and `EthGetBlockByNumber(16, true)` make through `x.call`, and on a direct call with the map
as its first parameter, the one request sent has no `txhash`, `tag` or `boolean` value. -/
theorem named_parameters_not_encoded :
    (∀ (x : EtherscanAPI) (method : String) (params : List Param),
      (x.Call method params).sent.map (fun r => r.Query.map Prod.fst) =
        List.replicate (x.Call method params).sent.length ["module", "action", "apikey"]) ∧
    ((threeKeys (fixedClient 200 (.json (resultEnvelope (.obj []))))).Call
        "eth_getTransactionByHash" [.slice [.strMap [("txhash", "0xabc")]]]).sent.map
        HttpRequest.Query =
      [[("module", "proxy"), ("action", "eth_getTransactionByHash"), ("apikey", "key0")]] ∧
    ((threeKeys (fixedClient 200 (.json (resultEnvelope (.obj []))))).Call
        "eth_getBlockByNumber"
        [.slice [.strMap [("tag", "0x10"), ("boolean", "true")]]]).sent.map
        HttpRequest.Query =
      [[("module", "proxy"), ("action", "eth_getBlockByNumber"), ("apikey", "key0")]] ∧
    ((threeKeys (fixedClient 200 (.json (resultEnvelope (.obj []))))).Call
        "eth_getTransactionByHash" [.strMap [("txhash", "0xabc")]]).sent.map
        HttpRequest.Query =
      [[("module", "proxy"), ("action", "eth_getTransactionByHash"), ("apikey", "key0")]] :=
  ⟨call_query_keys, by decide, by decide, by decide⟩

/-! ## C12: the hash-only block lift -/

/-- Setting, for each index of a list of indices in turn, the element at that index to a
value that depends on the index: the element at `j` afterwards. -/
theorem foldl_set_getElem? {α : Type} (g : Nat → α) (is : List Nat) :
    ∀ (init : List α) (j : Nat),
      (is.foldl (fun l i => l.set i (g i)) init)[j]? =
        if j ∈ is ∧ j < init.length then some (g j) else init[j]? := by
  induction is with
  | nil => intro init j; simp
  | cons i is ih =>
    intro init j
    rw [List.foldl_cons, ih, List.length_set, List.getElem?_set]
    by_cases hj : j < init.length
    · by_cases hmem : j ∈ is
      · simp [hmem, hj]
      · by_cases hij : i = j
        · subst hij; simp [hmem, hj]
        · have hji : ¬ j = i := fun e => hij e.symm
          simp [hmem, hij, hji]
    · have hnone : init[j]? = none := List.getElem?_eq_none (by omega)
      by_cases hij : i = j
      · subst hij
        simp [hj, hnone]
      · simp [hj, hij, hnone]

/-- The loop of the hash-only lift gives, in order, one transaction per hash, with that hash
and every other field zero. -/
theorem hashOnlyTransactions_eq_map (hashes : List String) :
    hashOnlyTransactions hashes =
      hashes.map (fun h => (⟨h, 0, "", none, none, "", "", 0, 0, 0, ""⟩ : Transaction)) := by
  apply List.ext_getElem?
  intro j
  unfold hashOnlyTransactions
  rw [foldl_set_getElem?
    (fun i => ({ Transaction.zero with Hash := hashes.getD i "" } : Transaction))]
  simp only [List.mem_range, List.length_replicate, and_self, List.getElem?_map]
  by_cases hj : j < hashes.length
  · simp [hj, List.getD_eq_getElem?_getD, List.getElem?_eq_getElem hj, Transaction.zero]
  · have hnone : hashes[j]? = none := List.getElem?_eq_none (by omega)
    simp [hj, hnone, List.getElem?_replicate]

/-- C12: for every `ProxyBlockWithoutTransactions` value `p`, `p.ToBlock()` has each of the
17 header fields (number to uncles) equal to the field of `p`, and its `Transactions` has
the length of `p.Transactions` with, at every index, the transaction whose `Hash` is the
hash at that index of `p.Transactions` and whose other fields are zero (empty strings, zero
numbers, nil block number and index). -/
theorem toBlock_without_transactions (p : ProxyBlockWithoutTransactions) :
    p.ToBlock.Number = p.Number ∧ p.ToBlock.Hash = p.Hash ∧
    p.ToBlock.ParentHash = p.ParentHash ∧ p.ToBlock.Nonce = p.Nonce ∧
    p.ToBlock.Sha3Uncles = p.Sha3Uncles ∧ p.ToBlock.LogsBloom = p.LogsBloom ∧
    p.ToBlock.TransactionsRoot = p.TransactionsRoot ∧ p.ToBlock.StateRoot = p.StateRoot ∧
    p.ToBlock.Miner = p.Miner ∧ p.ToBlock.Difficulty = p.Difficulty ∧
    p.ToBlock.TotalDifficulty = p.TotalDifficulty ∧ p.ToBlock.ExtraData = p.ExtraData ∧
    p.ToBlock.Size = p.Size ∧ p.ToBlock.GasLimit = p.GasLimit ∧
    p.ToBlock.GasUsed = p.GasUsed ∧ p.ToBlock.Timestamp = p.Timestamp ∧
    p.ToBlock.Uncles = p.Uncles ∧
    p.ToBlock.Transactions.length = p.Transactions.length ∧
    (∀ i : Nat, p.ToBlock.Transactions[i]? =
      (p.Transactions[i]?).map
        (fun h => (⟨h, 0, "", none, none, "", "", 0, 0, 0, ""⟩ : Transaction))) ∧
    p.ToBlock.Transactions.map Transaction.Hash = p.Transactions := by
  have hmap : p.ToBlock.Transactions = p.Transactions.map
      (fun h => (⟨h, 0, "", none, none, "", "", 0, 0, 0, ""⟩ : Transaction)) :=
    hashOnlyTransactions_eq_map p.Transactions
  refine ⟨rfl, rfl, rfl, rfl, rfl, rfl, rfl, rfl, rfl, rfl, rfl, rfl, rfl, rfl, rfl, rfl, rfl,
    ?_, ?_, ?_⟩
  · rw [hmap, List.length_map]
  · intro i
    rw [hmap, List.getElem?_map]
  · rw [hmap, List.map_map]
    exact List.map_id' _

/-! ## C13: the full-transaction block lift -/

theorem transaction_ofSlots_slots (t : proxyTransaction) :
    Transaction.ofSlots t.slots = some (liftTransaction t) := rfl

theorem transaction_allOfSlots_slots (ts : List proxyTransaction) :
    Transaction.allOfSlots (ts.map proxyTransaction.slots) = some (ts.map liftTransaction) := by
  induction ts with
  | nil => rfl
  | cons t ts ih =>
    simp only [List.map_cons, Transaction.allOfSlots, transaction_ofSlots_slots, ih]

/-- C13: the full-transaction block lift equals the explicit field-by-field lift. For every
`ProxyBlockWithTransactions` value `p`, reading the memory of `p` as a `Block` (the cast in
`ToBlock`) is defined and gives the field-by-field lift of `p`, which is also the value of
`p.ToBlock()` in this development: every header field equals the same-named field of `p`,
`Transactions` has the length of `p.Transactions`, and the entry at each index equals, field
for field (Hash, Nonce, BlockHash, BlockNumber, TransactionIndex, From, To, Value, Gas,
GasPrice, Input), the shadow transaction at that index; so a non-empty Hash, From or To and
a non-zero Value of the shadow stay so in the block. -/
theorem toBlock_with_transactions (p : ProxyBlockWithTransactions) :
    p.castToBlock = some (liftBlockWithTransactions p) ∧
    p.ToBlock = liftBlockWithTransactions p ∧
    p.ToBlock.Number = p.Number ∧ p.ToBlock.Hash = p.Hash ∧
    p.ToBlock.ParentHash = p.ParentHash ∧ p.ToBlock.Nonce = p.Nonce ∧
    p.ToBlock.Sha3Uncles = p.Sha3Uncles ∧ p.ToBlock.LogsBloom = p.LogsBloom ∧
    p.ToBlock.TransactionsRoot = p.TransactionsRoot ∧ p.ToBlock.StateRoot = p.StateRoot ∧
    p.ToBlock.Miner = p.Miner ∧ p.ToBlock.Difficulty = p.Difficulty ∧
    p.ToBlock.TotalDifficulty = p.TotalDifficulty ∧ p.ToBlock.ExtraData = p.ExtraData ∧
    p.ToBlock.Size = p.Size ∧ p.ToBlock.GasLimit = p.GasLimit ∧
    p.ToBlock.GasUsed = p.GasUsed ∧ p.ToBlock.Timestamp = p.Timestamp ∧
    p.ToBlock.Uncles = p.Uncles ∧
    p.ToBlock.Transactions.length = p.Transactions.length ∧
    (∀ i : Nat, p.ToBlock.Transactions[i]? =
      (p.Transactions[i]?).map (fun t =>
        (⟨t.Hash, t.Nonce, t.BlockHash, t.BlockNumber, t.TransactionIndex, t.From, t.To,
          t.Value, t.Gas, t.GasPrice, t.Input⟩ : Transaction))) ∧
    (∀ (i : Nat) (t : proxyTransaction) (b : Transaction),
      p.Transactions[i]? = some t → p.ToBlock.Transactions[i]? = some b →
      (t.Hash ≠ "" → b.Hash ≠ "") ∧ (t.From ≠ "" → b.From ≠ "") ∧
      (t.To ≠ "" → b.To ≠ "") ∧ (t.Value ≠ 0 → b.Value ≠ 0)) := by
  have hcast : p.castToBlock = some (liftBlockWithTransactions p) := by
    simp only [ProxyBlockWithTransactions.castToBlock, ProxyBlockWithTransactions.slots,
      Block.ofSlots, transaction_allOfSlots_slots]
    rfl
  have hlift : p.ToBlock = liftBlockWithTransactions p := rfl
  have hget : ∀ i : Nat, p.ToBlock.Transactions[i]? =
      (p.Transactions[i]?).map (fun t =>
        (⟨t.Hash, t.Nonce, t.BlockHash, t.BlockNumber, t.TransactionIndex, t.From, t.To,
          t.Value, t.Gas, t.GasPrice, t.Input⟩ : Transaction)) := by
    intro i
    simp only [ProxyBlockWithTransactions.ToBlock, List.getElem?_map]
    rfl
  refine ⟨hcast, hlift, rfl, rfl, rfl, rfl, rfl, rfl, rfl, rfl, rfl, rfl, rfl, rfl, rfl, rfl,
    rfl, rfl, rfl, ?_, hget, ?_⟩
  · simp [ProxyBlockWithTransactions.ToBlock]
  · intro i t b ht hb
    rw [hget i, ht] at hb
    simp only [Option.map_some', Option.some.injEq] at hb
    subst hb
    exact ⟨id, id, id, id⟩

/-- C13, on a block shadow with one transaction: the cast is the explicit lift, and the
transaction of the block keeps the non-empty hash, sender and recipient and the non-zero
value of the shadow. -/
theorem toBlock_with_transactions_witness :
    exampleFullBlock.castToBlock = some (liftBlockWithTransactions exampleFullBlock) ∧
    ((⟨"0x7a", 1, "0xb10c", some 16, some 0, "0xf0", "0x70", 5, 21000, 2, "0x"⟩ :
        Transaction).Hash ≠ "" ∧
      (⟨"0x7a", 1, "0xb10c", some 16, some 0, "0xf0", "0x70", 5, 21000, 2, "0x"⟩ :
        Transaction).From ≠ "" ∧
      (⟨"0x7a", 1, "0xb10c", some 16, some 0, "0xf0", "0x70", 5, 21000, 2, "0x"⟩ :
        Transaction).To ≠ "" ∧
      (⟨"0x7a", 1, "0xb10c", some 16, some 0, "0xf0", "0x70", 5, 21000, 2, "0x"⟩ :
        Transaction).Value ≠ 0) :=
  ⟨(toBlock_with_transactions exampleFullBlock).1,
    ((toBlock_with_transactions exampleFullBlock).2.2.2.2.2.2.2.2.2.2.2.2.2.2.2.2.2.2.2.2.2
        0 ⟨"0x7a", 1, "0xb10c", some 16, some 0, "0xf0", "0x70", 5, 21000, 2, "0x"⟩
        ⟨"0x7a", 1, "0xb10c", some 16, some 0, "0xf0", "0x70", 5, 21000, 2, "0x"⟩ rfl rfl).1
      (by decide),
    ((toBlock_with_transactions exampleFullBlock).2.2.2.2.2.2.2.2.2.2.2.2.2.2.2.2.2.2.2.2.2
        0 ⟨"0x7a", 1, "0xb10c", some 16, some 0, "0xf0", "0x70", 5, 21000, 2, "0x"⟩
        ⟨"0x7a", 1, "0xb10c", some 16, some 0, "0xf0", "0x70", 5, 21000, 2, "0x"⟩ rfl rfl).2.1
      (by decide),
    ((toBlock_with_transactions exampleFullBlock).2.2.2.2.2.2.2.2.2.2.2.2.2.2.2.2.2.2.2.2.2
        0 ⟨"0x7a", 1, "0xb10c", some 16, some 0, "0xf0", "0x70", 5, 21000, 2, "0x"⟩
        ⟨"0x7a", 1, "0xb10c", some 16, some 0, "0xf0", "0x70", 5, 21000, 2, "0x"⟩ rfl rfl).2.2.1
      (by decide),
    ((toBlock_with_transactions exampleFullBlock).2.2.2.2.2.2.2.2.2.2.2.2.2.2.2.2.2.2.2.2.2
        0 ⟨"0x7a", 1, "0xb10c", some 16, some 0, "0xf0", "0x70", 5, 21000, 2, "0x"⟩
        ⟨"0x7a", 1, "0xb10c", some 16, some 0, "0xf0", "0x70", 5, 21000, 2, "0x"⟩ rfl rfl).2.2.2
      (by decide)⟩

/-! ## C14: operations the explorer variant does not serve -/

/-- C14: each of the ten operations that the explorer variant does not serve returns, for
every client and every input, the error "TODO" next to the zero value of its result type,
never a nil error. The returned pair is the same for every client, so it depends on no
answer of a transport: no request is made. -/
theorem unserved_operations_return_error (x : EtherscanAPI) :
    (∀ reqs : List EthRequest, x.BatchCall reqs = (none, some (.errorf "TODO" []))) ∧
    x.Web3ClientVersion = ("", some (.errorf "TODO" [])) ∧
    x.NetVersion = ("", some (.errorf "TODO" [])) ∧
    x.NetListening = (false, some (.errorf "TODO" [])) ∧
    x.NetPeerCount = (0, some (.errorf "TODO" [])) ∧
    x.EthProtocolVersion = ("", some (.errorf "TODO" [])) ∧
    x.EthSyncing = (none, some (.errorf "TODO" [])) ∧
    (∀ address block : String, x.EthGetBalance address block = (0, some (.errorf "TODO" []))) ∧
    (∀ number pos : Int,
      x.EthGetUncleByBlockNumberAndIndex number pos = .done (none, some (.errorf "TODO" []))) ∧
    (∀ params : FilterParams, x.EthGetLogs params = ([], some (.errorf "TODO" []))) ∧
    (∀ reqs : List EthRequest, (x.BatchCall reqs).2 ≠ none) ∧
    x.Web3ClientVersion.2 ≠ none ∧ x.NetVersion.2 ≠ none ∧ x.NetListening.2 ≠ none ∧
    x.NetPeerCount.2 ≠ none ∧ x.EthProtocolVersion.2 ≠ none ∧ x.EthSyncing.2 ≠ none ∧
    (∀ address block : String, (x.EthGetBalance address block).2 ≠ none) ∧
    (∀ params : FilterParams, (x.EthGetLogs params).2 ≠ none) := by
  refine ⟨fun _ => rfl, rfl, rfl, rfl, rfl, rfl, rfl, fun _ _ => rfl, fun _ _ => rfl,
    fun _ => rfl, ?_, ?_, ?_, ?_, ?_, ?_, ?_, ?_, ?_⟩
  · intro reqs; simp [EtherscanAPI.BatchCall]
  · simp [EtherscanAPI.Web3ClientVersion]
  · simp [EtherscanAPI.NetVersion]
  · simp [EtherscanAPI.NetListening]
  · simp [EtherscanAPI.NetPeerCount]
  · simp [EtherscanAPI.EthProtocolVersion]
  · simp [EtherscanAPI.EthSyncing]
  · intro address block; simp [EtherscanAPI.EthGetBalance]
  · intro params; simp [EtherscanAPI.EthGetLogs]

/-! ## C15: the hex codec round trip -/

theorem hexDigitValue_digitChar (d : Nat) (h : d < 16) :
    hexDigitValue (Nat.digitChar d) = some d := by
  interval_cases d <;> decide

theorem digitChar_mem_hex (d : Nat) (h : d < 16) :
    Nat.digitChar d ∈ "0123456789abcdef".data := by
  interval_cases d <;> decide

theorem digitChar_ne_zero (d : Nat) (h0 : 0 < d) (h : d < 16) : Nat.digitChar d ≠ '0' := by
  interval_cases d <;> decide

/-- Reading back the digits that `Nat.toDigitsCore 16` puts in front of `ds`: the digits of
`m` shift the value read so far by their number of places and add `m`. -/
theorem hexValue_toDigitsCore (fuel : Nat) :
    ∀ m : Nat, m < fuel → ∃ k : Nat, ∀ (ds : List Char) (acc : Nat),
      hexValue (Nat.toDigitsCore 16 fuel m ds) acc = hexValue ds (acc * 16 ^ k + m) := by
  induction fuel with
  | zero => intro m h; omega
  | succ fuel ih =>
    intro m hm
    have hd : hexDigitValue (Nat.digitChar (m % 16)) = some (m % 16) :=
      hexDigitValue_digitChar _ (Nat.mod_lt _ (by decide))
    by_cases h0 : m / 16 = 0
    · refine ⟨1, fun ds acc => ?_⟩
      have hlt : m < 16 := by
        rcases Nat.div_eq_zero_iff (by decide : 0 < 16) |>.mp h0 with h
        exact h
      simp only [Nat.toDigitsCore, h0, if_true, hexValue, hd]
      congr 1
      rw [Nat.mod_eq_of_lt hlt]; omega
    · have hlt : m / 16 < fuel := by
        have : m / 16 < m := Nat.div_lt_self (by omega) (by decide)
        omega
      obtain ⟨k, hk⟩ := ih (m / 16) hlt
      refine ⟨k + 1, fun ds acc => ?_⟩
      simp only [Nat.toDigitsCore, h0, if_false]
      rw [hk]
      simp only [hexValue, hd]
      congr 1
      have := Nat.div_add_mod m 16
      rw [pow_succ]
      nlinarith [this]

theorem toDigitsCore_chars (fuel : Nat) :
    ∀ (m : Nat) (ds : List Char) (c : Char), c ∈ Nat.toDigitsCore 16 fuel m ds →
      c ∈ "0123456789abcdef".data ∨ c ∈ ds := by
  induction fuel with
  | zero => intro m ds c h; exact Or.inr h
  | succ fuel ih =>
    intro m ds c h
    have hd := digitChar_mem_hex (m % 16) (Nat.mod_lt _ (by decide))
    simp only [Nat.toDigitsCore] at h
    split at h
    · rcases List.mem_cons.mp h with rfl | h'
      · exact Or.inl hd
      · exact Or.inr h'
    · rcases ih _ _ _ h with h' | h'
      · exact Or.inl h'
      · rcases List.mem_cons.mp h' with rfl | h''
        · exact Or.inl hd
        · exact Or.inr h''

theorem toDigitsCore_head (fuel : Nat) :
    ∀ (m : Nat) (ds : List Char), 0 < m → m < fuel →
      ∃ c rest, Nat.toDigitsCore 16 fuel m ds = c :: rest ∧ c ≠ '0' := by
  induction fuel with
  | zero => intro m ds _ h; omega
  | succ fuel ih =>
    intro m ds h0 hm
    by_cases hq : m / 16 = 0
    · have hlt : m < 16 := (Nat.div_eq_zero_iff (by decide : 0 < 16)).mp hq
      refine ⟨Nat.digitChar (m % 16), ds, by simp [Nat.toDigitsCore, hq], ?_⟩
      rw [Nat.mod_eq_of_lt hlt]
      exact digitChar_ne_zero m h0 hlt
    · have hlt : m / 16 < fuel := by
        have : m / 16 < m := Nat.div_lt_self (by omega) (by decide)
        omega
      obtain ⟨c, rest, hc, hne⟩ := ih (m / 16) (Nat.digitChar (m % 16) :: ds)
        (Nat.pos_of_ne_zero hq) hlt
      exact ⟨c, rest, by simp only [Nat.toDigitsCore, hq, if_false]; exact hc, hne⟩

theorem toDigits_ne_nil (n : Nat) : Nat.toDigits 16 n ≠ [] := by
  by_cases h0 : n = 0
  · subst h0; decide
  · obtain ⟨c, rest, hc, -⟩ := toDigitsCore_head (n + 1) n [] (Nat.pos_of_ne_zero h0)
      (Nat.lt_succ_self n)
    unfold Nat.toDigits
    rw [hc]; simp

theorem hexValue_toDigits (n : Nat) : hexValue (Nat.toDigits 16 n) 0 = some n := by
  obtain ⟨k, hk⟩ := hexValue_toDigitsCore (n + 1) n (Nat.lt_succ_self n)
  unfold Nat.toDigits
  rw [hk [] 0]
  simp [hexValue]

theorem IntToHex_data (n : Nat) : (IntToHex n).data = '0' :: 'x' :: Nat.toDigits 16 n := by
  simp [IntToHex, String.data_append]

theorem ParseInt_IntToHex (n : Nat) (h : n < 2 ^ 63) :
    ParseInt (IntToHex n) = ((n : Int), none) := by
  unfold ParseInt
  rw [IntToHex_data]
  simp only [toDigits_ne_nil, if_false, hexValue_toDigits, h, if_true]

theorem quote_not_mem_IntToHex (n : Nat) : '"' ∉ (IntToHex n).data := by
  rw [IntToHex_data]
  intro hmem
  rcases List.mem_cons.mp hmem with h | hmem
  · exact absurd h (by decide)
  rcases List.mem_cons.mp hmem with h | hmem
  · exact absurd h (by decide)
  rcases toDigitsCore_chars _ _ _ _ hmem with h | h
  · exact absurd h (by decide)
  · simp at h

/-- C15: the hex codec round trip, for the helpers as the specification describes them. For
every non-negative integer `n` below 2^63, `ParseInt(IntToHex(n))` returns `n` with no
error, and so does `hexInt.UnmarshalJSON` on the quoted text; `IntToHex(n)` is `0x` followed
by at least one digit, every digit is one of `0123456789abcdef`, the first digit is not `0`
unless `n = 0`, and zero formats as `0x0`. -/
theorem hex_round_trip (n : Nat) (h : n < 2 ^ 63) :
    ParseInt (IntToHex n) = ((n : Int), none) ∧
    hexInt.UnmarshalJSON ParseInt ("\"" ++ IntToHex n ++ "\"") = ((n : Int), none) ∧
    (∃ ds : List Char, (IntToHex n).data = '0' :: 'x' :: ds ∧ ds ≠ [] ∧
      (∀ c ∈ ds, c ∈ "0123456789abcdef".data) ∧ (n ≠ 0 → ds.head? ≠ some '0')) ∧
    (n = 0 → IntToHex n = "0x0") := by
  refine ⟨ParseInt_IntToHex n h, ?_, ⟨Nat.toDigits 16 n, IntToHex_data n, toDigits_ne_nil n,
    ?_, ?_⟩, ?_⟩
  · have := hexInt_unmarshal_str ParseInt (IntToHex n) (quote_not_mem_IntToHex n)
    simp only [JSON.raw] at this
    rw [this, ParseInt_IntToHex n h]
  · intro c hc
    rcases toDigitsCore_chars _ _ _ _ hc with h' | h'
    · exact h'
    · simp at h'
  · intro h0
    obtain ⟨c, rest, hc, hne⟩ := toDigitsCore_head (n + 1) n [] (Nat.pos_of_ne_zero h0)
      (Nat.lt_succ_self n)
    unfold Nat.toDigits
    rw [hc]
    simpa using hne
  · intro h0; subst h0; decide

/-- C15, at `n = 255`, which formats as `0xff`. -/
theorem hex_round_trip_witness :
    ParseInt (IntToHex 255) = (255, none) ∧ IntToHex 255 = "0xff" :=
  ⟨(hex_round_trip 255 (by norm_num)).1, by decide⟩

/-! ## C16: decoding does not depend on the backend -/

/-- Once both `Call`s have returned the same raw result with no error, the two `call`
helpers do the same to the same target. -/
theorem call_same_on_raw {T : Type} (xn : NodeAPI) (xe : EtherscanAPI)
    (methodN methodE : String) (unmarshal : JSON → T → T × Option GoError) (target : T)
    (paramsN paramsE : List Param) (raw : RawMessage)
    (hn : xn.Call methodN paramsN = (raw, none))
    (he : (xe.Call methodE [.slice paramsE]).outcome = .ret raw none) :
    xe.call methodE unmarshal target paramsE =
      .done (xn.call methodN unmarshal target paramsN) := by
  unfold EtherscanAPI.call NodeAPI.call
  rw [hn, he]
  rcases raw with _ | v
  · rfl
  · cases v <;> rfl

/-- C16: decoding is backend-independent. For every raw result `raw` and every
`withTransactions` flag: once the node's `Call` and the explorer's `Call` have both returned
`raw` with no error, the explorer's block lookup returns exactly what the node's block
lookup returns (the same block, or the same error), and likewise the transaction-by-hash,
transaction-by-block-and-index and receipt lookups. -/
theorem decoding_backend_independent (u : Unmarshalers) (intToHex : Int → String)
    (xn : NodeAPI) (xe : EtherscanAPI) (raw : RawMessage) :
    (∀ (number : Int) (withTransactions : Bool),
      xn.Call "eth_getBlockByNumber" [.str (intToHex number), .bool withTransactions] =
        (raw, none) →
      (xe.Call "eth_getBlockByNumber" [.slice [.strMap [("tag", intToHex number),
        ("boolean", if withTransactions then "true" else "false")]]]).outcome =
        .ret raw none →
      xe.EthGetBlockByNumber u intToHex number withTransactions =
        .done (xn.EthGetBlockByNumber u intToHex number withTransactions)) ∧
    (∀ hash : String,
      xn.Call "eth_getTransactionByHash" [.str hash] = (raw, none) →
      (xe.Call "eth_getTransactionByHash" [.slice [.strMap [("txhash", hash)]]]).outcome =
        .ret raw none →
      xe.EthGetTransactionByHash u hash = .done (xn.EthGetTransactionByHash u hash)) ∧
    (∀ blockNumber transactionIndex : Int,
      xn.Call "eth_getTransactionByBlockNumberAndIndex"
        [.str (intToHex blockNumber), .str (intToHex transactionIndex)] = (raw, none) →
      (xe.Call "eth_getTransactionByBlockNumberAndIndex" [.slice [.strMap
        [("tag", intToHex blockNumber), ("index", intToHex transactionIndex)]]]).outcome =
        .ret raw none →
      xe.EthGetTransactionByBlockNumberAndIndex u intToHex blockNumber transactionIndex =
        .done (xn.EthGetTransactionByBlockNumberAndIndex u intToHex blockNumber
          transactionIndex)) ∧
    (∀ hash : String,
      xn.Call "eth_getTransactionReceipt" [.str hash] = (raw, none) →
      (xe.Call "eth_getTransactionReceipt" [.slice [.strMap [("txhash", hash)]]]).outcome =
        .ret raw none →
      xe.EthGetTransactionReceipt u hash = .done (xn.EthGetTransactionReceipt u hash)) := by
  refine ⟨?_, ?_, ?_, ?_⟩
  · intro number wt hn he
    simp only [EtherscanAPI.EthGetBlockByNumber, NodeAPI.EthGetBlockByNumber,
      NodeAPI.getBlock, call_same_on_raw xn xe _ _ _ _ _ _ raw hn he, Exec.andThen]
  · intro hash hn he
    simp only [EtherscanAPI.EthGetTransactionByHash, NodeAPI.EthGetTransactionByHash,
      NodeAPI.getTransaction, call_same_on_raw xn xe _ _ _ _ _ _ raw hn he, Exec.andThen]
  · intro blockNumber transactionIndex hn he
    simp only [EtherscanAPI.EthGetTransactionByBlockNumberAndIndex,
      NodeAPI.EthGetTransactionByBlockNumberAndIndex, NodeAPI.getTransaction,
      call_same_on_raw xn xe _ _ _ _ _ _ raw hn he, Exec.andThen]
  · intro hash hn he
    simp only [EtherscanAPI.EthGetTransactionReceipt, NodeAPI.EthGetTransactionReceipt,
      call_same_on_raw xn xe _ _ _ _ _ _ raw hn he, Exec.andThen]

/-- C16, on one reply served to both variants: a block object with the hash `0xb10c`, asked
for with transactions. Both lookups return the same block. -/
theorem decoding_backend_independent_witness :
    EtherscanAPI.EthGetBlockByNumber hashOnlyUnmarshalers (fun i => IntToHex i.toNat)
      (threeKeys (fixedClient 200 (.json (resultEnvelope (.obj [("hash", .str "0xb10c")])))))
      16 true =
    .done (NodeAPI.EthGetBlockByNumber hashOnlyUnmarshalers (fun i => IntToHex i.toNat)
      (nodeOver (fixedClient 200 (.json (resultEnvelope (.obj [("hash", .str "0xb10c")])))))
      16 true) :=
  (decoding_backend_independent hashOnlyUnmarshalers (fun i => IntToHex i.toNat)
    (nodeOver (fixedClient 200 (.json (resultEnvelope (.obj [("hash", .str "0xb10c")])))))
    (threeKeys (fixedClient 200 (.json (resultEnvelope (.obj [("hash", .str "0xb10c")])))))
    (some (.obj [("hash", .str "0xb10c")]))).1 16 true rfl rfl

/-! ## C17: index accesses of `EtherscanAPI.Call` -/

/-- The only panics of the retry loop: the division by `len(x.tokens) = 0` and the access
`params[0]` on an empty parameter list. -/
theorem retryLoop_panic_cases (x : EtherscanAPI) (method : String) (params : List Param) :
    ∀ (fuel retry : Nat) (sent : List HttpRequest) (reason : String),
      (x.retryLoop method params fuel retry sent).outcome = .panic reason →
      (x.tokens = [] ∧ reason = "integer divide by zero") ∨
      (params = [] ∧ reason = "index out of range [0] with length 0") := by
  intro fuel
  induction fuel with
  | zero => intro retry sent reason h; simp [EtherscanAPI.retryLoop] at h
  | succ fuel ih =>
    intro retry sent reason h
    by_cases htok : x.tokens = []
    · rw [retryLoop_noTokens x method params fuel retry sent htok] at h
      simp only [Outcome.panic.injEq] at h
      exact Or.inl ⟨htok, h.symm⟩
    by_cases hr : 5 < retry
    · rw [retryLoop_stop x method params fuel retry sent htok hr] at h
      cases h
    have hr5 : retry ≤ 5 := by omega
    cases hreq : x.client.NewRequest x.url with
    | some err =>
      rw [retryLoop_badRequest x method params fuel retry sent htok hr5 err hreq] at h
      cases h
    | none =>
      by_cases hp : params = []
      · subst hp
        rw [retryLoop_noParams x method fuel retry sent htok hr5 hreq] at h
        simp only [Outcome.panic.injEq] at h
        exact Or.inr ⟨rfl, h.symm⟩
      rw [retryLoop_send x method params fuel retry sent htok hr5 hreq hp] at h
      split at h
      · cases h
      · split at h
        · exact ih _ _ _ h
        · cases h

/-- C17 (the code at the failing input): for a client built by `NewEtherscanAPI` the access
`tokens[retry % len(tokens)]` never panics, whatever the method and parameters; but a call
with the empty variadic parameter list evaluates `params[0]` as soon as the request has
been built and panics with an index out of range, before any request is sent (it returns
only when `http.NewRequest` has failed first). So does the call `Call("eth_blockNumber")`
on the client built from `key0,key1,key2`. -/
theorem call_without_parameters_panics :
    (∀ (client : HTTPClient) (token method : String) (params : List Param),
      ((NewEtherscanAPI client token []).Call method params).outcome ≠
        .panic "integer divide by zero" ∧
      ((NewEtherscanAPI client token []).Call method params).outcome ≠
        .panic "index out of range") ∧
    (∀ (client : HTTPClient) (token method : String),
      (NewEtherscanAPI client token []).Call method [] =
        ⟨.panic "index out of range [0] with length 0", []⟩ ∨
      ∃ err, client.NewRequest "https://api.etherscan.io/api" = some err ∧
        (NewEtherscanAPI client token []).Call method [] = ⟨.ret none (some err), []⟩) ∧
    (threeKeys (fixedClient 200 (.json (resultEnvelope (.str "0x10"))))).Call
        "eth_blockNumber" [] =
      ⟨.panic "index out of range [0] with length 0", []⟩ := by
  refine ⟨?_, ?_, rfl⟩
  · intro client token method params
    have htok := NewEtherscanAPI_tokens_ne_nil client token
    constructor
    · intro h
      rcases retryLoop_panic_cases _ method params 7 0 [] _ h with ⟨h1, -⟩ | ⟨-, h2⟩
      · exact htok h1
      · exact absurd h2 (by decide)
    · intro h
      rcases retryLoop_panic_cases _ method params 7 0 [] _ h with ⟨h1, -⟩ | ⟨-, h2⟩
      · exact htok h1
      · exact absurd h2 (by decide)
  · intro client token method
    have htok := NewEtherscanAPI_tokens_ne_nil client token
    cases hreq : client.NewRequest "https://api.etherscan.io/api" with
    | none =>
      exact Or.inl (retryLoop_noParams (NewEtherscanAPI client token []) method 6 0 [] htok
        (by omega) hreq)
    | some err =>
      exact Or.inr ⟨err, rfl, retryLoop_badRequest (NewEtherscanAPI client token []) method
        [] 6 0 [] htok (by omega) err hreq⟩

end Ethrpc
